import Mathlib

/-!
Verification of the rust_sql_miniserver storage and query engine.

This file shallowly embeds the Rust sources under `src/` into Lean:
pure Rust functions become Lean functions, fallible functions return
`Except`, and functions whose Rust originals can panic return an outcome
type with an explicit `panicked` constructor.  Machine integers are
modelled as `Int`/`Nat` with explicit two's-complement reductions where
the Rust code can wrap; `f64` values are modelled by their IEEE-754 bit
patterns (a `Nat` below `2 ^ 64`), with arithmetic defined through exact
rational computation followed by round-to-nearest-even, which is exactly
the IEEE behaviour for finite operands.  Rust `String`s are modelled as
their UTF-8 byte sequences (`List Nat`), which is equality-preserving.
-/

set_option maxRecDepth 4096

namespace SqlDb

deriving instance DecidableEq for Except

/-! ## Byte-level helpers (std integer encodings used by the codec) -/

/-- Big-endian bytes of a 32-bit word: `u32::to_be_bytes`. -/
def u32_be (n : Nat) : List Nat :=
  [n / 2 ^ 24 % 256, n / 2 ^ 16 % 256, n / 2 ^ 8 % 256, n % 256]

/-- Big-endian bytes of a 64-bit word: `u64::to_be_bytes`. -/
def u64_be (n : Nat) : List Nat :=
  [n / 2 ^ 56 % 256, n / 2 ^ 48 % 256, n / 2 ^ 40 % 256, n / 2 ^ 32 % 256,
   n / 2 ^ 24 % 256, n / 2 ^ 16 % 256, n / 2 ^ 8 % 256, n % 256]

/-- Big-endian bytes of an `i32` (two's complement): `i32::to_be_bytes`. -/
def i32_be (i : Int) : List Nat :=
  u32_be ((i % (2 ^ 32 : Int)).toNat)

/-- Read a big-endian 32-bit word from four bytes: `u32::from_be_bytes`. -/
def u32_of_be (b : List Nat) : Nat :=
  b.foldl (fun acc x => acc * 256 + x) 0

/-- Read a big-endian `i32` from four bytes: `i32::from_be_bytes`. -/
def i32_of_be (b : List Nat) : Int :=
  let n := u32_of_be b
  if n < 2 ^ 31 then (n : Int) else (n : Int) - 2 ^ 32

/-- Read a big-endian 64-bit word from eight bytes: `u64::from_be_bytes`. -/
def u64_of_be (b : List Nat) : Nat :=
  b.foldl (fun acc x => acc * 256 + x) 0

/-- Lower 32 bits of the i32 range check: `-2^31 <= i < 2^31`. -/
def i32_in_range (i : Int) : Prop := -(2 ^ 31) ≤ i ∧ i < 2 ^ 31

instance (i : Int) : Decidable (i32_in_range i) := by
  unfold i32_in_range; infer_instance

/-! ## IEEE-754 binary64 bit-pattern helpers

The Rust code stores `f64` values; we model them by their bit patterns.
Only the classification and equality of bit patterns is needed by the
storage layer. -/

/-- Sign bit of an `f64` bit pattern. -/
def f64_sign (bits : Nat) : Nat := bits / 2 ^ 63 % 2

/-- Biased exponent field of an `f64` bit pattern. -/
def f64_exp (bits : Nat) : Nat := bits / 2 ^ 52 % 2 ^ 11

/-- Mantissa field of an `f64` bit pattern. -/
def f64_frac (bits : Nat) : Nat := bits % 2 ^ 52

/-- Whether the bit pattern denotes a NaN. -/
def f64_isNaN (bits : Nat) : Bool := f64_exp bits == 2047 && f64_frac bits != 0

/-- Whether the bit pattern denotes an infinity. -/
def f64_isInf (bits : Nat) : Bool := f64_exp bits == 2047 && f64_frac bits == 0

/-- Whether the bit pattern denotes a (positive or negative) zero. -/
def f64_isZero (bits : Nat) : Bool := f64_exp bits == 0 && f64_frac bits == 0

/-- Bit pattern of positive zero. -/
def f64_pzero : Nat := 0

/-- Bit pattern of negative zero. -/
def f64_nzero : Nat := 2 ^ 63

/-- IEEE equality of two `f64` bit patterns: NaN is not equal to anything,
and the two zeros are equal; all other values are equal exactly when their
bit patterns agree. -/
def f64_eq (a b : Nat) : Bool :=
  if f64_isNaN a || f64_isNaN b then false
  else (if f64_isZero a then f64_pzero else a) == (if f64_isZero b then f64_pzero else b)

/-! ## Data model (`common/src/models/db.rs`) -/

/-- Rust `DataType`; the STRING size is an `i32` in the source. -/
inductive DataType where
  | INT : DataType
  | STRING : Int → DataType
  | BOOLEAN : DataType
  | FLOAT : DataType
deriving DecidableEq, Repr

/-- Rust `Data`, the runtime cell value.  Strings are UTF-8 byte lists,
floats are bit patterns. -/
inductive Data where
  | INT : Int → Data
  | STRING : List Nat → Data
  | NULL : Data
  | BOOLEAN : Bool → Data
  | FLOAT : Nat → Data
deriving DecidableEq, Repr

/-- Rust `impl PartialEq for Data`: float cells compare with `f64` equality,
everything else structurally; different variants are never equal. -/
def dataEq : Data → Data → Bool
  | .INT a, .INT b => a == b
  | .STRING a, .STRING b => a == b
  | .BOOLEAN a, .BOOLEAN b => a == b
  | .FLOAT a, .FLOAT b => f64_eq a b
  | .NULL, .NULL => true
  | _, _ => false

/-- Rust `Data::is_valid_data_for_type`. -/
def is_valid_data_for_type : Data → DataType → Bool
  | .INT _, t => t == .INT
  | .STRING _, t => match t with | .STRING _ => true | _ => false
  | .NULL, _ => true
  | .BOOLEAN _, t => t == .BOOLEAN
  | .FLOAT _, t => t == .FLOAT

/-- Rust `Data::to_type`, the type tag used in error payloads (as UTF-8). -/
def data_to_type (d : Data) : List Nat :=
  match d with
  | .INT _ => [73, 78, 84]
  | .STRING _ => [83, 84, 82, 73, 78, 71]
  | .NULL => [85, 78, 75, 78, 79, 87, 78, 32, 115, 105, 110, 99, 101, 32,
              118, 97, 108, 117, 101, 32, 119, 97, 115, 32, 110, 117, 108, 108]
  | .BOOLEAN _ => [66, 79, 79, 76, 69, 65, 78]
  | .FLOAT _ => [70, 76, 79, 65, 84]

/-- Rust `Column`. -/
structure Column where
  name : List Nat
  data_type : DataType
  is_indexed : Bool
deriving DecidableEq, Repr

/-- Rust `Row`. -/
structure Row where
  values : List Data
deriving DecidableEq, Repr

/-- Rust `impl PartialEq for Row` (derived): pointwise `Data` equality. -/
def rowEq (a b : Row) : Bool :=
  a.values.length == b.values.length &&
    (List.zip a.values b.values).all fun p => dataEq p.1 p.2

/-- Rust `Column::size` (`persistence/src/table/column.rs`): the on-disk
width of a cell.  `size as usize` reinterprets the `i32` in two's
complement at 64 bits. -/
def Column.size (c : Column) : Nat :=
  match c.data_type with
  | .INT => 8
  | .STRING size => (size % (2 ^ 64 : Int)).toNat
  | .BOOLEAN => 8
  | .FLOAT => 8

/-! ## Data codec (`persistence/src/table/row.rs`)

`Data::to_bytes` panics when a string exceeds `max_size`; the model pads
only, and every theorem below keeps strings within their declared size.
Slicing past the end of the byte buffer panics in Rust; the model's
`take`/`drop` slices are only used with in-range indices in the theorems. -/

/-- Rust `Data::to_bytes(max_size, data_type)`.  Note that `NULL` always
produces exactly 8 bytes, even for STRING columns of another width. -/
def Data.to_bytes : Data → Nat → DataType → List Nat
  | .INT i, _, _ => i32_be 0 ++ i32_be i
  | .STRING s, max_size, _ => s ++ List.replicate (max_size - s.length) 0
  | .NULL, _, dt =>
      match dt with
      | .INT => [1, 0, 0, 0, 0, 0, 0, 0]
      | .STRING _ => [0, 0, 0, 0, 0, 0, 0, 0]
      | .BOOLEAN => [0, 0, 0, 0, 0, 0, 0, 0]
      | .FLOAT => [0, 0, 0, 0, 0, 0, 0, 0]
  | .BOOLEAN b, _, _ => [1, 1, if b then 1 else 0, 0, 0, 0, 0, 0]
  | .FLOAT bits, _, _ => u64_be bits

/-- Rust `Data::int_from_bytes`: reads bytes 4..8 as a big-endian `i32`. -/
def int_from_bytes (bytes : List Nat) : Data :=
  .INT (i32_of_be ((bytes.drop 4).take 4))

/-- Rust `Data::string_from_bytes`: bytes up to the first zero.  The Rust
code additionally runs `String::from_utf8` and panics on invalid UTF-8;
strings are byte-transparent here and validity appears as a hypothesis
where it matters. -/
def string_from_bytes (bytes : List Nat) : Data :=
  .STRING (bytes.takeWhile fun b => b != 0)

/-- Rust `Data::boolean_from_bytes`: byte 2 decides the value. -/
def boolean_from_bytes (bytes : List Nat) : Data :=
  .BOOLEAN (bytes.getD 2 0 != 0)

/-- Rust `Data::float_from_bytes`: eight big-endian bytes of the bit
pattern. -/
def float_from_bytes (bytes : List Nat) : Data :=
  .FLOAT (u64_of_be bytes)

/-- Rust `Data::from_bytes(bytes, column)`.  The NULL sentinel comparison
`bytes.eq(&null)` compares the whole slice with an 8-byte array, so it can
only succeed when the slice itself has length 8. -/
def Data.from_bytes (bytes : List Nat) (column : Column) : Data :=
  match column.data_type with
  | .INT =>
      if bytes = [1, 0, 0, 0, 0, 0, 0, 0] then .NULL else int_from_bytes bytes
  | .STRING _ =>
      if bytes = [0, 0, 0, 0, 0, 0, 0, 0] then .NULL else string_from_bytes bytes
  | .BOOLEAN =>
      if bytes = [0, 0, 0, 0, 0, 0, 0, 0] then .NULL else boolean_from_bytes bytes
  | .FLOAT =>
      if bytes = [0, 0, 0, 0, 0, 0, 0, 0] then .NULL else float_from_bytes bytes

/-- Width of one cell read back by `Row::from_bytes`: STRING size for
string columns, 8 otherwise (matches the `data_size` match in the
source). -/
def cell_width (c : Column) : Nat :=
  match c.data_type with
  | .STRING size => (size % (2 ^ 64 : Int)).toNat
  | _ => 8

/-- Rust `Row::from_bytes(bytes, columns)`: walk the columns, slicing
`cell_width` bytes for each and decoding them. -/
def Row.from_bytes (bytes : List Nat) (columns : List Column) : Row :=
  let rec go : List Column → Nat → List Data
    | [], _ => []
    | c :: cs, counter =>
        Data.from_bytes ((bytes.drop counter).take (cell_width c)) c ::
          go cs (counter + cell_width c)
  ⟨go columns 0⟩

/-- Rust `Row::to_bytes(columns)`: concatenation of the per-column cell
encodings (`self.values.get(index).unwrap()` panics when the row is
shorter than the schema; theorems keep the lengths equal). -/
def Row.to_bytes (r : Row) (columns : List Column) : List Nat :=
  (List.zip r.values columns).foldr
    (fun p acc => Data.to_bytes p.1 p.2.size p.2.data_type ++ acc) []

/-- UTF-8 validity of a byte list (the `String::from_utf8` well-formedness
that Rust `String`s always satisfy). -/
def utf8_valid : List Nat → Bool
  | [] => true
  | b :: rest =>
      if b < 128 then utf8_valid rest
      else if 194 ≤ b && b ≤ 223 then
        match rest with
        | c :: rest2 => (128 ≤ c && c ≤ 191) && utf8_valid rest2
        | _ => false
      else if 224 ≤ b && b ≤ 239 then
        match rest with
        | c :: d :: rest2 =>
            (128 ≤ c && c ≤ 191) && (128 ≤ d && d ≤ 191) &&
            (b != 224 || c ≥ 160) && (b != 237 || c ≤ 159) && utf8_valid rest2
        | _ => false
      else if 240 ≤ b && b ≤ 244 then
        match rest with
        | c :: d :: e :: rest2 =>
            (128 ≤ c && c ≤ 191) && (128 ≤ d && d ≤ 191) && (128 ≤ e && e ≤ 191) &&
            (b != 240 || c ≥ 144) && (b != 244 || c ≤ 143) && utf8_valid rest2
        | _ => false
      else false

/-- A cell is a well-typed Rust value for its column: the variant matches
the declared type (or it is NULL), strings are valid UTF-8 that fits the
declared size, ints are in `i32` range, floats are 64-bit patterns. -/
def cell_wf (d : Data) (c : Column) : Bool :=
  match d, c.data_type with
  | .NULL, _ => true
  | .INT i, .INT => decide (i32_in_range i)
  | .STRING s, .STRING _ => utf8_valid s && s.length ≤ c.size
  | .BOOLEAN _, .BOOLEAN => true
  | .FLOAT bits, .FLOAT => bits < 2 ^ 64
  | _, _ => false


/-! ## Row codec round-trip (claims C1 and C8) -/

/-- Reformulation of the cell loop of `Row::from_bytes` that consumes the
byte list from the front. -/
def decodeCells : List Nat → List Column → List Data
  | _, [] => []
  | bytes, c :: cs =>
      Data.from_bytes (bytes.take (cell_width c)) c ::
        decodeCells (bytes.drop (cell_width c)) cs

theorem from_bytes_go_eq_decodeCells (bytes : List Nat) :
    ∀ (cs : List Column) (k : Nat),
      Row.from_bytes.go bytes cs k = decodeCells (bytes.drop k) cs := by
  intro cs
  induction cs with
  | nil => intro k; rfl
  | cons c cs ih =>
      intro k
      simp [Row.from_bytes.go, decodeCells, ih (k + cell_width c),
        List.drop_drop, Nat.add_comm]

theorem Row_from_bytes_eq_decodeCells (bytes : List Nat) (cs : List Column) :
    Row.from_bytes bytes cs = ⟨decodeCells bytes cs⟩ := by
  simp [Row.from_bytes, from_bytes_go_eq_decodeCells]

/-- Extra conditions (besides well-typedness) under which one cell survives
the encode/decode cycle; each exclusion corresponds to a genuine collision
or misalignment of the on-disk format. -/
def cell_roundtrips (d : Data) (c : Column) : Bool :=
  match d, c.data_type with
  | .NULL, .STRING _ => c.size == 8
  | .STRING s, .STRING _ =>
      s.all (fun b => b != 0) && (c.size != 8 || !s.isEmpty)
  | .FLOAT bits, .FLOAT => bits != 0 && !f64_isNaN bits
  | _, _ => true

theorem u32_roundtrip (n : Nat) (h : n < 2 ^ 32) : u32_of_be (u32_be n) = n := by
  simp [u32_of_be, u32_be]
  omega

theorem u64_roundtrip (n : Nat) (h : n < 2 ^ 64) : u64_of_be (u64_be n) = n := by
  simp [u64_of_be, u64_be]
  omega

theorem i32_roundtrip (i : Int) (h : i32_in_range i) : i32_of_be (i32_be i) = i := by
  rcases h with ⟨h1, h2⟩
  have hn : (i % (2 ^ 32 : Int)).toNat < 2 ^ 32 := by omega
  simp only [i32_be, i32_of_be, u32_roundtrip _ hn]
  split <;> omega

theorem takeWhile_nonzero_append (s t : List Nat) (h : s.all (fun b => b != 0) = true) :
    (s ++ t).takeWhile (fun b => b != 0) = s ++ t.takeWhile (fun b => b != 0) := by
  induction s with
  | nil => rfl
  | cons a s ih =>
      simp only [List.all_cons, Bool.and_eq_true] at h
      simp [List.takeWhile, h.1, ih h.2]

theorem takeWhile_replicate_zero (n : Nat) :
    (List.replicate n 0).takeWhile (fun b => b != 0) = ([] : List Nat) := by
  cases n <;> simp [List.replicate, List.takeWhile]

/-- Length of one encoded cell equals the column width, for well-formed
cells satisfying the roundtrip conditions. -/
theorem to_bytes_length (d : Data) (c : Column)
    (h1 : cell_wf d c = true) (h2 : cell_roundtrips d c = true) :
    (Data.to_bytes d c.size c.data_type).length = cell_width c := by
  rcases d with i | s | _ | b | bits <;> rcases hdt : c.data_type with _ | sz | _ | _ <;>
    simp [cell_wf, hdt] at h1 ⊢ <;>
    simp [Data.to_bytes, cell_width, i32_be, u32_be, u64_be, Column.size, hdt,
      cell_roundtrips] at h2 ⊢
  · -- STRING cell in STRING column: padding fills up to the declared size
    have : s.length ≤ c.size := h1.2
    simp [Column.size, hdt] at this
    omega
  · -- NULL in a STRING column: width 8 by the roundtrip condition
    have := h2
    simp [Column.size, hdt] at this
    omega

/-- One well-formed cell that satisfies the roundtrip side conditions
decodes back to a value Rust-equal to the original. -/
theorem cell_roundtrip (d : Data) (c : Column)
    (h1 : cell_wf d c = true) (h2 : cell_roundtrips d c = true) :
    dataEq (Data.from_bytes (Data.to_bytes d c.size c.data_type) c) d = true := by
  cases d with
  | INT i =>
      rcases hdt : c.data_type with _ | sz | _ | _ <;> simp [cell_wf, hdt] at h1
      have hu0 : i32_be 0 = [0, 0, 0, 0] := by decide
      have henc : Data.to_bytes (.INT i) c.size DataType.INT
          = [0, 0, 0, 0] ++ i32_be i := by
        rw [show Data.to_bytes (.INT i) c.size DataType.INT
          = i32_be 0 ++ i32_be i from rfl, hu0]
      have hne : ([0, 0, 0, 0] : List Nat) ++ i32_be i ≠ [1, 0, 0, 0, 0, 0, 0, 0] := by
        simp [i32_be, u32_be]
      simp only [Data.from_bytes, hdt, henc]
      rw [if_neg hne]
      simp only [int_from_bytes]
      rw [show (4 : Nat) = ([0, 0, 0, 0] : List Nat).length from rfl, List.drop_left]
      rw [List.take_of_length_le (by simp [i32_be, u32_be])]
      rw [i32_roundtrip i h1]
      simp [dataEq]
  | STRING s =>
      rcases hdt : c.data_type with _ | sz | _ | _ <;> simp [cell_wf, hdt] at h1
      obtain ⟨hvalid, hsz⟩ := h1
      simp only [cell_roundtrips, hdt, Bool.and_eq_true] at h2
      obtain ⟨hall, hor⟩ := h2
      have hz : ∀ x ∈ s, x ≠ 0 := by
        intro x hx
        have := List.all_eq_true.mp hall x hx
        simpa using this
      have henc : Data.to_bytes (.STRING s) c.size (DataType.STRING sz)
          = s ++ List.replicate (c.size - s.length) 0 := rfl
      have hnotnull : s ++ List.replicate (c.size - s.length) 0
          ≠ [0, 0, 0, 0, 0, 0, 0, 0] := by
        intro hcontra
        by_cases h8 : c.size = 8
        · have hsne : s ≠ [] := by
            intro he
            simp [h8, he] at hor
          rcases s with _ | ⟨a, s2⟩
          · exact hsne rfl
          · have ha := hz a (by simp)
            have : a = 0 := by
              have := congrArg (fun l => l.headI) hcontra
              simpa using this
            exact ha this
        · have hlen := congrArg List.length hcontra
          simp [List.length_append, List.length_replicate] at hlen
          exact h8 (by omega)
      simp only [Data.from_bytes, hdt, henc]
      rw [if_neg hnotnull]
      simp only [string_from_bytes]
      rw [takeWhile_nonzero_append s _ (by
        simp only [List.all_eq_true]
        intro x hx
        simpa using hz x hx), takeWhile_replicate_zero]
      simp [dataEq]
  | NULL =>
      rcases hdt : c.data_type with _ | sz | _ | _ <;>
        simp [Data.to_bytes, Data.from_bytes, hdt, dataEq]
  | BOOLEAN b =>
      rcases hdt : c.data_type with _ | sz | _ | _ <;> simp [cell_wf, hdt] at h1
      cases b <;> simp [Data.to_bytes, Data.from_bytes, hdt, boolean_from_bytes, dataEq]
  | FLOAT bits =>
      rcases hdt : c.data_type with _ | sz | _ | _ <;> simp [cell_wf, hdt] at h1
      simp only [cell_roundtrips, hdt, Bool.and_eq_true] at h2
      obtain ⟨hb0, hnan⟩ := h2
      have hb0n : bits ≠ 0 := by simpa using hb0
      have hnanb : f64_isNaN bits = false := by simpa using hnan
      have hne : u64_be bits ≠ [0, 0, 0, 0, 0, 0, 0, 0] := by
        intro hcontra
        apply hb0n
        simp [u64_be] at hcontra
        omega
      simp only [Data.to_bytes, Data.from_bytes, hdt]
      rw [if_neg hne]
      simp only [float_from_bytes, u64_roundtrip bits h1]
      simp [dataEq, f64_eq, hnanb]

/-- Claim C1 (amended): the row codec round-trip holds for well-typed rows
whose cells additionally avoid the codec collisions: no `FLOAT` cell that
is a zero or NaN, every `STRING` cell free of NUL bytes and nonempty when
its column width is 8, and `NULL` string cells only in columns of width 8. -/
theorem row_roundtrip_amended (columns : List Column) (r : Row)
    (hlen : r.values.length = columns.length)
    (hwf : ∀ p ∈ List.zip r.values columns, cell_wf p.1 p.2 = true)
    (hrt : ∀ p ∈ List.zip r.values columns, cell_roundtrips p.1 p.2 = true) :
    rowEq (Row.from_bytes (r.to_bytes columns) columns) r = true := by
  rw [Row_from_bytes_eq_decodeCells]
  suffices h : ∀ (vs : List Data) (cs : List Column), vs.length = cs.length →
      (∀ p ∈ List.zip vs cs, cell_wf p.1 p.2 = true) →
      (∀ p ∈ List.zip vs cs, cell_roundtrips p.1 p.2 = true) →
      (decodeCells ((List.zip vs cs).foldr
        (fun p acc => Data.to_bytes p.1 p.2.size p.2.data_type ++ acc) []) cs).length
          = vs.length ∧
      (List.zip (decodeCells ((List.zip vs cs).foldr
        (fun p acc => Data.to_bytes p.1 p.2.size p.2.data_type ++ acc) []) cs) vs).all
        (fun p => dataEq p.1 p.2) = true by
    have := h r.values columns hlen hwf hrt
    simp [rowEq, Row.to_bytes, this.1, this.2]
  intro vs
  induction vs with
  | nil =>
      intro cs hl _ _
      cases cs with
      | nil => simp [decodeCells]
      | cons c cs => simp at hl
  | cons v vs ih =>
      intro cs hl hwf1 hrt1
      cases cs with
      | nil => simp at hl
      | cons c cs =>
          have hv : cell_wf v c = true := hwf1 (v, c) (by simp)
          have hr : cell_roundtrips v c = true := hrt1 (v, c) (by simp)
          have hlen1 : (Data.to_bytes v c.size c.data_type).length = cell_width c :=
            to_bytes_length v c hv hr
          have hrest := ih cs (by simpa using hl)
            (fun p hp => hwf1 p (by simp [hp]))
            (fun p hp => hrt1 p (by simp [hp]))
          simp only [List.zip_cons_cons, List.foldr_cons, decodeCells]
          rw [List.take_left' hlen1, List.drop_left' hlen1]
          constructor
          · simp [hrest.1]
          · simp only [List.zip_cons_cons, List.all_cons, Bool.and_eq_true]
            exact ⟨cell_roundtrip v c hv hr, hrest.2⟩

/-- Claim C1, counterexample: the round-trip as stated fails on the code.
The empty string is a well-typed cell of a `STRING {size: 8}` column that
fits its declared size, yet it encodes to the eight-zero-byte NULL
sentinel and decodes back to `NULL`, so `Row::from_bytes(r.to_bytes(S), S)
!= r`. -/
theorem claim_C1_counterexample :
    let c : Column := ⟨[99], DataType.STRING 8, false⟩
    let r : Row := ⟨[Data.STRING []]⟩
    cell_wf (Data.STRING []) c = true ∧
      rowEq (Row.from_bytes (r.to_bytes [c]) [c]) r = false := by
  constructor
  · decide
  · rw [Row_from_bytes_eq_decodeCells]
    decide

/-- Claim C1 (amended), witness: a concrete five-column row (INT, short
STRING, BOOLEAN, FLOAT one, NULL string cell in a width-8 column) survives
the round-trip. -/
theorem claim_C1_witness :
    let columns : List Column :=
      [⟨[97], DataType.INT, false⟩, ⟨[98], DataType.STRING 4, false⟩,
       ⟨[99], DataType.BOOLEAN, false⟩, ⟨[100], DataType.FLOAT, false⟩,
       ⟨[101], DataType.STRING 8, false⟩]
    let r : Row :=
      ⟨[Data.INT 5, Data.STRING [104, 105], Data.BOOLEAN true,
        Data.FLOAT 4607182418800017408, Data.NULL]⟩
    rowEq (Row.from_bytes (r.to_bytes columns) columns) r = true := by
  exact row_roundtrip_amended _ _ (by decide) (by decide) (by decide)

/-- Claim C8: the value `FLOAT(0.0)` (bit pattern zero) encodes to the
eight all-zero bytes, which is exactly the FLOAT NULL sentinel, so for
every FLOAT column the decoding of its encoding is `Data::NULL` instead
of the original float. -/
theorem claim_C8 (name : List Nat) (indexed : Bool) :
    let c : Column := ⟨name, DataType.FLOAT, indexed⟩
    Data.to_bytes (Data.FLOAT f64_pzero) c.size c.data_type
        = [0, 0, 0, 0, 0, 0, 0, 0] ∧
      Data.from_bytes (Data.to_bytes (Data.FLOAT f64_pzero) c.size c.data_type) c
        = Data.NULL := by
  constructor
  · show u64_be f64_pzero = _
    decide
  · simp [Data.from_bytes, Data.to_bytes, u64_be, f64_pzero]

/-! ## Exact model of `f64` arithmetic

Finite `f64` values denote rationals; every IEEE-754 arithmetic result on
finite operands is the exact rational result rounded to nearest, ties to
even.  The functions below implement exactly that, plus the special-value
(NaN, infinity, signed zero) cases, over bit patterns. -/

/-- Canonical quiet NaN bit pattern (the payload of a Rust NaN result is
never observable through the operations modelled here). -/
def f64_qnan : Nat := 2047 * 2 ^ 52 + 2 ^ 51

/-- Bit pattern of positive infinity. -/
def f64_pinf : Nat := 2047 * 2 ^ 52

/-- Negating an `f64` flips the sign bit. -/
def f64_neg (bits : Nat) : Nat :=
  if bits < 2 ^ 63 then bits + 2 ^ 63 else bits - 2 ^ 63

/-- Exact (unnormalised) fraction with a positive denominator, used to
carry the exact rational value of finite floats through the arithmetic
before rounding. -/
structure Frac where
  num : Int
  den : Nat
deriving DecidableEq, Repr

/-- Embed an integer. -/
def Frac.ofInt (i : Int) : Frac := ⟨i, 1⟩

/-- Exact sum. -/
def Frac.add (a b : Frac) : Frac := ⟨a.num * b.den + b.num * a.den, a.den * b.den⟩

/-- Exact product. -/
def Frac.mul (a b : Frac) : Frac := ⟨a.num * b.num, a.den * b.den⟩

/-- Exact difference. -/
def Frac.sub (a b : Frac) : Frac := ⟨a.num * b.den - b.num * a.den, a.den * b.den⟩

/-- Negation. -/
def Frac.neg (a : Frac) : Frac := ⟨-a.num, a.den⟩

/-- Absolute value. -/
def Frac.abs (a : Frac) : Frac := ⟨(a.num.natAbs : Int), a.den⟩

/-- Exact quotient (the divisor must be nonzero, which every caller
checks first). -/
def Frac.divBy (a b : Frac) : Frac :=
  if 0 ≤ b.num then ⟨a.num * b.den, a.den * b.num.toNat⟩
  else ⟨-(a.num * b.den), a.den * (-b.num).toNat⟩

/-- Strict order (cross multiplication; denominators are positive). -/
def Frac.lt (a b : Frac) : Bool := a.num * b.den < b.num * a.den

/-- Non-strict order. -/
def Frac.le (a b : Frac) : Bool := a.num * b.den ≤ b.num * a.den

/-- Equality of denoted rationals. -/
def Frac.eqb (a b : Frac) : Bool := a.num * b.den == b.num * a.den

/-- Whether the denoted rational is zero. -/
def Frac.isZero (a : Frac) : Bool := a.num == 0

/-- Floor of the denoted rational. -/
def Frac.floor (a : Frac) : Int := Int.fdiv a.num a.den

/-- The power `2 ^ e` as a fraction, for any integer `e`. -/
def fracPow2 (e : Int) : Frac :=
  if 0 ≤ e then ⟨2 ^ e.toNat, 1⟩ else ⟨1, 2 ^ (-e).toNat⟩

/-- The power `10 ^ e` as a fraction, for any integer `e`. -/
def fracPow10 (e : Int) : Frac :=
  if 0 ≤ e then ⟨10 ^ e.toNat, 1⟩ else ⟨1, 10 ^ (-e).toNat⟩

/-- Exact rational value of a finite `f64` bit pattern (garbage on
NaN/infinity patterns, which every caller excludes first). -/
def fracOfBits (bits : Nat) : Frac :=
  let sgn : Int := if f64_sign bits = 1 then -1 else 1
  if f64_exp bits = 0 then ⟨sgn * f64_frac bits, 2 ^ 1074⟩
  else Frac.mul ⟨sgn * (2 ^ 52 + f64_frac bits : Nat), 1⟩
    (fracPow2 ((f64_exp bits : Int) - 1075))

/-- Base-2 logarithm of a natural number (floor), written with explicit
fuel so that it reduces by kernel computation. -/
def log2fuel : Nat → Nat → Nat
  | 0, _ => 0
  | f + 1, n => if 2 ≤ n then log2fuel f (n / 2) + 1 else 0

/-- Floor of `log2 n` (0 for `n = 0`). -/
def natLog2 (n : Nat) : Nat := log2fuel n n

/-- Binade of a positive fraction: the unique `e` with `2^e ≤ a < 2^(e+1)`,
computed from the bit lengths of numerator and denominator plus one
correction step. -/
def fracLog2 (a : Frac) : Int :=
  let e0 : Int := (natLog2 a.num.natAbs : Int) - (natLog2 a.den : Int)
  if Frac.lt a (fracPow2 e0) then e0 - 1
  else if Frac.le (fracPow2 (e0 + 1)) a then e0 + 1
  else e0

/-- Round a fraction to an integer, nearest with ties to even. -/
def roundFracEven (q : Frac) : Int :=
  let f := q.floor
  let r := q.sub (Frac.ofInt f)
  if Frac.lt r ⟨1, 2⟩ then f
  else if Frac.lt ⟨1, 2⟩ r then f + 1
  else if f % 2 = 0 then f else f + 1

/-- Round a fraction to the nearest `f64` (ties to even), returning the
bit pattern; overflows to infinity, underflows through the subnormals to
a (positive) zero.  This is exactly the IEEE-754 result for any exact
rational, hence for any finite-operand arithmetic operation. -/
def bitsOfFrac (q : Frac) : Nat :=
  if q.isZero then 0
  else
    let s : Nat := if q.num < 0 then 1 else 0
    let a : Frac := q.abs
    let e : Int := fracLog2 a
    if e < -1022 then
      s * 2 ^ 63 + (roundFracEven (a.mul ⟨2 ^ 1074, 1⟩)).toNat
    else
      let m0 : Nat := (roundFracEven (a.mul (fracPow2 ((52 : Int) - e)))).toNat
      let e1 : Int := if m0 = 2 ^ 53 then e + 1 else e
      let m1 : Nat := if m0 = 2 ^ 53 then 2 ^ 52 else m0
      if e1 > 1023 then s * 2 ^ 63 + f64_pinf
      else s * 2 ^ 63 + (e1 + 1023).toNat * 2 ^ 52 + (m1 - 2 ^ 52)

/-- IEEE `f64` addition on bit patterns. -/
def f64_add (x y : Nat) : Nat :=
  if f64_isNaN x || f64_isNaN y then f64_qnan
  else if f64_isInf x && f64_isInf y then
    (if f64_sign x = f64_sign y then x else f64_qnan)
  else if f64_isInf x then x
  else if f64_isInf y then y
  else if f64_isZero x && f64_isZero y then
    (if f64_sign x = 1 ∧ f64_sign y = 1 then f64_nzero else f64_pzero)
  else
    let q := (fracOfBits x).add (fracOfBits y)
    if q.isZero then f64_pzero else bitsOfFrac q

/-- IEEE `f64` subtraction: `x - y = x + (-y)` holds bit-exactly. -/
def f64_sub (x y : Nat) : Nat := f64_add x (f64_neg y)

/-- Sign bit of a product or quotient. -/
def f64_xor_sign (x y : Nat) : Nat :=
  if f64_sign x = f64_sign y then 0 else 1

/-- IEEE `f64` multiplication on bit patterns. -/
def f64_mul (x y : Nat) : Nat :=
  if f64_isNaN x || f64_isNaN y then f64_qnan
  else if (f64_isInf x && f64_isZero y) || (f64_isZero x && f64_isInf y) then f64_qnan
  else if f64_isInf x || f64_isInf y then f64_xor_sign x y * 2 ^ 63 + f64_pinf
  else if f64_isZero x || f64_isZero y then f64_xor_sign x y * 2 ^ 63
  else bitsOfFrac ((fracOfBits x).mul (fracOfBits y))

/-- IEEE `f64` division on bit patterns. -/
def f64_div (x y : Nat) : Nat :=
  if f64_isNaN x || f64_isNaN y then f64_qnan
  else if f64_isInf x && f64_isInf y then f64_qnan
  else if f64_isInf x then f64_xor_sign x y * 2 ^ 63 + f64_pinf
  else if f64_isInf y then f64_xor_sign x y * 2 ^ 63
  else if f64_isZero y then
    (if f64_isZero x then f64_qnan else f64_xor_sign x y * 2 ^ 63 + f64_pinf)
  else if f64_isZero x then f64_xor_sign x y * 2 ^ 63
  else bitsOfFrac ((fracOfBits x).divBy (fracOfBits y))

/-- Truncation of a fraction toward zero. -/
def truncFrac (q : Frac) : Int := if 0 ≤ q.num then q.floor else -(q.neg.floor)

/-- IEEE `f64` remainder (Rust `%` on floats, i.e. `fmod`): the result
`x - trunc(x/y)*y` is always exactly representable. -/
def f64_rem (x y : Nat) : Nat :=
  if f64_isNaN x || f64_isNaN y then f64_qnan
  else if f64_isInf x || f64_isZero y then f64_qnan
  else if f64_isInf y then x
  else if f64_isZero x then x
  else
    let qx := fracOfBits x
    let qy := fracOfBits y
    let r := qx.sub (qy.mul (Frac.ofInt (truncFrac (qx.divBy qy))))
    if r.isZero then f64_sign x * 2 ^ 63 else bitsOfFrac r

/-- IEEE `f64` comparison: `none` when a NaN is involved, otherwise the
order of the denoted extended reals (the two zeros compare equal). -/
def f64_cmp (x y : Nat) : Option Ordering :=
  if f64_isNaN x || f64_isNaN y then none
  else
    let key : Nat → (Int × Frac) := fun b =>
      if f64_isInf b then (if f64_sign b = 1 then (-1, ⟨0, 1⟩) else (1, ⟨0, 1⟩))
      else (0, fracOfBits b)
    let kx := key x
    let ky := key y
    some (if kx.1 < ky.1 then .lt
      else if ky.1 < kx.1 then .gt
      else if Frac.lt kx.2 ky.2 then .lt
      else if Frac.lt ky.2 kx.2 then .gt
      else .eq)

/-- Conversion `i as f64` (exact for every `i32`). -/
def f64_of_int (i : Int) : Nat := bitsOfFrac (Frac.ofInt i)

/-! ## Lexer tokens and parse errors (`query_parser/src/parser`) -/

/-- Rust `LexerToken`.  String payloads are UTF-8 byte lists, float
literals are `f64` bit patterns. -/
inductive LexerToken where
  | Select | Insert | Delete | Create | Drop | Table | Index | Where
  | From | Into | On | Values | Null
  | StringLiteral (s : List Nat)
  | NumberLiteral (i : Int)
  | FloatNumberLiteral (bits : Nat)
  | BoolLiteral (b : Bool)
  | Identifier (s : List Nat)
  | Comma | Semicolon | Star | Plus | Minus | Slash
  | CompareOp (op : List Nat)
  | ParOpen | ParClose
  | DataType (s : List Nat)
  | LogicalOp (op : List Nat)
  | Not | ExclamationMark | Percent
deriving DecidableEq, Repr

/-- Rust `PartialEq` on `LexerToken` (derived in the source): structural,
except that float literals compare with `f64` equality. -/
def tokenEq : LexerToken → LexerToken → Bool
  | .FloatNumberLiteral a, .FloatNumberLiteral b => f64_eq a b
  | a, b => a == b

/-- Rust `NodeValue` (`expression_tree_eval.rs`). -/
inductive NodeValue where
  | Bool (b : Bool)
  | String (s : List Nat)
  | Int (i : Int)
  | Float (bits : Nat)
  | Null
deriving DecidableEq, Repr

/-- Rust `ParseError` (`query_parser/src/parser/errors.rs`). -/
inductive ParseError where
  | InvalidChar (c : Char) (pos : Nat)
  | InvalidIdentifier (c : Char) (ident : List Nat)
  | UnfinishedStringLiteral (s : List Nat)
  | UnexpectedToken (expected : List Nat) (got : LexerToken)
  | UnexpectedQueryEnding
  | UnfinishedParenthesis
  | InsertQueryValuesMismatch
  | InvalidOperator (expected : List Nat) (got : LexerToken)
  | InvalidType (expected : List Nat) (got : NodeValue)
  | IdentifierNotFound (ident : List Nat)
deriving DecidableEq, Repr

/-- Outcome of running a piece of Rust code that can return a value,
return an error, or panic.  The Rust signature is `Result<A, ParseError>`;
the `panicked` constructor captures executions that die before returning
(index out of bounds, arithmetic overflow with debug assertions,
`unreachable!`). -/
inductive PResult (α : Type) where
  | ok (v : α)
  | err (e : ParseError)
  | panicked
deriving Repr, DecidableEq

/-- Monadic glue for `PResult`, mirroring the `?` operator. -/
def PResult.bind {α β : Type} : PResult α → (α → PResult β) → PResult β
  | .ok v, f => f v
  | .err e, _ => .err e
  | .panicked, _ => .panicked

/-- Rust expression-tree `Node`. -/
inductive Node where
  | Leaf (token : LexerToken)
  | Binary (left : Node) (op : LexerToken) (right : Node)
  | Unary (op : LexerToken) (node : Node)
deriving DecidableEq, Repr

/-- Rust `Node::collect_identifiers`, returning the identifiers of every
identifier leaf in tree order. -/
def collect_identifiers : Node → List (List Nat)
  | .Leaf (.Identifier id) => [id]
  | .Leaf _ => []
  | .Binary l _ r => collect_identifiers l ++ collect_identifiers r
  | .Unary _ n => collect_identifiers n

/-! ## Expression evaluator (`expression_tree_eval.rs`) -/

/-- Rust `NumberBinOp`. -/
inductive NumberBinOp where
  | Add | Sub | Mul | Div | Mod | Less | Greater | LessEqual | GreaterEqual
  | Equal | NotEqual
deriving DecidableEq, Repr

/-- UTF-8 bytes of short ASCII strings used in error payloads. -/
def asciiBytes (s : String) : List Nat := s.toList.map Char.toNat

/-- Rust `TryFrom<&LexerToken> for NumberBinOp`. -/
def numberBinOpOfToken (value : LexerToken) : Except ParseError NumberBinOp :=
  match value with
  | .Plus => .ok .Add
  | .Minus => .ok .Sub
  | .Star => .ok .Mul
  | .Slash => .ok .Div
  | .Percent => .ok .Mod
  | .CompareOp op =>
      if op = asciiBytes ">" then .ok .Greater
      else if op = asciiBytes "<" then .ok .Less
      else if op = asciiBytes ">=" then .ok .GreaterEqual
      else if op = asciiBytes "<=" then .ok .LessEqual
      else if op = asciiBytes "=" then .ok .Equal
      else if op = asciiBytes "!=" ∨ op = asciiBytes "<>" then .ok .NotEqual
      else .error (.InvalidOperator (asciiBytes "binary operator") value)
  | _ => .error (.InvalidOperator (asciiBytes "binary operator") value)

/-- Rust `BoolBinOp`. -/
inductive BoolBinOp where
  | And | Or | Xor | Equal | NotEqual
deriving DecidableEq, Repr

/-- Rust `TryFrom<&LexerToken> for BoolBinOp`. -/
def boolBinOpOfToken (value : LexerToken) : Except ParseError BoolBinOp :=
  match value with
  | .LogicalOp op =>
      if op = asciiBytes "and" then .ok .And
      else if op = asciiBytes "or" then .ok .Or
      else if op = asciiBytes "xor" then .ok .Xor
      else .error (.InvalidOperator (asciiBytes "and, or, xor") value)
  | .CompareOp op =>
      if op = asciiBytes "=" then .ok .Equal
      else if op = asciiBytes "!=" ∨ op = asciiBytes "<>" then .ok .NotEqual
      else .error (.InvalidOperator (asciiBytes "=, !=, <>") value)
  | _ => .error (.InvalidOperator (asciiBytes "binary bool operator") value)

/-- Rust `StringOp`. -/
inductive StringOp where
  | Concat | Equal | NotEqual
deriving DecidableEq, Repr

/-- Rust `TryFrom<&LexerToken> for StringOp`. -/
def stringOpOfToken (value : LexerToken) : Except ParseError StringOp :=
  match value with
  | .Plus => .ok .Concat
  | .CompareOp op =>
      if op = asciiBytes "=" then .ok .Equal
      else if op = asciiBytes "!=" ∨ op = asciiBytes "<>" then .ok .NotEqual
      else .error (.InvalidOperator (asciiBytes "=, !=, <>") value)
  | _ => .error (.InvalidOperator (asciiBytes "binary string operator") value)

/-- Identifier environment: Rust `HashMap<String, NodeValue>`, modelled as
an association list where the most recent insertion shadows older ones. -/
def IdentMap := List (List Nat × NodeValue)

/-- `HashMap::get`. -/
def mapGet (m : IdentMap) (k : List Nat) : Option NodeValue :=
  (List.find? (fun p => p.1 == k) m).map Prod.snd

/-- `HashMap::insert` (overwriting). -/
def mapInsert (m : IdentMap) (k : List Nat) (v : NodeValue) : IdentMap :=
  (k, v) :: m

/-- Rust `evaluate_int_number_op`: unchecked `i32` arithmetic.  Division
and remainder by zero (and the `i32::MIN / -1` overflow) always panic in
Rust; `+ - *` overflow panics under the dev profile (debug assertions),
which is the semantics modelled here. -/
def evaluate_int_number_op (i1 i2 : Int) (op : NumberBinOp) : PResult NodeValue :=
  match op with
  | .Add => if i32_in_range (i1 + i2) then .ok (.Int (i1 + i2)) else .panicked
  | .Sub => if i32_in_range (i1 - i2) then .ok (.Int (i1 - i2)) else .panicked
  | .Mul => if i32_in_range (i1 * i2) then .ok (.Int (i1 * i2)) else .panicked
  | .Div =>
      if i2 = 0 ∨ (i1 = -(2 ^ 31) ∧ i2 = -1) then .panicked
      else .ok (.Int (Int.tdiv i1 i2))
  | .Mod =>
      if i2 = 0 ∨ (i1 = -(2 ^ 31) ∧ i2 = -1) then .panicked
      else .ok (.Int (Int.tmod i1 i2))
  | .Greater => .ok (.Bool (decide (i1 > i2)))
  | .Less => .ok (.Bool (decide (i1 < i2)))
  | .GreaterEqual => .ok (.Bool (decide (i1 ≥ i2)))
  | .LessEqual => .ok (.Bool (decide (i1 ≤ i2)))
  | .Equal => .ok (.Bool (i1 == i2))
  | .NotEqual => .ok (.Bool (i1 != i2))

/-- Rust `evaluate_float_number_op`. -/
def evaluate_float_number_op (f1 f2 : Nat) (op : NumberBinOp) : PResult NodeValue :=
  match op with
  | .Add => .ok (.Float (f64_add f1 f2))
  | .Sub => .ok (.Float (f64_sub f1 f2))
  | .Mul => .ok (.Float (f64_mul f1 f2))
  | .Div => .ok (.Float (f64_div f1 f2))
  | .Mod => .ok (.Float (f64_rem f1 f2))
  | .Greater => .ok (.Bool (f64_cmp f1 f2 == some .gt))
  | .Less => .ok (.Bool (f64_cmp f1 f2 == some .lt))
  | .GreaterEqual => .ok (.Bool (f64_cmp f1 f2 == some .gt || f64_cmp f1 f2 == some .eq))
  | .LessEqual => .ok (.Bool (f64_cmp f1 f2 == some .lt || f64_cmp f1 f2 == some .eq))
  | .Equal => .ok (.Bool (f64_eq f1 f2))
  | .NotEqual => .ok (.Bool (!f64_eq f1 f2))

/-- Rust `evaluate_binary_number_op`: dispatch on the operand variants,
promoting `i32` to `f64` when mixed. -/
def evaluate_binary_number_op (left_value right_value : NodeValue)
    (op : NumberBinOp) : PResult NodeValue :=
  match left_value, right_value with
  | .Int i1, .Int i2 => evaluate_int_number_op i1 i2 op
  | .Float f1, .Float f2 => evaluate_float_number_op f1 f2 op
  | .Int i1, .Float f2 => evaluate_float_number_op (f64_of_int i1) f2 op
  | .Float f1, .Int i2 => evaluate_float_number_op f1 (f64_of_int i2) op
  | .Int _, .Null => .ok .Null
  | .Float _, .Null => .ok .Null
  | _, _ => .err (.InvalidType (asciiBytes "int, float") right_value)

/-- Rust `evaluate_string_op`. -/
def evaluate_string_op (left_value right_value : NodeValue)
    (op : StringOp) : PResult NodeValue :=
  match left_value, right_value with
  | .String s1, .String s2 =>
      match op with
      | .Concat => .ok (.String (s1 ++ s2))
      | .Equal => .ok (.Bool (s1 == s2))
      | .NotEqual => .ok (.Bool (s1 != s2))
  | .String _, .Null => .ok .Null
  | _, _ => .err (.InvalidType (asciiBytes "string") right_value)

/-- Rust `evaluate_bool_op`. -/
def evaluate_bool_op (left_value right_value : NodeValue)
    (op : BoolBinOp) : PResult NodeValue :=
  match left_value, right_value with
  | .Bool b1, .Bool b2 =>
      match op with
      | .And => .ok (.Bool (b1 && b2))
      | .Or => .ok (.Bool (b1 || b2))
      | .Xor => .ok (.Bool (b1.xor b2))
      | .Equal => .ok (.Bool (b1 == b2))
      | .NotEqual => .ok (.Bool (b1 != b2))
  | .Bool _, .Null => .ok .Null
  | _, _ => .err (.InvalidType (asciiBytes "bool") right_value)

/-- Rust `evaluate_leaf`. -/
def evaluate_leaf (token : LexerToken) (identifier_map : IdentMap) : PResult NodeValue :=
  match token with
  | .BoolLiteral v => .ok (.Bool v)
  | .StringLiteral v => .ok (.String v)
  | .NumberLiteral v => .ok (.Int v)
  | .FloatNumberLiteral v => .ok (.Float v)
  | .Identifier id =>
      match mapGet identifier_map id with
      | none => .err (.IdentifierNotFound id)
      | some v => .ok v
  | .Null => .ok .Null
  | _ => .err (.UnexpectedToken (asciiBytes "leaf token") token)

/-- Rust `evaluate_unary`.  The catch-all arm is `unreachable!` in the
source, hence a panic.  Negating `i32::MIN` overflows (dev profile). -/
def evaluate_unary (op : LexerToken) (node_value : NodeValue) : PResult NodeValue :=
  match op with
  | .Not | .ExclamationMark =>
      match node_value with
      | .Bool v => .ok (.Bool !v)
      | .Null => .ok .Null
      | _ => .err (.InvalidType (asciiBytes "bool") node_value)
  | .Minus =>
      match node_value with
      | .Int v => if v = -(2 ^ 31) then .panicked else .ok (.Int (-v))
      | .Float v => .ok (.Float (f64_neg v))
      | .Null => .ok .Null
      | _ => .err (.InvalidType (asciiBytes "int, float") node_value)
  | _ => .panicked

/-- Lift a Rust `TryFrom` conversion (`op.try_into()?`) into `PResult`. -/
def liftConv {α β : Type} (c : Except ParseError α) (f : α → PResult β) : PResult β :=
  match c with
  | .ok v => f v
  | .error e => .err e

/-- Rust `evaluate_node`: the left operand's runtime type picks the
operator family; a `Null` left operand makes `=` and `<>` compare the
right operand against `Null` and every other operator yield `Null`. -/
def evaluate_node (node : Node) (identifier_map : IdentMap) : PResult NodeValue :=
  match node with
  | .Leaf token => evaluate_leaf token identifier_map
  | .Unary op n =>
      PResult.bind (evaluate_node n identifier_map) fun node_value =>
        evaluate_unary op node_value
  | .Binary left op right =>
      PResult.bind (evaluate_node left identifier_map) fun left_value =>
        PResult.bind (evaluate_node right identifier_map) fun right_value =>
          match left_value with
          | .Bool _ =>
              liftConv (boolBinOpOfToken op) (evaluate_bool_op left_value right_value)
          | .String _ =>
              liftConv (stringOpOfToken op) (evaluate_string_op left_value right_value)
          | .Int _ =>
              liftConv (numberBinOpOfToken op)
                (evaluate_binary_number_op left_value right_value)
          | .Float _ =>
              liftConv (numberBinOpOfToken op)
                (evaluate_binary_number_op left_value right_value)
          | .Null =>
              match op with
              | .CompareOp o =>
                  if o = asciiBytes "=" then
                    .ok (.Bool (right_value == NodeValue.Null))
                  else if o = asciiBytes "<>" then
                    .ok (.Bool (right_value != NodeValue.Null))
                  else .ok .Null
              | _ => .ok .Null

/-- Rust `evaluate_binary_node`, the WHERE adapter: `Bool` passes through,
`Null` coerces to `false`, anything else is a type error. -/
def evaluate_binary_node (node : Node) (identifier_map : IdentMap) : PResult Bool :=
  PResult.bind (evaluate_node node identifier_map) fun val =>
    match val with
    | .Bool b => .ok b
    | .Null => .ok false
    | _ => .err (.InvalidType (asciiBytes "bool") val)

/-- Claim C2: when the left operand of a binary node evaluates to `Null`
(and the right operand evaluates to some value `v`), the operator `=`
yields `Bool(v == Null)`, the operator `<>` yields `Bool(v != Null)`, and
every other operator token — including `!=` — yields `Null`. -/
theorem claim_C2 (l r : Node) (m : IdentMap) (v : NodeValue)
    (hl : evaluate_node l m = .ok .Null) (hr : evaluate_node r m = .ok v) :
    evaluate_node (.Binary l (.CompareOp (asciiBytes "=")) r) m
        = .ok (.Bool (v == NodeValue.Null)) ∧
    evaluate_node (.Binary l (.CompareOp (asciiBytes "<>")) r) m
        = .ok (.Bool (v != NodeValue.Null)) ∧
    ∀ op : LexerToken, op ≠ .CompareOp (asciiBytes "=") →
      op ≠ .CompareOp (asciiBytes "<>") →
      evaluate_node (.Binary l op r) m = .ok .Null := by
  refine ⟨?_, ?_, ?_⟩
  · simp [evaluate_node, hl, hr, PResult.bind]
  · have hne : asciiBytes "<>" ≠ asciiBytes "=" := by decide
    simp [evaluate_node, hl, hr, PResult.bind, hne]
  · intro op h1 h2
    cases op <;> simp [evaluate_node, hl, hr, PResult.bind]
    next o =>
      rw [if_neg, if_neg]
      · intro he
        exact h2 (by rw [he])
      · intro he
        exact h1 (by rw [he])

/-- Claim C2, witness: concrete instances — `NULL != 3` evaluates to
`Null` (not to a boolean), and `NULL = NULL` evaluates to `true`. -/
theorem claim_C2_witness :
    evaluate_node (.Binary (.Leaf .Null) (.CompareOp (asciiBytes "!="))
      (.Leaf (.NumberLiteral 3))) [] = .ok .Null ∧
    evaluate_node (.Binary (.Leaf .Null) (.CompareOp (asciiBytes "="))
      (.Leaf .Null)) [] = .ok (.Bool (NodeValue.Null == NodeValue.Null)) := by
  constructor
  · exact (claim_C2 (.Leaf .Null) (.Leaf (.NumberLiteral 3)) [] (.Int 3)
      rfl rfl).2.2 _ (by decide) (by decide)
  · exact (claim_C2 (.Leaf .Null) (.Leaf .Null) [] .Null rfl rfl).1

/-- Claim C10: `evaluate_int_number_op` is not total — division or
remainder with a zero right operand panics for every left operand, and
well-typed expressions such as `1 / 0` and `2147483647 + 1` panic at the
evaluator level rather than producing a `ParseError`. -/
theorem claim_C10 :
    (∀ i : Int, evaluate_int_number_op i 0 .Div = .panicked) ∧
    (∀ i : Int, evaluate_int_number_op i 0 .Mod = .panicked) ∧
    evaluate_node (.Binary (.Leaf (.NumberLiteral 1)) .Slash
      (.Leaf (.NumberLiteral 0))) [] = .panicked ∧
    evaluate_node (.Binary (.Leaf (.NumberLiteral 2147483647)) .Plus
      (.Leaf (.NumberLiteral 1))) [] = .panicked := by
  refine ⟨?_, ?_, by decide, by decide⟩
  · intro i
    simp [evaluate_int_number_op]
  · intro i
    simp [evaluate_int_number_op]

/-! ## Tokenizer (`query_parser/src/parser/tokenizer.rs`)

The Rust tokenizer walks the characters of the input while tracking byte
offsets; every offset it slices at falls on a character boundary (offsets
only ever move past whole characters, and the `-1`/`-2` adjustments are
applied only when the current character is ASCII), so the model uses
character indices and the slices coincide. -/

/-- UTF-8 encoding of one character. -/
def utf8Char (c : Char) : List Nat :=
  let n := c.toNat
  if n < 128 then [n]
  else if n < 2048 then [192 + n / 64, 128 + n % 64]
  else if n < 65536 then [224 + n / 4096, 128 + n / 64 % 64, 128 + n % 64]
  else [240 + n / 262144, 128 + n / 4096 % 64, 128 + n / 64 % 64, 128 + n % 64]

/-- UTF-8 encoding of a character sequence (Rust `String::into_bytes`). -/
def utf8Encode (s : List Char) : List Nat := (s.map utf8Char).flatten

/-- Rust slice `&input[a..b]` at character positions. -/
def slice (input : List Char) (a b : Nat) : List Char := (input.drop a).take (b - a)

/-- Rust `char::is_alphanumeric` (exact on the ASCII range, which is all
the theorems below evaluate; non-ASCII letters are not recognised by this
model). -/
def char_is_alphanumeric (c : Char) : Bool := c.isAlphanum

/-- Rust `char::is_ascii_punctuation`. -/
def char_is_ascii_punctuation (c : Char) : Bool :=
  (33 ≤ c.toNat && c.toNat ≤ 47) || (58 ≤ c.toNat && c.toNat ≤ 64) ||
  (91 ≤ c.toNat && c.toNat ≤ 96) || (123 ≤ c.toNat && c.toNat ≤ 126)

/-- Rust `is_allowed_identifier_char`. -/
def is_allowed_identifier_char (c : Char) : Bool :=
  char_is_alphanumeric c || char_is_ascii_punctuation c

/-- Tokenizer state machine modes (`enum State` in `tokenize`). -/
inductive TkMode where
  | Normal | StrLit | StrLitEscapedChar | DoubleCharSizeOperator
deriving DecidableEq, Repr

/-- Mutable state of the `tokenize` loop: emitted lexemes, mode, and the
start position of the current lexeme. -/
structure TkState where
  tokens : List (List Char)
  mode : TkMode
  tokenStart : Nat
deriving DecidableEq, Repr

/-- One iteration of the `tokenize` loop on the character `c` at position
`pos` (so Rust's `token_current_i` is `pos + 1`); `peek` is the following
character when one exists. -/
def tokenizeStep (input : List Char) (pos : Nat) (c : Char) (peek : Option Char)
    (st : TkState) : Except ParseError TkState :=
  match st.mode with
  | .Normal =>
      if c = '(' ∨ c = ')' ∨ c = ' ' ∨ c = ',' ∨ c = ';' ∨ c = '=' ∨ c = '+' ∨ c = '-' then
        .ok ⟨st.tokens ++ [slice input st.tokenStart pos] ++
              (if c ≠ ' ' then [[c]] else []),
            .Normal, pos + 1⟩
      else if c = '"' ∨ c = '\x27' then .ok ⟨st.tokens, .StrLit, st.tokenStart⟩
      else if c = '\\' then .error (.InvalidChar '\\' pos)
      else if c = '>' ∨ c = '<' ∨ c = '!' then
        match peek with
        | some next =>
            if (c = '<' ∧ next = '=') ∨ (c = '>' ∧ next = '=') ∨
                (c = '<' ∧ next = '>') ∨ (c = '!' ∧ next = '=') then
              .ok ⟨st.tokens, .DoubleCharSizeOperator, st.tokenStart⟩
            else
              .ok ⟨st.tokens ++ [slice input st.tokenStart pos, [c]], .Normal, pos + 1⟩
        | none => .ok ⟨st.tokens, .Normal, st.tokenStart⟩
      else if is_allowed_identifier_char c then .ok ⟨st.tokens, .Normal, st.tokenStart⟩
      else .error (.InvalidChar c pos)
  | .StrLit =>
      if c = '\\' then .ok ⟨st.tokens, .StrLitEscapedChar, st.tokenStart⟩
      else if c = '"' ∨ c = '\x27' then
        match peek with
        | some next =>
            if next = ' ' ∨ next = ',' ∨ next = ';' ∨ next = '=' ∨ next = ')' then
              .ok ⟨st.tokens ++ [slice input st.tokenStart (pos + 1)], .Normal, pos + 1⟩
            else .error (.InvalidChar next (pos + 1))
        | none =>
            .ok ⟨st.tokens ++ [slice input st.tokenStart (pos + 1)], .Normal, pos + 1⟩
      else .ok ⟨st.tokens, .StrLit, st.tokenStart⟩
  | .StrLitEscapedChar => .ok ⟨st.tokens, .StrLit, st.tokenStart⟩
  | .DoubleCharSizeOperator =>
      .ok ⟨st.tokens ++ [slice input st.tokenStart (pos - 1),
            slice input (pos - 1) (pos + 1)],
          .Normal, pos + 1⟩

/-- The `tokenize` loop: step through the characters, and at the last
character run the end-of-input check of the source (push the trailing
lexeme in Normal mode, fail with `UnfinishedStringLiteral` otherwise). -/
def tokenizeLoop (input : List Char) : Nat → TkState → List Char →
    Except ParseError (List (List Char))
  | _, st, [] => .ok (st.tokens.filter fun t => !t.isEmpty)
  | pos, st, c :: rest =>
      match tokenizeStep input pos c rest.head? st with
      | .error e => .error e
      | .ok st2 =>
          if rest.isEmpty then
            match st2.mode with
            | .Normal =>
                tokenizeLoop input (pos + 1)
                  ⟨st2.tokens ++ [slice input st2.tokenStart (pos + 1)],
                    st2.mode, st2.tokenStart⟩ rest
            | _ =>
                .error (.UnfinishedStringLiteral
                  (utf8Encode (slice input st2.tokenStart (pos + 1))))
          else tokenizeLoop input (pos + 1) st2 rest

/-- Rust `tokenize`: run the loop and filter out empty lexemes. -/
def tokenize (input : List Char) : Except ParseError (List (List Char)) :=
  tokenizeLoop input 0 ⟨[], .Normal, 0⟩ input

/-! ## Lexer (`query_parser/src/parser/lexer.rs`) -/

/-- Rust `str::to_lowercase` (exact on ASCII, which covers every keyword
and operator comparison the lexer performs). -/
def toLowerStr (s : List Char) : List Char := s.map Char.toLower

/-- Rust `str::parse::<i32>`: optional sign, decimal digits, range check. -/
def parse_i32 (s : List Char) : Option Int :=
  let body := match s with
    | '+' :: t => some (false, t)
    | '-' :: t => some (true, t)
    | t => some (false, t)
  match body with
  | some (neg, ds) =>
      if ds.isEmpty || !ds.all Char.isDigit then none
      else
        let n : Nat := ds.foldl (fun acc c => acc * 10 + (c.toNat - 48)) 0
        let v : Int := if neg then -(n : Int) else (n : Int)
        if i32_in_range v then some v else none
  | none => none

/-- Digit-prefix split helper for the float grammar. -/
def spanDigits (s : List Char) : List Char × List Char :=
  (s.takeWhile Char.isDigit, s.dropWhile Char.isDigit)

/-- Natural number denoted by a digit string. -/
def digitsToNat (ds : List Char) : Nat :=
  ds.foldl (fun acc c => acc * 10 + (c.toNat - 48)) 0

/-- Rust `str::parse::<f64>`: decimal literals `[+-]digits[.digits][e[+-]digits]`
(either digit group may be empty but not both), plus `inf`, `infinity` and
`nan`.  The decimal value is computed exactly and rounded to the nearest
`f64`, which is what the Rust parser guarantees. -/
def parse_f64 (s : List Char) : Option Nat :=
  let signed : Bool × List Char := match s with
    | '+' :: t => (false, t)
    | '-' :: t => (true, t)
    | t => (false, t)
  let neg := signed.1
  let body := signed.2
  if body = "inf".toList ∨ body = "infinity".toList then
    some (if neg then 2 ^ 63 + f64_pinf else f64_pinf)
  else if body = "nan".toList then
    some (if neg then 2 ^ 63 + f64_qnan else f64_qnan)
  else
    let p1 := spanDigits body
    let d1 := p1.1
    let afterDot : Option (List Char × List Char) := match p1.2 with
      | '.' :: t => some (spanDigits t)
      | r => some ([], r)
    match afterDot with
    | some (d2, r2) =>
        if d1.isEmpty && d2.isEmpty then none
        else
          let mkVal : Int → Option Nat := fun e10 =>
            let q0 : Frac := (Frac.ofInt (digitsToNat (d1 ++ d2) : Int)).mul
              (fracPow10 (e10 - (d2.length : Int)))
            let q : Frac := if neg then q0.neg else q0
            some (if q.isZero then (if neg then f64_nzero else f64_pzero)
              else bitsOfFrac q)
          match r2 with
          | [] => mkVal 0
          | 'e' :: t =>
              let esigned : Bool × List Char := match t with
                | '+' :: t2 => (false, t2)
                | '-' :: t2 => (true, t2)
                | t2 => (false, t2)
              let p3 := spanDigits esigned.2
              if p3.1.isEmpty || !p3.2.isEmpty then none
              else mkVal (if esigned.1 then -(digitsToNat p3.1 : Int)
                else (digitsToNat p3.1 : Int))
          | _ => none
    | none => none

/-- Rust `lex` keyword/literal classification of one lexeme.  Keyword
matching happens on the lowercased lexeme; identifier and string-literal
payloads keep the original text (as UTF-8 bytes). -/
def lexOne (token_str : List Char) : Except ParseError LexerToken :=
  let lower := toLowerStr token_str
  if lower = "select".toList then .ok .Select
  else if lower = "insert".toList then .ok .Insert
  else if lower = "delete".toList then .ok .Delete
  else if lower = "create".toList then .ok .Create
  else if lower = "drop".toList then .ok .Drop
  else if lower = "table".toList then .ok .Table
  else if lower = "index".toList then .ok .Index
  else if lower = "where".toList then .ok .Where
  else if lower = "from".toList then .ok .From
  else if lower = "into".toList then .ok .Into
  else if lower = "on".toList then .ok .On
  else if lower = "values".toList then .ok .Values
  else if lower = "null".toList then .ok .Null
  else if lower = "true".toList then .ok (.BoolLiteral true)
  else if lower = "false".toList then .ok (.BoolLiteral false)
  else if lower = "=".toList ∨ lower = "!=".toList ∨ lower = ">".toList ∨
      lower = "<".toList ∨ lower = "<=".toList ∨ lower = ">=".toList ∨
      lower = "<>".toList then
    .ok (.CompareOp (utf8Encode token_str))
  else if lower = "(".toList then .ok .ParOpen
  else if lower = ")".toList then .ok .ParClose
  else if lower = "int".toList ∨ lower = "varchar".toList ∨
      lower = "float".toList ∨ lower = "boolean".toList then
    .ok (.DataType (utf8Encode lower))
  else if lower = "and".toList ∨ lower = "or".toList ∨ lower = "xor".toList then
    .ok (.LogicalOp (utf8Encode lower))
  else if lower = "not".toList then .ok .Not
  else if lower = "*".toList then .ok .Star
  else if lower = "+".toList then .ok .Plus
  else if lower = "-".toList then .ok .Minus
  else if lower = "/".toList then .ok .Slash
  else if lower = "%".toList then .ok .Percent
  else if lower = ",".toList then .ok .Comma
  else if lower = ";".toList then .ok .Semicolon
  else if lower = "!".toList then .ok .ExclamationMark
  else if (token_str.head? = some '"' ∧ token_str.getLast? = some '"') ∨
      (token_str.head? = some '\x27' ∧ token_str.getLast? = some '\x27') then
    .ok (.StringLiteral (utf8Encode ((token_str.drop 1).dropLast)))
  else
    match parse_i32 lower with
    | some number => .ok (.NumberLiteral number)
    | none =>
        match parse_f64 lower with
        | some number => .ok (.FloatNumberLiteral number)
        | none =>
            match token_str.find? (fun ch =>
                !(char_is_alphanumeric ch || ch = '.' || ch = '_' || ch = '-')) with
            | some bad => .error (.InvalidIdentifier bad (utf8Encode token_str))
            | none => .ok (.Identifier (utf8Encode token_str))

/-- Classify every lexeme in order, stopping at the first error. -/
def lexAll : List (List Char) → Except ParseError (List LexerToken)
  | [] => .ok []
  | t :: ts =>
      match lexOne t with
      | .error e => .error e
      | .ok tok =>
          match lexAll ts with
          | .error e => .error e
          | .ok toks => .ok (tok :: toks)

/-- Rust `lex`: tokenize then classify. -/
def lex (input : List Char) : Except ParseError (List LexerToken) :=
  match tokenize input with
  | .error e => .error e
  | .ok lexemes => lexAll lexemes

/-! ## Expression tree (`query_parser/src/parser/expression_tree.rs`) -/

/-- Rust `fix_operator_precedence`: rewrite the token stream by
parenthesis injection (four nesting levels). -/
def fix_operator_precedence (expression : List LexerToken) : List LexerToken :=
  if expression.length ≤ 2 then expression
  else
    let step : List LexerToken → LexerToken → List LexerToken := fun result token =>
      match token with
      | .LogicalOp _ =>
          result ++ [.ParClose, .ParClose, .ParClose, .ParClose, token,
            .ParOpen, .ParOpen, .ParOpen, .ParOpen]
      | .CompareOp _ =>
          result ++ [.ParClose, .ParClose, .ParClose, token,
            .ParOpen, .ParOpen, .ParOpen]
      | .Plus | .Minus =>
          if result.getLast? = some .ParOpen then result ++ [token]
          else result ++ [.ParClose, .ParClose, token, .ParOpen, .ParOpen]
      | .Star | .Slash | .Percent => result ++ [.ParClose, token, .ParOpen]
      | .ParOpen => result ++ [token, .ParOpen, .ParOpen, .ParOpen, .ParOpen]
      | .ParClose => result ++ [.ParClose, .ParClose, .ParClose, .ParClose, token]
      | _ => result ++ [token]
    (expression.foldl step [.ParOpen, .ParOpen, .ParOpen, .ParOpen]) ++
      [.ParClose, .ParClose, .ParClose, .ParClose]

/-- Call descriptor for the mutually recursive methods of
`ExpressionTreeParser` (`parse_start`, `parse_leaf_or_binary`,
`parse_unary`); the mutual recursion is realised as one function over the
descriptor with explicit fuel so that it reduces structurally. -/
inductive PCall where
  | start (i : Nat) (parenthesised : Bool)
  | leafOrBinary (i : Nat) (left : Node)
  | unaryCall (i : Nat) (op : LexerToken)
deriving Repr

/-- Recursive-descent tree parser (`ExpressionTreeParser`): the cursor is
an index into the token list and every returned pair carries the new
cursor.  Fuel exhaustion (reported as a panic) models non-termination of
the Rust loop, which can spin when `parse_leaf_or_binary` does not
advance. -/
def parse_run (tokens : List LexerToken) : Nat → PCall → PResult (Node × Nat)
  | 0, _ => .panicked
  | fuel + 1, .start i parenthesised =>
      match tokens.get? i with
      | none => .err .UnexpectedQueryEnding
      | some head =>
          let core : PResult (Node × Nat) :=
            match head with
            | .Minus | .Not | .ExclamationMark =>
                parse_run tokens fuel (.unaryCall (i + 1) head)
            | .Null | .StringLiteral _ | .NumberLiteral _ | .BoolLiteral _
            | .FloatNumberLiteral _ | .Identifier _ =>
                parse_run tokens fuel (.leafOrBinary (i + 1) (.Leaf head))
            | .ParOpen =>
                PResult.bind (parse_run tokens fuel (.start (i + 1) true)) fun pn =>
                  parse_run tokens fuel (.leafOrBinary pn.2 pn.1)
            | _ => .err (.UnexpectedToken
                (asciiBytes "identifier, literal, unary operator, (") head)
          PResult.bind core fun pn =>
            if parenthesised then
              match tokens.get? pn.2 with
              | some .ParClose => .ok (pn.1, pn.2 + 1)
              | _ => .err .UnfinishedParenthesis
            else .ok pn
  | fuel + 1, .leafOrBinary i left =>
      if tokens.length ≤ i then .ok (left, i)
      else
        match tokens.get? i with
        | none => .err .UnexpectedQueryEnding
        | some head =>
            match head with
            | .CompareOp _ | .LogicalOp _ | .Star | .Plus | .Minus | .Slash
            | .Percent =>
                PResult.bind (parse_run tokens fuel (.start (i + 1) false)) fun pn =>
                  .ok (.Binary left head pn.1, pn.2)
            | _ => .ok (left, i)
  | fuel + 1, .unaryCall i unary_op =>
      PResult.bind (parse_run tokens fuel (.start i false)) fun pn =>
        .ok (.Unary unary_op pn.1, pn.2)

/-- Rust `ExpressionTreeParser::parse_start`. -/
def parse_start (fuel : Nat) (tokens : List LexerToken) (i : Nat)
    (parenthesised : Bool) : PResult (Node × Nat) :=
  parse_run tokens fuel (.start i parenthesised)

/-- Rust `ExpressionTreeParser::parse_leaf_or_binary`. -/
def parse_leaf_or_binary (fuel : Nat) (tokens : List LexerToken) (i : Nat)
    (left : Node) : PResult (Node × Nat) :=
  parse_run tokens fuel (.leafOrBinary i left)

/-- Rust `ExpressionTreeParser::parse_unary` (the unary operator token was
already consumed by `parse_start`). -/
def parse_unary (fuel : Nat) (tokens : List LexerToken) (i : Nat)
    (unary_op : LexerToken) : PResult (Node × Nat) :=
  parse_run tokens fuel (.unaryCall i unary_op)

/-- The `while !self.eof()` loop of `ExpressionTreeParser::parse`. -/
def parse_main_loop (fuel : Nat) (tokens : List LexerToken) (i : Nat)
    (node : Node) : PResult Node :=
  match fuel with
  | 0 => .panicked
  | fuel + 1 =>
      if tokens.length ≤ i then .ok node
      else
        PResult.bind (parse_leaf_or_binary fuel tokens i node) fun pn =>
          parse_main_loop fuel tokens pn.2 pn.1

/-- Fuel that suffices for every terminating parse: the cursor advances at
least once per two recursion frames. -/
def parseFuel (tokens : List LexerToken) : Nat := 4 * tokens.length + 8

/-- Rust `ExpressionTreeParser::parse`. -/
def treeParse (tokens : List LexerToken) : PResult (Option Node) :=
  if tokens.isEmpty then .ok none
  else
    PResult.bind (parse_start (parseFuel tokens) tokens 0 false) fun pn =>
      PResult.bind (parse_main_loop (parseFuel tokens) tokens pn.2 pn.1) fun n =>
        .ok (some n)

/-- Rust `parse_tree`: precedence fix then tree parse. -/
def parse_tree (expression : List LexerToken) : PResult (Option Node) :=
  treeParse (fix_operator_precedence expression)

/-! ## Tokenizer separator behaviour (claim C6) -/

/-- Claim C6 (amended): in the Normal state, the space character (the only
whitespace the tokenizer knows) terminates the current lexeme and is
discarded; each of `( ) , ; = + -` terminates the current lexeme and is
emitted as its own single-character lexeme; any other whitespace
character (tab, line feed, carriage return) is rejected with
`InvalidChar` instead of acting as a separator. -/
theorem claim_C6 (input : List Char) (pos : Nat) (peek : Option Char)
    (st : TkState) (hm : st.mode = .Normal) :
    (tokenizeStep input pos ' ' peek st
        = .ok ⟨st.tokens ++ [slice input st.tokenStart pos], .Normal, pos + 1⟩) ∧
    (∀ c, c ∈ ['(', ')', ',', ';', '=', '+', '-'] →
      tokenizeStep input pos c peek st
        = .ok ⟨st.tokens ++ [slice input st.tokenStart pos, [c]], .Normal, pos + 1⟩) ∧
    (∀ c, c ∈ ['\t', '\n', '\r'] →
      tokenizeStep input pos c peek st = .error (.InvalidChar c pos)) := by
  obtain ⟨tks, mode, start⟩ := st
  simp only at hm
  subst hm
  refine ⟨?_, ?_, ?_⟩
  · simp +decide [tokenizeStep]
  · intro c hc
    fin_cases hc <;> simp +decide [tokenizeStep]
  · intro c hc
    fin_cases hc <;> rfl

/-- Claim C6, witness: a concrete Normal-mode step for the space, for a
comma, and for a tab. -/
theorem claim_C6_witness :
    (tokenizeStep "a b".toList 1 ' ' (some 'b') ⟨[], .Normal, 0⟩
        = .ok ⟨[['a']], .Normal, 2⟩) ∧
    (tokenizeStep "a,b".toList 1 ',' (some 'b') ⟨[], .Normal, 0⟩
        = .ok ⟨[['a'], [',']], .Normal, 2⟩) ∧
    (tokenizeStep "a\tb".toList 1 '\t' (some 'b') ⟨[], .Normal, 0⟩
        = .error (.InvalidChar '\t' 1)) := by
  refine ⟨?_, ?_, ?_⟩
  · have h := (claim_C6 "a b".toList 1 (some 'b') ⟨[], .Normal, 0⟩ rfl).1
    simpa using h
  · have h := (claim_C6 "a,b".toList 1 (some 'b') ⟨[], .Normal, 0⟩ rfl).2.1
      ',' (by decide)
    simpa using h
  · exact (claim_C6 "a\tb".toList 1 (some 'b') ⟨[], .Normal, 0⟩ rfl).2.2
      '\t' (by decide)

/-- Claim C6, counterexample to the claim as stated: the tab character is
whitespace, yet tokenizing `"a\tb"` fails with `InvalidChar` at position 1
instead of treating the tab as a discarded separator. -/
theorem claim_C6_counterexample :
    tokenize "a\tb".toList = .error (.InvalidChar '\t' 1) := by
  rfl

/-! ## Full expression pipeline (claim C7) -/

/-- The expression pipeline exercised by the repository's evaluator tests:
tokenize, lex, fix the operator precedence, parse the tree, evaluate with
an empty identifier map. -/
def run_expression (s : String) : PResult NodeValue :=
  match lex s.toList with
  | .error e => .err e
  | .ok tokens =>
      PResult.bind (parse_tree tokens) fun onode =>
        match onode with
        | none => .panicked
        | some tree => evaluate_node tree []

set_option maxHeartbeats 1000000 in
/-- Claim C7: arithmetic and precedence laws of the full pipeline.  The
float result is the bit pattern of `3.0`
(`4613937818241073152 = 0x4008000000000000`). -/
theorem claim_C7 :
    run_expression "1 + 2" = .ok (.Int 3) ∧
    run_expression "1 / 2" = .ok (.Int 0) ∧
    run_expression "1 + 2.0" = .ok (.Float 4613937818241073152) ∧
    run_expression "3 = 2 + 1" = .ok (.Bool true) ∧
    run_expression "(11 + 1) / 2 + 6" = .ok (.Int 12) ∧
    run_expression "-1 * -6" = .ok (.Int 6) := by
  refine ⟨by decide, by decide, by decide, by decide, by decide, by decide⟩

/-! ## Hashing (`std::collections::hash_map::DefaultHasher` = SipHash-1-3
with zero keys, and `impl Hash for Data` in `common/src/models/db.rs`).
Byte order of the integer writes is little-endian (x86-64 target). -/

/-- Addition modulo `2^64`. -/
def add64 (a b : Nat) : Nat := (a + b) % 2 ^ 64

/-- Left rotation of a 64-bit word. -/
def rotl64 (a r : Nat) : Nat := a * 2 ^ r % 2 ^ 64 + a / 2 ^ (64 - r)

/-- One SipHash round on the four state words. -/
def sipRound : Nat × Nat × Nat × Nat → Nat × Nat × Nat × Nat :=
  fun (v0, v1, v2, v3) =>
    let v0 := add64 v0 v1
    let v1 := rotl64 v1 13
    let v1 := Nat.xor v1 v0
    let v0 := rotl64 v0 32
    let v2 := add64 v2 v3
    let v3 := rotl64 v3 16
    let v3 := Nat.xor v3 v2
    let v0 := add64 v0 v3
    let v3 := rotl64 v3 21
    let v3 := Nat.xor v3 v0
    let v2 := add64 v2 v1
    let v1 := rotl64 v1 17
    let v1 := Nat.xor v1 v2
    let v2 := rotl64 v2 32
    (v0, v1, v2, v3)

/-- Little-endian word denoted by up to eight bytes. -/
def leWord (bs : List Nat) : Nat := bs.foldr (fun b acc => acc * 256 + b) 0

/-- Absorb the complete 8-byte words of the message (one round per word,
`c = 1`). -/
def sipAbsorb : Nat × Nat × Nat × Nat → List Nat →
    (Nat × Nat × Nat × Nat) × List Nat
  | st, b0 :: b1 :: b2 :: b3 :: b4 :: b5 :: b6 :: b7 :: rest =>
      let m := leWord [b0, b1, b2, b3, b4, b5, b6, b7]
      let (v0, v1, v2, v3) := st
      let (v0, v1, v2, v3) := sipRound (v0, v1, Nat.xor v2 0, Nat.xor v3 m)
      sipAbsorb (Nat.xor v0 m, v1, v2, v3) rest
  | st, rest => (st, rest)

/-- SipHash-1-3 with both keys zero, over a byte message: the algorithm of
Rust's `DefaultHasher::new()`. -/
def siphash13 (msg : List Nat) : Nat :=
  let v0 := 0x736f6d6570736575
  let v1 := 0x646f72616e646f6d
  let v2 := 0x6c7967656e657261
  let v3 := 0x7465646279746573
  let (st, tail) := sipAbsorb (v0, v1, v2, v3) msg
  let b := msg.length % 256 * 2 ^ 56 + leWord tail
  let (v0, v1, v2, v3) := st
  let (v0, v1, v2, v3) := sipRound (v0, v1, v2, Nat.xor v3 b)
  let v0 := Nat.xor v0 b
  let v2 := Nat.xor v2 255
  let (v0, v1, v2, v3) := sipRound (v0, v1, v2, v3)
  let (v0, v1, v2, v3) := sipRound (v0, v1, v2, v3)
  let (v0, v1, v2, v3) := sipRound (v0, v1, v2, v3)
  Nat.xor (Nat.xor v0 v1) (Nat.xor v2 v3)

/-- Little-endian bytes of an `i32` (two's complement), as written by
`Hasher::write_i32`. -/
def i32_le (i : Int) : List Nat :=
  let n := ((i % (2 ^ 32 : Int)).toNat)
  [n % 256, n / 2 ^ 8 % 256, n / 2 ^ 16 % 256, n / 2 ^ 24 % 256]

/-- Little-endian bytes of a 64-bit word. -/
def u64_le (n : Nat) : List Nat :=
  [n % 256, n / 2 ^ 8 % 256, n / 2 ^ 16 % 256, n / 2 ^ 24 % 256,
   n / 2 ^ 32 % 256, n / 2 ^ 40 % 256, n / 2 ^ 48 % 256, n / 2 ^ 56 % 256]

/-- Little-endian bytes of an `i64` (two's complement). -/
def i64_le (i : Int) : List Nat := u64_le ((i % (2 ^ 64 : Int)).toNat)

/-- Clear the sign bit: `f64::abs`. -/
def f64_abs (bits : Nat) : Nat := bits % 2 ^ 63

/-- Saturating cast `f64 as i64`: NaN to 0, truncation toward zero
clamped to the `i64` range. -/
def f64_as_i64 (bits : Nat) : Int :=
  if f64_isNaN bits then 0
  else if f64_isInf bits then
    (if f64_sign bits = 1 then -(2 ^ 63) else 2 ^ 63 - 1)
  else
    let t := truncFrac (fracOfBits bits)
    if t < -(2 ^ 63) then -(2 ^ 63) else if 2 ^ 63 - 1 < t then 2 ^ 63 - 1 else t

/-- Saturating cast `f64 as u64`: NaN and negatives to 0, clamped above. -/
def f64_as_u64 (bits : Nat) : Nat :=
  if f64_isNaN bits then 0
  else if f64_isInf bits then (if f64_sign bits = 1 then 0 else 2 ^ 64 - 1)
  else
    let t := truncFrac (fracOfBits bits)
    if t < 0 then 0 else if (2 ^ 64 - 1 : Int) < t then 2 ^ 64 - 1 else t.toNat

/-- `f64::trunc` (exactly representable, so no rounding happens). -/
def f64_trunc (bits : Nat) : Nat :=
  if f64_isNaN bits || f64_isInf bits then bits
  else
    let t := truncFrac (fracOfBits bits)
    if t = 0 then f64_sign bits * 2 ^ 63 else bitsOfFrac (Frac.ofInt t)

/-- `f64::fract = self - self.trunc()` (exactly representable). -/
def f64_fract (bits : Nat) : Nat :=
  if f64_isNaN bits || f64_isInf bits then f64_qnan
  else
    let q := fracOfBits bits
    let r := q.sub (Frac.ofInt (truncFrac q))
    if r.isZero then f64_sign bits * 2 ^ 63 else bitsOfFrac r

/-- `f64::round` (half away from zero; the result is exactly
representable). -/
def f64_round (bits : Nat) : Nat :=
  if f64_isNaN bits || f64_isInf bits then bits
  else
    let q := fracOfBits bits
    let f := q.floor
    let r := q.sub (Frac.ofInt f)
    let v : Int :=
      if Frac.lt r ⟨1, 2⟩ then f
      else if Frac.lt ⟨1, 2⟩ r then f + 1
      else if q.num < 0 then f else f + 1
    if v = 0 then f64_sign bits * 2 ^ 63 else bitsOfFrac (Frac.ofInt v)

/-- Boolean `x <= y` on floats. -/
def f64_leb (x y : Nat) : Bool :=
  f64_cmp x y == some .lt || f64_cmp x y == some .eq

/-- The literal `1e-4` (`eps` in `get_frac`). -/
def eps_bits : Nat := bitsOfFrac ⟨1, 10000⟩

/-- The literal `10.0`. -/
def ten_bits : Nat := bitsOfFrac ⟨10, 1⟩

/-- First loop of `get_frac`: `while (f.round() - f).abs() <= eps, f *= 10`.
The loop always terminates in Rust because `f` eventually overflows to
infinity, whose NaN difference fails every comparison; the explicit fuel
(far above the roughly 700 doublings needed) models that. -/
def get_frac_loop1 : Nat → Nat → Nat
  | 0, f => f
  | fuel + 1, f =>
      if f64_leb (f64_abs (f64_sub (f64_round f) f)) eps_bits then
        get_frac_loop1 fuel (f64_mul f ten_bits)
      else f

/-- Second loop of `get_frac`: `while (f.round() - f).abs() > eps, f *= 10`. -/
def get_frac_loop2 : Nat → Nat → Nat
  | 0, f => f
  | fuel + 1, f =>
      if !f64_leb (f64_abs (f64_sub (f64_round f) f)) eps_bits then
        get_frac_loop2 fuel (f64_mul f ten_bits)
      else f

/-- Rust `get_frac` (`common/src/models/db.rs`): normalise the fractional
part of a float to an integer by repeated multiplication by ten. -/
def get_frac (bits : Nat) : Nat :=
  let f := f64_fract (f64_abs bits)
  if f64_eq f f64_pzero then 0
  else f64_as_u64 (f64_round (get_frac_loop2 4000 (get_frac_loop1 4000 f)))

/-- Byte stream written by `impl Hash for Data` (strings append the `0xFF`
terminator that `Hash for str` writes). -/
def hashBytes : Data → List Nat
  | .INT i => i32_le i
  | .STRING s => s ++ [255]
  | .NULL => [0]
  | .BOOLEAN b => [if b then 1 else 0]
  | .FLOAT bits => i64_le (f64_as_i64 bits) ++ u64_le (get_frac bits)

/-- Rust `Data::calculate_hash`. -/
def calculate_hash (d : Data) : Nat := siphash13 (hashBytes d)

/-! ## Table store (`persistence/src/table/table.rs`, `table_iterator.rs`,
`index.rs`).  The filesystem is made explicit: functions take and return
the byte contents of the row and index files. -/

/-- Rust `Table` (a lightweight handle: name and schema). -/
structure Table where
  name : List Nat
  columns : List Column
deriving DecidableEq, Repr

/-- Rust `Table::get_row_size`: sum of the column widths. -/
def get_row_size (t : Table) : Nat :=
  t.columns.foldl (fun acc c => acc + c.size) 0

/-- Rust `RowsIterator::from_table`: decode the whole row file, one
`row_size` slice at a time (fuel = byte count, enough for any positive
stride). -/
def rowsFromBytes (columns : List Column) (row_size : Nat) : Nat → Nat →
    List Nat → List Row
  | 0, _, _ => []
  | fuel + 1, index, bytes =>
      if index < bytes.length then
        Row.from_bytes ((bytes.drop index).take row_size) columns ::
          rowsFromBytes columns row_size fuel (index + row_size) bytes
      else []

/-- All rows of a table's row file, in physical order. -/
def rows_iterator (t : Table) (rows_bytes : List Nat) : List Row :=
  rowsFromBytes t.columns (get_row_size t) (rows_bytes.length + 1) 0 rows_bytes

/-- Rust `Table::delete_rows` byte rewrite: keep, in order, exactly the
`row_size`-byte chunks whose index is not listed.  The source consumes a
byte iterator whose `expect`s cannot fire because the loop consumes at
most `row_count * row_size <= len` bytes. -/
def delete_rows_bytes (row_size : Nat) (rows_bytes : List Nat)
    (row_numbers : List Nat) : List Nat :=
  let row_count := rows_bytes.length / row_size
  let rec go : Nat → Nat → List Nat → List Nat
    | _, _, [] => []
    | 0, _, _ => []
    | count + 1, idx, remaining =>
        if row_numbers.contains idx then go count (idx + 1) (remaining.drop row_size)
        else remaining.take row_size ++ go count (idx + 1) (remaining.drop row_size)
  go row_count 0 rows_bytes

/-- In-memory index: buckets keyed by hash, in first-insertion order
(Rust uses a `HashMap`; the map contents are order-independent and every
use below goes through key lookup). -/
abbrev IndexMap := List (Nat × List (Data × Nat))

/-- `HashMap::entry(h).or_insert(vec![]).push(v)`. -/
def bucketsInsert (m : IndexMap) (h : Nat) (v : Data × Nat) : IndexMap :=
  match m with
  | [] => [(h, [v])]
  | (h2, vs) :: rest =>
      if h2 = h then (h2, vs ++ [v]) :: rest
      else (h2, vs) :: bucketsInsert rest h v

/-- `HashMap::get`. -/
def bucketsGet (m : IndexMap) (h : Nat) : Option (List (Data × Nat)) :=
  match m with
  | [] => none
  | (h2, vs) :: rest => if h2 = h then some vs else bucketsGet rest h

/-- The per-column loop body of `Table::generate_indexes` (and of
`Table::add_index`): scan the rows once, hashing the cell of the given
column (`row.values.get(column_index).unwrap()` panics on short rows; the
theorems keep rows full-width). -/
def buildIndex (column_index : Nat) (rows : List Row) : IndexMap :=
  (rows.enum).foldl
    (fun m p =>
      let data := p.2.values.getD column_index .NULL
      bucketsInsert m (calculate_hash data) (data, p.1))
    []

/-- Rust `IndexRow::to_bytes`: `u64 length || u64 hash || entries`, where
each entry is the cell encoding followed by the `u64` row number.  The
`length` field is computed as `count * (column_size + 8)` regardless of
the actual encoded size (NULL cells of wide string columns encode in 8
bytes), faithfully to the source. -/
def index_row_to_bytes (col : Column) (h : Nat) (vs : List (Data × Nat)) :
    List Nat :=
  let payload := (vs.map fun p =>
    Data.to_bytes p.1 col.size col.data_type ++ u64_be p.2).flatten
  u64_be (vs.length * (col.size + 8)) ++ u64_be h ++ payload

/-- Rust `Index::to_bytes` followed by `write`: concatenation of the
bucket records.  `HashMap` iteration order is unspecified in Rust; the
model writes buckets in first-insertion order, and `index_from_bytes`
keys records by their stored hash, so the loaded map does not depend on
this order. -/
def written_index_bytes (col : Column) (m : IndexMap) : List Nat :=
  (m.map fun p => index_row_to_bytes col p.1 p.2).flatten

/-- The entry loop of `IndexRow::from_bytes`: repeatedly take a
`col.size`-byte cell and an 8-byte row number while the declared length
is not yet exhausted (fuel bounds the loop: each pass consumes
`col.size + 8 > 8 > 0` of the declared length). -/
def index_entries_from_bytes (col : Column) : Nat → Nat → List Nat →
    List (Data × Nat)
  | 0, _, _ => []
  | _ + 1, 0, _ => []
  | fuel + 1, values_length, bytes =>
      let data := Data.from_bytes (bytes.take col.size) col
      let row_number := u64_of_be ((bytes.drop col.size).take 8)
      (data, row_number) ::
        index_entries_from_bytes col fuel (values_length - (col.size + 8))
          (bytes.drop (col.size + 8))

/-- Rust `IndexRow::from_bytes`: declared length, hash, then the entries. -/
def index_row_from_bytes (col : Column) (bytes : List Nat) :
    Nat × List (Data × Nat) :=
  let values_length := u64_of_be (bytes.take 8)
  let hash := u64_of_be ((bytes.drop 8).take 8)
  (hash, index_entries_from_bytes col (values_length + 1) values_length
    (bytes.drop 16))

/-- `HashMap::insert` keyed by the record hash (overwrites). -/
def bucketsSet (m : IndexMap) (h : Nat) (vs : List (Data × Nat)) : IndexMap :=
  match m with
  | [] => [(h, vs)]
  | (h2, vs2) :: rest =>
      if h2 = h then (h2, vs) :: rest else (h2, vs2) :: bucketsSet rest h vs

/-- The record loop of `Index::from_bytes` (fuel bounds the cursor walk:
each record consumes at least its 16 header bytes). -/
def index_records_from_bytes (col : Column) : Nat → List Nat → IndexMap
  | 0, _ => []
  | fuel + 1, bytes =>
      if bytes.length = 0 then []
      else
        let length := u64_of_be (bytes.take 8) + 16
        let record := bytes.take length
        let pr := index_row_from_bytes col record
        bucketsSet (index_records_from_bytes col fuel (bytes.drop length))
          pr.1 pr.2

/-- Rust `Index::from_bytes` (via `Index::load`). -/
def index_from_bytes (col : Column) (bytes : List Nat) : IndexMap :=
  index_records_from_bytes col (bytes.length + 1) bytes

/-- Rust `Table::get_index_file_name`. -/
def get_index_file_name (t : Table) (c : Column) : List Nat :=
  t.name ++ c.name ++ asciiBytes "_index"

/-- The files written by `Table::generate_indexes`: for every indexed
column, its index file rebuilt from the given row file. -/
def generate_indexes_writes (t : Table) (rows_bytes : List Nat) :
    List (List Nat × List Nat) :=
  (t.columns.enum.filter fun p => p.2.is_indexed).map fun p =>
    (get_index_file_name t p.2,
      written_index_bytes p.2 (buildIndex p.1 (rows_iterator t rows_bytes)))

/-- Rust `Table::delete_rows` at the filesystem level: the rewritten row
file and the regenerated index files. -/
def table_delete_rows (t : Table) (rows_bytes : List Nat)
    (row_numbers : List Nat) : List Nat × List (List Nat × List Nat) :=
  let new_bytes := delete_rows_bytes (get_row_size t) rows_bytes row_numbers
  (new_bytes, generate_indexes_writes t new_bytes)

/-! ## Transaction control (`transaction_control/src/utils/common.rs`) -/

/-- Rust `QueryError` (`transaction_control/src/errors.rs`); the
filesystem wrappers are not constructed by the pure model. -/
inductive QueryError where
  | ParseErrorWrap (e : ParseError)
  | ColumnNotExists (column table : List Nat)
  | DuplicateColumn (column : List Nat)
  | TableAlreadyExists (table : List Nat)
  | IncorrectNumberOfValues (expected got : Nat)
  | InvalidDataType (column declared given : List Nat)
deriving DecidableEq, Repr

/-- Outcome of a fallible `transaction_control` computation (with an
explicit panic case, as for `PResult`). -/
inductive QResult (α : Type) where
  | ok (v : α)
  | err (e : QueryError)
  | panicked
deriving Repr, DecidableEq

/-- Monadic glue mirroring `?`. -/
def QResult.bind {α β : Type} : QResult α → (α → QResult β) → QResult β
  | .ok v, f => f v
  | .err e, _ => .err e
  | .panicked, _ => .panicked

/-- Lift a `PResult` through `QueryError::ParseError` (the `#[from]`
conversion applied by `?`). -/
def liftP {α : Type} : PResult α → QResult α
  | .ok v => .ok v
  | .err e => .err (.ParseErrorWrap e)
  | .panicked => .panicked

/-- Rust `get_columns_definition_map`: name to (position, type).  The
`HashMap` is collected in column order with later duplicates overwriting;
the model keeps the reversed list so that the first match is the last
insertion. -/
def get_columns_definition_map (t : Table) : List (List Nat × (Nat × DataType)) :=
  (t.columns.enum.map fun p => (p.2.name, (p.1, p.2.data_type))).reverse

/-- `HashMap::get` on the definition map. -/
def defMapGet (m : List (List Nat × (Nat × DataType))) (k : List Nat) :
    Option (Nat × DataType) :=
  (m.find? fun p => p.1 == k).map Prod.snd

/-- Rust `data_from_node`: evaluate a subtree with an empty identifier
map and repack the `NodeValue` as `Data`. -/
def dataOfNodeValue : NodeValue → Data
  | .Int number => .INT number
  | .String string => .STRING string
  | .Bool b => .BOOLEAN b
  | .Float f => .FLOAT f
  | .Null => .NULL

/-- Rust `data_from_node`. -/
def data_from_node (node : Node) : QResult Data :=
  QResult.bind (liftP (evaluate_node node [])) fun v => .ok (dataOfNodeValue v)

/-- Rust `apply_row_predicate`: pair the row's cells with the column
names (`table.columns[i]` panics when the row is wider than the schema),
convert to `NodeValue`s, and run the WHERE adapter. -/
def nodeValueOfData : Data → NodeValue
  | .INT number => .Int number
  | .STRING string => .String string
  | .NULL => .Null
  | .BOOLEAN b => .Bool b
  | .FLOAT f => .Float f

/-- Identifier map built from one row (later columns shadow earlier
duplicates, like repeated `HashMap::insert`). -/
def row_identifier_map (t : Table) (row : Row) : IdentMap :=
  (row.values.enum.foldl
    (fun m p => mapInsert m ((t.columns.getD p.1 ⟨[], .INT, false⟩).name)
      (nodeValueOfData p.2))
    [])

/-- Rust `apply_row_predicate`. -/
def apply_row_predicate (db_row : Row) (t : Table) (query_node : Node) :
    QResult Bool :=
  liftP (evaluate_binary_node query_node (row_identifier_map t db_row))

/-- The slow arm of `get_rows_for_where_condition`: evaluate the
predicate on every row, keeping the indices where it holds. -/
def slow_path_rows (t : Table) (rows : List Row) (node : Node) :
    QResult (List Nat) :=
  (rows.enum).foldr
    (fun p acc =>
      QResult.bind (apply_row_predicate p.2 t node) fun keep =>
        QResult.bind acc fun rest =>
          .ok (if keep then p.1 :: rest else rest))
    (.ok [])

/-- The identifier-validation loop at the top of
`get_rows_for_where_condition`: every identifier of the WHERE tree must
name a column; the matching columns are collected in order. -/
def collect_where_columns (t : Table)
    (m : List (List Nat × (Nat × DataType))) :
    List (List Nat) → QResult (List Column)
  | [] => .ok []
  | ident :: rest =>
      match defMapGet m ident with
      | none => .err (.ColumnNotExists ident t.name)
      | some pd =>
          QResult.bind (collect_where_columns t m rest) fun cols =>
            .ok (t.columns.getD pd.1 ⟨[], .INT, false⟩ :: cols)

/-- Rust `get_rows_for_where_condition`.  The filesystem is explicit:
`rows_bytes` is the row file and `index_file` gives the bytes of the
index file the fast path would load for a column. -/
def get_rows_for_where_condition (t : Table) (rows_bytes : List Nat)
    (index_file : Column → List Nat) (where_body : Option Node) :
    QResult (List Nat) :=
  let columns_def_map := get_columns_definition_map t
  let rows := rows_iterator t rows_bytes
  let where_cols : QResult (List Column) :=
    match where_body with
    | none => .ok []
    | some where_node =>
        collect_where_columns t columns_def_map (collect_identifiers where_node)
  QResult.bind where_cols fun where_body_columns =>
    match where_body with
    | none => .ok (List.range rows.length)
    | some node =>
        match node with
        | .Binary _ op right =>
            if tokenEq op (.CompareOp (asciiBytes "=")) ∧
                where_body_columns.length = 1 ∧
                (where_body_columns.getD 0 ⟨[], .INT, false⟩).is_indexed then
              let col := where_body_columns.getD 0 ⟨[], .INT, false⟩
              let index := index_from_bytes col (index_file col)
              QResult.bind (data_from_node right) fun searched_value =>
                .ok (match bucketsGet index (calculate_hash searched_value) with
                  | none => []
                  | some entries =>
                      (entries.filter fun p => dataEq p.1 searched_value).map
                        Prod.snd)
            else slow_path_rows t rows node
        | _ => slow_path_rows t rows node

/-! ## Row deletion compaction (claim C4) -/

theorem delete_rows_go_eq (row_size : Nat) (S : List Nat)
    (hsz : 0 < row_size) :
    ∀ (chunks : List (List Nat)) (idx : Nat),
      (∀ c ∈ chunks, c.length = row_size) →
      delete_rows_bytes.go row_size S chunks.length idx chunks.flatten =
        (((chunks.enumFrom idx).filter fun p => !S.contains p.1).map
          Prod.snd).flatten := by
  intro chunks
  induction chunks with
  | nil => intro idx _; simp [delete_rows_bytes.go]
  | cons c cs ih =>
      intro idx hc
      have hclen : c.length = row_size := hc c (by simp)
      have hflat : (c :: cs).flatten = c ++ cs.flatten := by simp
      have hne : c ++ cs.flatten ≠ [] := by
        intro h
        have hlen0 : c.length + cs.flatten.length = 0 := by
          simpa using congrArg List.length h
        omega
      rw [hflat]
      have hgo : delete_rows_bytes.go row_size S (c :: cs).length idx
          (c ++ cs.flatten) =
          if S.contains idx then
            delete_rows_bytes.go row_size S cs.length (idx + 1)
              ((c ++ cs.flatten).drop row_size)
          else (c ++ cs.flatten).take row_size ++
            delete_rows_bytes.go row_size S cs.length (idx + 1)
              ((c ++ cs.flatten).drop row_size) := by
        rcases hcc : c ++ cs.flatten with _ | ⟨b, rest⟩
        · exact absurd hcc hne
        · simp only [List.length_cons, delete_rows_bytes.go, ← hcc]
      rw [hgo, List.take_left' hclen, List.drop_left' hclen]
      rcases hS : S.contains idx with _ | _
      · have hmem : idx ∉ S := by simpa using hS
        rw [if_neg (by simp [hS]), ih (idx + 1) (fun d hd => hc d (by simp [hd]))]
        simp [List.enumFrom, List.filter_cons, hmem]
      · have hmem : idx ∈ S := by simpa using hS
        rw [if_pos (by simp [hS]), ih (idx + 1) (fun d hd => hc d (by simp [hd]))]
        simp [List.enumFrom, List.filter_cons, hmem]

/-- Total byte length of equal-width chunks. -/
theorem flatten_length_of_chunks (row_size : Nat) (chunks : List (List Nat))
    (hc : ∀ c ∈ chunks, c.length = row_size) :
    chunks.flatten.length = chunks.length * row_size := by
  induction chunks with
  | nil => simp
  | cons c cs ih =>
      have := hc c (by simp)
      simp [this, ih (fun d hd => hc d (by simp [hd])), Nat.succ_mul, Nat.add_comm]

/-- Claim C4: for a row file holding full-width rows, `delete_rows(S)`
rewrites the row file to exactly the rows whose pre-operation index is
not in `S`, in their original order (hence renumbered contiguously from
0), and then regenerates every indexed column's index file from the new
row file. -/
theorem claim_C4 (t : Table) (chunks : List (List Nat)) (S : List Nat)
    (hsz : 0 < get_row_size t)
    (hc : ∀ c ∈ chunks, c.length = get_row_size t) :
    table_delete_rows t chunks.flatten S =
      ((((chunks.enum).filter fun p => !S.contains p.1).map Prod.snd).flatten,
        generate_indexes_writes t
          ((((chunks.enum).filter fun p => !S.contains p.1).map
            Prod.snd).flatten)) := by
  have hlen : chunks.flatten.length = chunks.length * get_row_size t :=
    flatten_length_of_chunks _ chunks hc
  have hcount : chunks.flatten.length / get_row_size t = chunks.length := by
    rw [hlen, Nat.mul_div_cancel _ hsz]
  have hbytes : delete_rows_bytes (get_row_size t) chunks.flatten S =
      (((chunks.enum).filter fun p => !S.contains p.1).map Prod.snd).flatten := by
    rw [delete_rows_bytes, hcount]
    have := delete_rows_go_eq (get_row_size t) S hsz chunks 0 hc
    rw [this, List.enum]
  rw [table_delete_rows, hbytes]

/-- Claim C4, witness: a three-row table with an indexed INT column;
deleting row 1 keeps rows 0 and 2 in order and regenerates the index
from the two surviving rows. -/
theorem claim_C4_witness :
    let t : Table := ⟨[116], [⟨[120], DataType.INT, true⟩]⟩
    let r0 : List Nat := [0, 0, 0, 0, 0, 0, 0, 1]
    let r1 : List Nat := [0, 0, 0, 0, 0, 0, 0, 2]
    let r2 : List Nat := [0, 0, 0, 0, 0, 0, 0, 3]
    table_delete_rows t (List.flatten [r0, r1, r2]) [1] =
      (r0 ++ r2, generate_indexes_writes t (r0 ++ r2)) := by
  have h := claim_C4 ⟨[116], [⟨[120], DataType.INT, true⟩]⟩
    [[0, 0, 0, 0, 0, 0, 0, 1], [0, 0, 0, 0, 0, 0, 0, 2],
     [0, 0, 0, 0, 0, 0, 0, 3]] [1] (by decide) (by decide)
  simpa using h

/-! ## INSERT processing (`transaction_control/src/queries/insert.rs`) -/

/-- Decimal digits of a natural number (ASCII). -/
def natDisplayAux : Nat → Nat → List Nat
  | 0, _ => []
  | fuel + 1, n => if n = 0 then [] else natDisplayAux fuel (n / 10) ++ [48 + n % 10]

/-- ASCII decimal representation of a natural number. -/
def natDisplay (n : Nat) : List Nat := if n = 0 then [48] else natDisplayAux n n

/-- ASCII decimal representation of an integer. -/
def intDisplay (i : Int) : List Nat :=
  if i < 0 then 45 :: natDisplay i.natAbs else natDisplay i.toNat

/-- Rust `DataType`'s `Display` (which delegates to the derived `Debug`):
`INT`, `BOOLEAN`, `FLOAT`, or `STRING \x7b size: N \x7d`. -/
def dataTypeDisplay : DataType → List Nat
  | .INT => asciiBytes "INT"
  | .STRING size =>
      asciiBytes "STRING \x7b size: " ++ intDisplay size ++ asciiBytes " \x7d"
  | .BOOLEAN => asciiBytes "BOOLEAN"
  | .FLOAT => asciiBytes "FLOAT"

/-- Rust `data_from_token` (insert.rs): literal tokens become the
corresponding `Data`, everything else becomes NULL. -/
def data_from_token : LexerToken → Data
  | .NumberLiteral number => .INT number
  | .StringLiteral string => .STRING string
  | .FloatNumberLiteral f => .FLOAT f
  | .BoolLiteral b => .BOOLEAN b
  | _ => .NULL

/-- The column-list validation loop of `process_insert_query`: every
supplied name must exist in the schema and may not repeat (`column_usage`
is the growing `HashSet`). -/
def validate_insert_columns (table_name : List Nat)
    (m : List (List Nat × (Nat × DataType))) (usage : List (List Nat)) :
    List (List Nat) → QResult Unit
  | [] => .ok ()
  | name :: rest =>
      if defMapGet m name = none then .err (.ColumnNotExists name table_name)
      else if usage.contains name then .err (.DuplicateColumn name)
      else validate_insert_columns table_name m (name :: usage) rest

/-- The `data_map` of `process_insert_query`: column name to the supplied
token (`values[i]` panics when the list of names is longer than the list
of values, which the caller checks first; inserted in order, so later
duplicates overwrite — the model keeps the reversed list). -/
def token_map (columns : List (List Nat)) (values : List LexerToken) :
    List (List Nat × LexerToken) :=
  (columns.enum.map fun p => (p.2, values.getD p.1 .Null)).reverse

/-- `HashMap::get` on the token map. -/
def tokenMapGet (m : List (List Nat × LexerToken)) (k : List Nat) :
    Option LexerToken :=
  (m.find? fun p => p.1 == k).map Prod.snd

/-- The datatype-check loop of `process_insert_query`: the first value
(in schema order) that is non-NULL and does not match its column's type
produces `InvalidDataType`. -/
def check_insert_types (t : Table) : List (Column × Data) → QResult Unit
  | [] => .ok ()
  | (col, value) :: rest =>
      if (value == Data.NULL) = false ∧
          is_valid_data_for_type value col.data_type = false then
        .err (.InvalidDataType col.name (dataTypeDisplay col.data_type)
          (data_to_type value))
      else check_insert_types t rest

/-- Rust `process_insert_query`, with the filesystem explicit: the result
carries the new row-file bytes on success; on an error the file is
untouched (the source's only write is the final `insert_row`).  The
subsequent `generate_indexes` of `insert_row` is not part of this
claim's statement and is omitted here. -/
def process_insert_query (values : List LexerToken) (t : Table)
    (columnsArg : List (List Nat)) (rows_bytes : List Nat) :
    QResult (List Nat) :=
  let columns_def_map := get_columns_definition_map t
  let step2 : QResult (List (List Nat)) :=
    if columnsArg.isEmpty then
      if values.length ≠ t.columns.length then
        .err (.IncorrectNumberOfValues t.columns.length values.length)
      else .ok (t.columns.map Column.name)
    else
      QResult.bind (validate_insert_columns t.name columns_def_map [] columnsArg)
        fun _ => .ok columnsArg
  QResult.bind step2 fun columns =>
    if values.length < columns.length then .panicked
    else
      let data_map := token_map columns values
      let insert_values : List Data := t.columns.map fun col =>
        data_from_token ((tokenMapGet data_map col.name).getD .Null)
      QResult.bind (check_insert_types t (t.columns.zip insert_values)) fun _ =>
        .ok (rows_bytes ++ Row.to_bytes ⟨insert_values⟩ t.columns)

/-- The row file after an insert attempt: unchanged unless the insert
returned successfully. -/
def rows_file_after (r : QResult (List Nat)) (old : List Nat) : List Nat :=
  match r with
  | .ok b => b
  | _ => old

/-! ## Claim C5: INSERT validation, defaulting, and error behaviour -/

theorem validate_skip_valid_prefix (tname : List Nat)
    (m : List (List Nat × (Nat × DataType))) :
    ∀ (pre : List (List Nat)) (usage : List (List Nat)) (l : List (List Nat)),
      (∀ n ∈ pre, defMapGet m n ≠ none) → pre.Nodup →
      (∀ n ∈ pre, n ∉ usage) →
      validate_insert_columns tname m usage (pre ++ l) =
        validate_insert_columns tname m (pre.reverse ++ usage) l := by
  intro pre
  induction pre with
  | nil => intro usage l _ _ _; simp
  | cons a pre ih =>
      intro usage l hex hnd hdis
      obtain ⟨hanp, hndp⟩ := List.nodup_cons.mp hnd
      have ha : defMapGet m a ≠ none := hex a (by simp)
      have hau : ¬ (usage.contains a = true) := by
        intro h
        exact hdis a (by simp) (List.mem_of_elem_eq_true h)
      rw [show (a :: pre) ++ l = a :: (pre ++ l) from rfl]
      simp only [validate_insert_columns]
      rw [if_neg ha, if_neg hau]
      rw [ih (a :: usage) l (fun n hn => hex n (by simp [hn])) hndp
        (fun n hn => by
          simp only [List.mem_cons, not_or]
          exact ⟨fun he => hanp (he ▸ hn), hdis n (by simp [hn])⟩)]
      simp

theorem lookup_eq_find (k : List Nat) :
    ∀ (l : List (List Nat × LexerToken)),
      List.lookup k l = (l.find? fun p => p.1 == k).map Prod.snd := by
  intro l
  induction l with
  | nil => rfl
  | cons p rest ih =>
      rcases p with ⟨a, v⟩
      by_cases h : k = a
      · subst h
        simp [List.lookup, List.find?]
      · have h1 : (k == a) = false := by simpa using h
        have h2 : (a == k) = false := by simpa using Ne.symm h
        simp [List.lookup, List.find?, h1, h2, ih]

theorem find_reverse_of_nodup (k : List Nat) :
    ∀ (l : List (List Nat × LexerToken)),
      (l.map Prod.fst).Nodup →
      (l.reverse.find? fun p => p.1 == k) = l.find? fun p => p.1 == k := by
  intro l
  induction l with
  | nil => simp
  | cons p rest ih =>
      rcases p with ⟨a, v⟩
      intro hnd
      simp only [List.map_cons, List.nodup_cons] at hnd
      by_cases h : a = k
      · subst h
        have hnone : (rest.find? fun p => p.1 == a) = none := by
          rw [List.find?_eq_none]
          intro x hx
          simp only [beq_iff_eq]
          intro he
          exact hnd.1 (by
            rw [← he]
            exact List.mem_map_of_mem Prod.fst hx)
        have hnone2 : (rest.reverse.find? fun p => p.1 == a) = none := by
          rw [List.find?_eq_none]
          intro x hx
          simp only [beq_iff_eq]
          intro he
          exact hnd.1 (by
            rw [← he]
            exact List.mem_map_of_mem Prod.fst (List.mem_reverse.mp hx))
        simp only [List.reverse_cons, List.find?_append, hnone2]
        simp [List.find?, hnone]
      · have hne : ((a, v).1 == k) = false := by simpa using h
        simp only [List.reverse_cons, List.find?_append, ih hnd.2]
        rcases hf : rest.find? fun p => p.1 == k with _ | v2
        · simp [List.find?, hne, hf]
        · simp [List.find?, hne, hf]

theorem enumFrom_getD_zip (d : LexerToken) :
    ∀ (cs : List (List Nat)) (vs : List LexerToken) (k : Nat),
      k + cs.length ≤ vs.length →
      ((cs.enumFrom k).map fun p => (p.2, vs.getD p.1 d)) = cs.zip (vs.drop k) := by
  intro cs
  induction cs with
  | nil => intro vs k _; simp
  | cons c cs ih =>
      intro vs k h
      simp only [List.length_cons] at h
      have hk : k < vs.length := by omega
      have hdrop : vs.drop k = vs[k] :: vs.drop (k + 1) :=
        List.drop_eq_getElem_cons hk
      simp only [List.enumFrom, List.map_cons, hdrop, List.zip_cons_cons]
      rw [ih vs (k + 1) (by omega)]
      congr 1
      · congr 1
        rw [List.getD_eq_getElem?_getD, List.getElem?_eq_getElem hk]
        rfl

theorem tokenMapGet_eq_lookup (columns : List (List Nat))
    (values : List LexerToken) (hnd : columns.Nodup)
    (hlen : columns.length ≤ values.length) (k : List Nat) :
    tokenMapGet (token_map columns values) k =
      List.lookup k (columns.zip values) := by
  rw [tokenMapGet, token_map, lookup_eq_find]
  rw [show (columns.enum.map fun p => (p.2, values.getD p.1 .Null)) =
    columns.zip values from by
      have := enumFrom_getD_zip .Null columns values 0 (by omega)
      simpa [List.enum] using this]
  rw [find_reverse_of_nodup]
  rw [List.map_fst_zip _ _ hlen]
  exact hnd

theorem check_types_ok (t : Table) :
    ∀ (l : List (Column × Data)),
      (∀ p ∈ l, (p.2 == Data.NULL) = true ∨
        is_valid_data_for_type p.2 p.1.data_type = true) →
      check_insert_types t l = .ok () := by
  intro l
  induction l with
  | nil => intro _; rfl
  | cons p rest ih =>
      intro h
      rcases p with ⟨col, v⟩
      have hp := h (col, v) (by simp)
      rw [check_insert_types, if_neg (by
        rintro ⟨h1, h2⟩
        rcases hp with hq | hq
        · rw [hq] at h1; cases h1
        · rw [hq] at h2; cases h2)]
      exact ih (fun q hq => h q (by simp [hq]))

theorem lookup_zip_none (k : List Nat) :
    ∀ (cs : List (List Nat)) (vs : List LexerToken), k ∉ cs →
      List.lookup k (cs.zip vs) = none := by
  intro cs
  induction cs with
  | nil => intro vs _; simp
  | cons c cs ih =>
      intro vs hk
      rcases vs with _ | ⟨v, vs⟩
      · simp
      · simp only [List.mem_cons, not_or] at hk
        have h1 : (k == c) = false := by simpa using hk.1
        simp only [List.zip_cons_cons, List.lookup, h1]
        exact ih vs hk.2

/-- Specification view of the insert `data_map`: the value a column
receives is the converted token supplied for its name, or NULL when the
column is not listed. -/
def expected_insert_value (columnsArg : List (List Nat))
    (values : List LexerToken) (col : Column) : Data :=
  match List.lookup col.name (columnsArg.zip values) with
  | some tok => data_from_token tok
  | none => .NULL

theorem zip_self_map {α β : Type} (l : List α) (g : α → β) :
    List.zip l (l.map g) = l.map fun a => (a, g a) := by
  induction l with
  | nil => rfl
  | cons a rest ih => simp [List.zip_cons_cons, ih]

theorem check_types_first_err (t : Table) :
    ∀ (l1 : List (Column × Data)) (col : Column) (v : Data)
      (l2 : List (Column × Data)),
      (∀ p ∈ l1, (p.2 == Data.NULL) = true ∨
        is_valid_data_for_type p.2 p.1.data_type = true) →
      (v == Data.NULL) = false →
      is_valid_data_for_type v col.data_type = false →
      check_insert_types t (l1 ++ (col, v) :: l2) =
        .err (.InvalidDataType col.name (dataTypeDisplay col.data_type)
          (data_to_type v)) := by
  intro l1
  induction l1 with
  | nil =>
      intro col v l2 _ hv hbad
      simp only [List.nil_append, check_insert_types]
      rw [if_pos ⟨hv, hbad⟩]
  | cons p rest ih =>
      intro col v l2 h hv hbad
      rcases p with ⟨c2, v2⟩
      have hp := h (c2, v2) (by simp)
      simp only [List.cons_append, check_insert_types]
      rw [if_neg (by
        rintro ⟨h1, h2⟩
        rcases hp with hq | hq
        · rw [hq] at h1; cases h1
        · rw [hq] at h2; cases h2)]
      exact ih col v l2 (fun q hq => h q (by simp [hq])) hv hbad

/-- Claim C5: INSERT validation and defaulting.  Without a column list a
value-count mismatch yields `IncorrectNumberOfValues`; with a column
list, the first offending name yields `ColumnNotExists` (absent) or
`DuplicateColumn` (repeated); on success the row appended gives NULL to
every unlisted column; the first (in schema order) non-NULL value whose
type disagrees with its column yields `InvalidDataType`; and every error
leaves the row file unchanged. -/
theorem claim_C5 (t : Table) (values : List LexerToken)
    (columnsArg : List (List Nat)) (rows_bytes : List Nat) :
    (columnsArg = [] → values.length ≠ t.columns.length →
      process_insert_query values t columnsArg rows_bytes =
        .err (.IncorrectNumberOfValues t.columns.length values.length)) ∧
    (∀ pre name rest2, columnsArg = pre ++ name :: rest2 →
      (∀ n ∈ pre, defMapGet (get_columns_definition_map t) n ≠ none) →
      pre.Nodup →
      ((defMapGet (get_columns_definition_map t) name = none →
        process_insert_query values t columnsArg rows_bytes =
          .err (.ColumnNotExists name t.name)) ∧
       (defMapGet (get_columns_definition_map t) name ≠ none → name ∈ pre →
        process_insert_query values t columnsArg rows_bytes =
          .err (.DuplicateColumn name)))) ∧
    (columnsArg ≠ [] →
      (∀ n ∈ columnsArg, defMapGet (get_columns_definition_map t) n ≠ none) →
      columnsArg.Nodup → columnsArg.length = values.length →
      (∀ col ∈ t.columns,
        (expected_insert_value columnsArg values col == Data.NULL) = true ∨
        is_valid_data_for_type (expected_insert_value columnsArg values col)
          col.data_type = true) →
      process_insert_query values t columnsArg rows_bytes =
        .ok (rows_bytes ++
          Row.to_bytes ⟨t.columns.map (expected_insert_value columnsArg values)⟩
            t.columns) ∧
      (∀ col ∈ t.columns, col.name ∉ columnsArg →
        expected_insert_value columnsArg values col = Data.NULL)) ∧
    (∀ cpre bad crest, columnsArg ≠ [] →
      (∀ n ∈ columnsArg, defMapGet (get_columns_definition_map t) n ≠ none) →
      columnsArg.Nodup → columnsArg.length = values.length →
      t.columns = cpre ++ bad :: crest →
      (∀ col ∈ cpre,
        (expected_insert_value columnsArg values col == Data.NULL) = true ∨
        is_valid_data_for_type (expected_insert_value columnsArg values col)
          col.data_type = true) →
      (expected_insert_value columnsArg values bad == Data.NULL) = false →
      is_valid_data_for_type (expected_insert_value columnsArg values bad)
        bad.data_type = false →
      process_insert_query values t columnsArg rows_bytes =
        .err (.InvalidDataType bad.name (dataTypeDisplay bad.data_type)
          (data_to_type (expected_insert_value columnsArg values bad)))) ∧
    (∀ e, process_insert_query values t columnsArg rows_bytes = .err e →
      rows_file_after (process_insert_query values t columnsArg rows_bytes)
        rows_bytes = rows_bytes) := by
  have hinsert_vals : columnsArg.Nodup → columnsArg.length ≤ values.length →
      (t.columns.map fun col =>
        data_from_token ((tokenMapGet (token_map columnsArg values)
          col.name).getD .Null)) =
      t.columns.map (expected_insert_value columnsArg values) := by
    intro hnd hle
    apply List.map_congr_left
    intro col _
    rw [tokenMapGet_eq_lookup columnsArg values hnd hle, expected_insert_value]
    rcases List.lookup col.name (columnsArg.zip values) with _ | tok
    · rfl
    · rfl
  refine ⟨?_, ?_, ?_, ?_, ?_⟩
  · intro h1 h2
    simp [process_insert_query, h1, h2, QResult.bind]
  · intro pre name rest2 heq hex hnd
    subst heq
    have hval := validate_skip_valid_prefix t.name (get_columns_definition_map t)
      pre [] (name :: rest2) hex hnd (by simp)
    have hnonempty : (pre ++ name :: rest2).isEmpty = false := by
      rcases pre with _ | ⟨a, pre⟩ <;> rfl
    constructor
    · intro hnone
      simp only [process_insert_query, hnonempty, Bool.false_eq_true, if_false,
        hval, QResult.bind]
      simp [validate_insert_columns, hnone, QResult.bind]
    · intro hsome hmem
      have hcontains : ((pre.reverse ++ []).contains name = true) := by
        rw [List.append_nil]
        exact List.elem_eq_true_of_mem (List.mem_reverse.mpr hmem)
      simp only [process_insert_query, hnonempty, Bool.false_eq_true, if_false,
        hval, QResult.bind]
      simp [validate_insert_columns, if_neg hsome, hcontains, hmem, QResult.bind]
  · intro hne hex hnd hlen htypes
    have hval : validate_insert_columns t.name (get_columns_definition_map t)
        [] columnsArg = .ok () := by
      have h := validate_skip_valid_prefix t.name (get_columns_definition_map t)
        columnsArg [] [] hex hnd (by simp)
      rw [List.append_nil] at h
      rw [h]
      rfl
    have hnonempty : columnsArg.isEmpty = false := by
      rcases columnsArg with _ | ⟨a, l⟩
      · exact absurd rfl hne
      · rfl
    constructor
    · simp only [process_insert_query, hnonempty, Bool.false_eq_true, if_false,
        hval, QResult.bind]
      rw [if_neg (by omega)]
      rw [hinsert_vals hnd (le_of_eq hlen)]
      rw [show t.columns.zip (t.columns.map (expected_insert_value columnsArg values))
        = t.columns.map (fun c => (c, expected_insert_value columnsArg values c))
        from zip_self_map _ _]
      rw [check_types_ok t _ (by
        intro p hp
        rcases List.mem_map.mp hp with ⟨col, hcol, rfl⟩
        exact htypes col hcol)]
    · intro col _ hnotin
      rw [expected_insert_value, lookup_zip_none col.name columnsArg values hnotin]
  · intro cpre bad crest hne hex hnd hlen hcols hpre hbadnull hbadty
    have hval : validate_insert_columns t.name (get_columns_definition_map t)
        [] columnsArg = .ok () := by
      have h := validate_skip_valid_prefix t.name (get_columns_definition_map t)
        columnsArg [] [] hex hnd (by simp)
      rw [List.append_nil] at h
      rw [h]
      rfl
    have hnonempty : columnsArg.isEmpty = false := by
      rcases columnsArg with _ | ⟨a, l⟩
      · exact absurd rfl hne
      · rfl
    simp only [process_insert_query, hnonempty, Bool.false_eq_true, if_false,
      hval, QResult.bind]
    rw [if_neg (by omega)]
    rw [hinsert_vals hnd (le_of_eq hlen)]
    rw [show t.columns.zip (t.columns.map (expected_insert_value columnsArg values))
      = t.columns.map (fun c => (c, expected_insert_value columnsArg values c))
      from zip_self_map _ _]
    rw [hcols]
    rw [List.map_append, List.map_cons]
    rw [check_types_first_err t _ bad _ _ (by
      intro p hp
      rcases List.mem_map.mp hp with ⟨col, hcol, rfl⟩
      exact hpre col hcol) hbadnull hbadty]
  · intro e he
    simp [rows_file_after, he]

theorem claim_C5_witness :
    process_insert_query [LexerToken.NumberLiteral 5]
        ⟨asciiBytes "t",
         [⟨asciiBytes "a", DataType.INT, false⟩,
          ⟨asciiBytes "b", DataType.BOOLEAN, false⟩]⟩
        [asciiBytes "a"] [] =
      .ok ([] ++ Row.to_bytes
        ⟨[⟨asciiBytes "a", DataType.INT, false⟩,
          ⟨asciiBytes "b", DataType.BOOLEAN, false⟩].map
            (expected_insert_value [asciiBytes "a"]
              [LexerToken.NumberLiteral 5])⟩
        [⟨asciiBytes "a", DataType.INT, false⟩,
         ⟨asciiBytes "b", DataType.BOOLEAN, false⟩]) := by
  exact ((claim_C5
    ⟨asciiBytes "t",
     [⟨asciiBytes "a", DataType.INT, false⟩,
      ⟨asciiBytes "b", DataType.BOOLEAN, false⟩]⟩
    [LexerToken.NumberLiteral 5] [asciiBytes "a"] []).2.2.1
    (by decide) (by decide) (by decide) (by decide) (by decide)).1

/-! ## Claim C3: the indexed-equality fast path -/

/-- Bucket contents with the empty default (`HashMap::get` returning no
bucket and an empty bucket act identically in the fast path). -/
def entriesD (m : IndexMap) (h : Nat) : List (Data × Nat) :=
  (bucketsGet m h).getD []

theorem entriesD_insert (h2 : Nat) (v : Data × Nat) :
    ∀ (m : IndexMap) (h : Nat),
      entriesD (bucketsInsert m h2 v) h =
        entriesD m h ++ if h2 = h then [v] else [] := by
  intro m
  induction m with
  | nil =>
      intro h
      by_cases he : h2 = h
      · subst he; simp [entriesD, bucketsInsert, bucketsGet]
      · simp [entriesD, bucketsInsert, bucketsGet, he, Ne.symm he]
  | cons p rest ih =>
      intro h
      rcases p with ⟨h3, vs⟩
      by_cases h32 : h3 = h2
      · subst h32
        by_cases h3h : h3 = h
        · subst h3h
          simp [entriesD, bucketsInsert, bucketsGet]
        · simp [entriesD, bucketsInsert, bucketsGet, h3h]
      · by_cases h3h : h3 = h
        · subst h3h
          simp [entriesD, bucketsInsert, bucketsGet, h32,
            if_neg (Ne.symm h32)]
        · simp only [entriesD, bucketsInsert, bucketsGet, if_neg h32,
            if_neg h3h]
          exact ih h

theorem bucketsGet_match_filter (m : IndexMap) (h : Nat)
    (f : Data × Nat → Bool) :
    (match bucketsGet m h with
      | none => ([] : List Nat)
      | some entries => (entries.filter f).map Prod.snd) =
      ((entriesD m h).filter f).map Prod.snd := by
  rcases hb : bucketsGet m h with _ | es
  · simp [entriesD, hb]
  · simp [entriesD, hb]

theorem entriesD_insertList :
    ∀ (L : List (Data × Nat)) (m : IndexMap) (h : Nat),
      entriesD (L.foldl (fun m2 q => bucketsInsert m2 (calculate_hash q.1) q) m) h =
        entriesD m h ++ L.filter fun q => calculate_hash q.1 == h := by
  intro L
  induction L with
  | nil => intro m h; simp
  | cons q rest ih =>
      intro m h
      simp only [List.foldl_cons, List.filter_cons]
      rw [ih, entriesD_insert]
      by_cases he : calculate_hash q.1 = h
      · simp [he]
      · have : (calculate_hash q.1 == h) = false := by simpa using he
        simp [he, this]

theorem buildIndex_as_foldl (column_index : Nat) (rows : List Row) :
    buildIndex column_index rows =
      ((rows.enum.map fun p => (p.2.values.getD column_index .NULL, p.1)).foldl
        (fun m2 q => bucketsInsert m2 (calculate_hash q.1) q) []) := by
  rw [buildIndex, List.foldl_map]

theorem entriesD_buildIndex (column_index : Nat) (rows : List Row) (h : Nat) :
    entriesD (buildIndex column_index rows) h =
      (rows.enum.map fun p => (p.2.values.getD column_index .NULL, p.1)).filter
        fun q => calculate_hash q.1 == h := by
  rw [buildIndex_as_foldl, entriesD_insertList]
  simp [entriesD, bucketsGet]

theorem bucketsInsert_keys (h : Nat) (v : Data × Nat) :
    ∀ (m : IndexMap),
      (bucketsInsert m h v).map Prod.fst =
        if (m.map Prod.fst).contains h then m.map Prod.fst
        else m.map Prod.fst ++ [h] := by
  intro m
  induction m with
  | nil => simp [bucketsInsert]
  | cons p rest ih =>
      rcases p with ⟨h2, vs⟩
      by_cases he : h2 = h
      · subst he
        simp [bucketsInsert, List.contains_cons]
      · have hb2 : (h == h2) = false := by simpa using Ne.symm he
        simp only [bucketsInsert, if_neg he, List.map_cons, ih,
          List.contains_cons, hb2, Bool.false_or]
        by_cases hc : (rest.map Prod.fst).contains h = true
        · rw [if_pos hc, if_pos hc]
        · rw [if_neg hc, if_neg hc]
          simp

theorem bucketsInsert_keys_nodup (h : Nat) (v : Data × Nat) (m : IndexMap)
    (hnd : (m.map Prod.fst).Nodup) :
    ((bucketsInsert m h v).map Prod.fst).Nodup := by
  rw [bucketsInsert_keys]
  by_cases hc : (m.map Prod.fst).contains h = true
  · rw [if_pos hc]; exact hnd
  · rw [if_neg hc]
    rw [List.nodup_append]
    refine ⟨hnd, List.nodup_singleton h, ?_⟩
    intro a ha hb
    simp only [List.mem_singleton] at hb
    subst hb
    exact hc (List.elem_eq_true_of_mem ha)

theorem buildIndex_keys_nodup (column_index : Nat) (rows : List Row) :
    ((buildIndex column_index rows).map Prod.fst).Nodup := by
  rw [buildIndex_as_foldl]
  generalize (rows.enum.map fun p => (p.2.values.getD column_index .NULL, p.1)) = L
  have : ∀ (L2 : List (Data × Nat)) (m : IndexMap),
      (m.map Prod.fst).Nodup →
      ((L2.foldl (fun m2 q => bucketsInsert m2 (calculate_hash q.1) q) m).map
        Prod.fst).Nodup := by
    intro L2
    induction L2 with
    | nil => intro m hm; exact hm
    | cons q rest ih =>
        intro m hm
        exact ih _ (bucketsInsert_keys_nodup _ _ _ hm)
  exact this L [] (by simp)

theorem bucketsGet_of_mem_nodup :
    ∀ (m : List (Nat × List (Data × Nat))), (m.map Prod.fst).Nodup →
      ∀ p ∈ m, bucketsGet m p.1 = some p.2 := by
  intro m
  induction m with
  | nil => intro _ p hp; cases hp
  | cons q rest ih =>
      rcases q with ⟨h2, vs⟩
      intro hnd p hp
      simp only [List.map_cons, List.nodup_cons] at hnd
      rcases List.mem_cons.mp hp with hp2 | hp2
      · subst hp2; simp [bucketsGet]
      · have hne : h2 ≠ p.1 := by
          intro he
          exact hnd.1 (he ▸ List.mem_map_of_mem Prod.fst hp2)
        simp only [bucketsGet, if_neg hne]
        exact ih hnd.2 p hp2

theorem mem_enumFrom_spec {α : Type} :
    ∀ (l : List α) (k : Nat) (p : Nat × α), p ∈ l.enumFrom k →
      k ≤ p.1 ∧ p.1 < k + l.length ∧ l.get? (p.1 - k) = some p.2 := by
  intro l
  induction l with
  | nil => intro k p hp; cases hp
  | cons a rest ih =>
      intro k p hp
      simp only [List.enumFrom, List.mem_cons] at hp
      rcases hp with hp | hp
      · subst hp
        simp
      · obtain ⟨h1, h2, h3⟩ := ih (k + 1) p hp
        refine ⟨by omega, by simp; omega, ?_⟩
        have : p.1 - k = (p.1 - (k + 1)) + 1 := by omega
        rw [this]
        simpa using h3

theorem add64_lt (a b : Nat) : add64 a b < 2 ^ 64 :=
  Nat.mod_lt _ (by positivity)

theorem rotl64_lt (a r : Nat) (ha : a < 2 ^ 64) (hr1 : 0 < r) (hr2 : r ≤ 64) :
    rotl64 a r < 2 ^ 64 := by
  have hpow : 2 ^ r * 2 ^ (64 - r) = 2 ^ 64 := by
    rw [← pow_add]
    congr 1
    omega
  have hdvd : 2 ^ r ∣ a * 2 ^ r % 2 ^ 64 := by
    have h1 : 2 ^ r ∣ a * 2 ^ r := dvd_mul_left (2 ^ r) a
    have h2 : 2 ^ r ∣ 2 ^ 64 := pow_dvd_pow 2 hr2
    exact (Nat.dvd_mod_iff h2).mpr h1
  obtain ⟨k, hk⟩ := hdvd
  have hm : a * 2 ^ r % 2 ^ 64 < 2 ^ 64 := Nat.mod_lt _ (by positivity)
  have hk2 : k < 2 ^ (64 - r) := by
    by_contra hge
    push_neg at hge
    have : 2 ^ 64 ≤ 2 ^ r * k := by
      calc 2 ^ 64 = 2 ^ r * 2 ^ (64 - r) := hpow.symm
        _ ≤ 2 ^ r * k := Nat.mul_le_mul_left _ hge
    omega
  have hd : a / 2 ^ (64 - r) < 2 ^ r := by
    rw [Nat.div_lt_iff_lt_mul (by positivity)]
    calc a < 2 ^ 64 := ha
      _ = 2 ^ r * 2 ^ (64 - r) := hpow.symm
  rw [rotl64, hk]
  calc 2 ^ r * k + a / 2 ^ (64 - r) < 2 ^ r * k + 2 ^ r := by omega
    _ = 2 ^ r * (k + 1) := by ring
    _ ≤ 2 ^ r * 2 ^ (64 - r) := Nat.mul_le_mul_left _ (by omega)
    _ = 2 ^ 64 := hpow

/-- Componentwise 64-bit bound on a SipHash state. -/
def st4lt (st : Nat × Nat × Nat × Nat) : Prop :=
  st.1 < 2 ^ 64 ∧ st.2.1 < 2 ^ 64 ∧ st.2.2.1 < 2 ^ 64 ∧ st.2.2.2 < 2 ^ 64

theorem sipRound_lt (v0 v1 v2 v3 : Nat) (h0 : v0 < 2 ^ 64) (h1 : v1 < 2 ^ 64)
    (h2 : v2 < 2 ^ 64) (h3 : v3 < 2 ^ 64) :
    st4lt (sipRound (v0, v1, v2, v3)) := by
  dsimp only [sipRound, st4lt]
  refine ⟨?_, ?_, ?_, ?_⟩
  repeat' first
    | exact add64_lt _ _
    | exact h0
    | exact h1
    | exact h2
    | exact h3
    | apply Nat.xor_lt_two_pow
    | apply rotl64_lt
    | omega

theorem leWord_lt (bs : List Nat) (h : ∀ b ∈ bs, b < 256) :
    leWord bs < 256 ^ bs.length := by
  induction bs with
  | nil => simp [leWord]
  | cons b rest ih =>
      have hb := h b (by simp)
      have hL := ih fun x hx => h x (by simp [hx])
      simp only [leWord, List.foldr_cons, List.length_cons]
      rw [pow_succ]
      calc (rest.foldr (fun b2 acc => acc * 256 + b2) 0) * 256 + b
          < ((rest.foldr (fun b2 acc => acc * 256 + b2) 0) + 1) * 256 := by omega
        _ ≤ 256 ^ rest.length * 256 := Nat.mul_le_mul_right _ (by
            have := hL
            rw [leWord] at this
            omega)

theorem sipAbsorb_lt :
    ∀ (n : Nat) (msg : List Nat) (st : Nat × Nat × Nat × Nat),
      msg.length ≤ n → st4lt st → (∀ b ∈ msg, b < 256) →
      st4lt (sipAbsorb st msg).1 ∧ (sipAbsorb st msg).2.length < 8 ∧
        ∀ b ∈ (sipAbsorb st msg).2, b < 256 := by
  intro n
  induction n with
  | zero =>
      intro msg st hlen hst hbytes
      rcases msg with _ | ⟨b0, msg⟩
      · exact ⟨hst, by simp [sipAbsorb], by simp [sipAbsorb]⟩
      · simp at hlen
  | succ n ih =>
      intro msg st hlen hst hbytes
      rcases st with ⟨v0, v1, v2, v3⟩
      obtain ⟨h0, h1, h2, h3⟩ := hst
      rcases msg with _ | ⟨b0, _ | ⟨b1, _ | ⟨b2, _ | ⟨b3, _ | ⟨b4, _ | ⟨b5,
        _ | ⟨b6, _ | ⟨b7, rest⟩⟩⟩⟩⟩⟩⟩⟩
      · exact ⟨⟨h0, h1, h2, h3⟩, show (0 : Nat) < 8 by omega, hbytes⟩
      · exact ⟨⟨h0, h1, h2, h3⟩, show (1 : Nat) < 8 by omega, hbytes⟩
      · exact ⟨⟨h0, h1, h2, h3⟩, show (2 : Nat) < 8 by omega, hbytes⟩
      · exact ⟨⟨h0, h1, h2, h3⟩, show (3 : Nat) < 8 by omega, hbytes⟩
      · exact ⟨⟨h0, h1, h2, h3⟩, show (4 : Nat) < 8 by omega, hbytes⟩
      · exact ⟨⟨h0, h1, h2, h3⟩, show (5 : Nat) < 8 by omega, hbytes⟩
      · exact ⟨⟨h0, h1, h2, h3⟩, show (6 : Nat) < 8 by omega, hbytes⟩
      · exact ⟨⟨h0, h1, h2, h3⟩, show (7 : Nat) < 8 by omega, hbytes⟩
      · have hm : leWord [b0, b1, b2, b3, b4, b5, b6, b7] < 2 ^ 64 := by
          have hlw := leWord_lt [b0, b1, b2, b3, b4, b5, b6, b7] (by
            intro b hb
            simp only [List.mem_cons, List.not_mem_nil, or_false] at hb
            rcases hb with rfl | rfl | rfl | rfl | rfl | rfl | rfl | rfl
            all_goals exact hbytes _ (by simp))
          norm_num at hlw
          omega
        have hround := sipRound_lt v0 v1 (Nat.xor v2 0)
          (Nat.xor v3 (leWord [b0, b1, b2, b3, b4, b5, b6, b7]))
          h0 h1 (Nat.xor_lt_two_pow h2 (by norm_num)) (Nat.xor_lt_two_pow h3 hm)
        obtain ⟨q0, q1, q2, q3⟩ := hround
        have hnew : st4lt
            (Nat.xor (sipRound (v0, v1, Nat.xor v2 0,
              Nat.xor v3 (leWord [b0, b1, b2, b3, b4, b5, b6, b7]))).1
                (leWord [b0, b1, b2, b3, b4, b5, b6, b7]),
             (sipRound (v0, v1, Nat.xor v2 0,
              Nat.xor v3 (leWord [b0, b1, b2, b3, b4, b5, b6, b7]))).2.1,
             (sipRound (v0, v1, Nat.xor v2 0,
              Nat.xor v3 (leWord [b0, b1, b2, b3, b4, b5, b6, b7]))).2.2.1,
             (sipRound (v0, v1, Nat.xor v2 0,
              Nat.xor v3 (leWord [b0, b1, b2, b3, b4, b5, b6, b7]))).2.2.2) :=
          ⟨Nat.xor_lt_two_pow q0 hm, q1, q2, q3⟩
        have hrest : rest.length ≤ n := by
          simp only [List.length_cons] at hlen
          omega
        have hrb : ∀ b ∈ rest, b < 256 := by
          intro b hb
          exact hbytes b (by simp [hb])
        exact ih rest _ hrest hnew hrb

theorem siphash13_lt (msg : List Nat) (hmsg : ∀ b ∈ msg, b < 256) :
    siphash13 msg < 2 ^ 64 := by
  obtain ⟨hst, htl, htb⟩ := sipAbsorb_lt msg.length msg
    (0x736f6d6570736575, 0x646f72616e646f6d, 0x6c7967656e657261,
      0x7465646279746573)
    le_rfl ⟨by norm_num, by norm_num, by norm_num, by norm_num⟩ hmsg
  rcases heq : sipAbsorb (0x736f6d6570736575, 0x646f72616e646f6d,
      0x6c7967656e657261, 0x7465646279746573) msg with ⟨⟨a0, a1, a2, a3⟩, tail⟩
  rw [heq] at hst htl htb
  obtain ⟨ha0, ha1, ha2, ha3⟩ := hst
  simp only at ha0 ha1 ha2 ha3 htl htb
  have hb : msg.length % 256 * 2 ^ 56 + leWord tail < 2 ^ 64 := by
    have h1 := leWord_lt tail htb
    have h2 : (256 : Nat) ^ tail.length ≤ 256 ^ 7 :=
      Nat.pow_le_pow_right (by norm_num) (by omega)
    have h3 : leWord tail < 256 ^ 7 := lt_of_lt_of_le h1 h2
    have h4 : msg.length % 256 < 256 := Nat.mod_lt _ (by norm_num)
    norm_num at h3
    omega
  rw [siphash13, heq]
  dsimp only
  obtain ⟨q0, q1, q2, q3⟩ := sipRound_lt a0 a1 a2
    (Nat.xor a3 (msg.length % 256 * 2 ^ 56 + leWord tail)) ha0 ha1 ha2
    (Nat.xor_lt_two_pow ha3 hb)
  rcases g1 : sipRound (a0, a1, a2,
      Nat.xor a3 (msg.length % 256 * 2 ^ 56 + leWord tail)) with ⟨x0, x1, x2, x3⟩
  rw [g1] at q0 q1 q2 q3
  simp only at q0 q1 q2 q3
  dsimp only
  obtain ⟨r0, r1, r2, r3⟩ := sipRound_lt
    (Nat.xor x0 (msg.length % 256 * 2 ^ 56 + leWord tail)) x1 (Nat.xor x2 255) x3
    (Nat.xor_lt_two_pow q0 hb) q1 (Nat.xor_lt_two_pow q2 (by norm_num)) q3
  rcases g2 : sipRound (Nat.xor x0 (msg.length % 256 * 2 ^ 56 + leWord tail), x1,
      Nat.xor x2 255, x3) with ⟨y0, y1, y2, y3⟩
  rw [g2] at r0 r1 r2 r3
  simp only at r0 r1 r2 r3
  dsimp only
  obtain ⟨u0, u1, u2, u3⟩ := sipRound_lt y0 y1 y2 y3 r0 r1 r2 r3
  rcases g3 : sipRound (y0, y1, y2, y3) with ⟨z0, z1, z2, z3⟩
  rw [g3] at u0 u1 u2 u3
  simp only at u0 u1 u2 u3
  dsimp only
  obtain ⟨w0, w1, w2, w3⟩ := sipRound_lt z0 z1 z2 z3 u0 u1 u2 u3
  rcases g4 : sipRound (z0, z1, z2, z3) with ⟨e0, e1, e2, e3⟩
  rw [g4] at w0 w1 w2 w3
  simp only at w0 w1 w2 w3
  dsimp only
  exact Nat.xor_lt_two_pow (Nat.xor_lt_two_pow w0 w1) (Nat.xor_lt_two_pow w2 w3)

/-- Hash-level well-formedness of a cell value: stored string bytes are
real bytes and float bit patterns fit in 64 bits (both automatic for data
decoded from a real file). -/
def hash_wf : Data → Prop
  | .STRING s => ∀ b ∈ s, b < 256
  | .FLOAT bits => bits < 2 ^ 64
  | _ => True

theorem hashBytes_lt (d : Data) (h : hash_wf d) : ∀ b ∈ hashBytes d, b < 256 := by
  cases d with
  | INT i =>
      intro b hb
      simp only [hashBytes, i32_le, List.mem_cons, List.not_mem_nil,
        or_false] at hb
      rcases hb with rfl | rfl | rfl | rfl
      all_goals omega
  | STRING s =>
      intro b hb
      rcases List.mem_append.mp hb with hb2 | hb2
      · exact h b hb2
      · simp only [List.mem_singleton] at hb2
        omega
  | NULL =>
      intro b hb
      simp only [hashBytes, List.mem_singleton] at hb
      omega
  | BOOLEAN v =>
      intro b hb
      simp only [hashBytes, List.mem_singleton] at hb
      cases v <;> (subst hb; decide)
  | FLOAT bits =>
      intro b hb
      simp only [hashBytes, i64_le, u64_le, List.mem_append, List.mem_cons,
        List.not_mem_nil, or_false] at hb
      rcases hb with (rfl | rfl | rfl | rfl | rfl | rfl | rfl | rfl) |
        (rfl | rfl | rfl | rfl | rfl | rfl | rfl | rfl)
      all_goals omega

theorem calculate_hash_lt (d : Data) (h : hash_wf d) :
    calculate_hash d < 2 ^ 64 :=
  siphash13_lt _ (hashBytes_lt d h)

theorem f64_isZero_cases (bits : Nat) (hlt : bits < 2 ^ 64)
    (hz : f64_isZero bits = true) : bits = 0 ∨ bits = 2 ^ 63 := by
  simp only [f64_isZero, f64_exp, f64_frac, Bool.and_eq_true, beq_iff_eq] at hz
  omega

theorem f64_eq_zero_or_same (a b : Nat) (ha : a < 2 ^ 64) (hb : b < 2 ^ 64)
    (h : f64_eq a b = true) :
    a = b ∨ ((a = 0 ∨ a = 2 ^ 63) ∧ (b = 0 ∨ b = 2 ^ 63)) := by
  rw [f64_eq] at h
  by_cases hn : (f64_isNaN a || f64_isNaN b) = true
  · rw [if_pos hn] at h
    cases h
  · rw [if_neg hn] at h
    by_cases hza : f64_isZero a = true <;> by_cases hzb : f64_isZero b = true
    · exact Or.inr ⟨f64_isZero_cases a ha hza, f64_isZero_cases b hb hzb⟩
    · rw [if_pos hza, if_neg hzb] at h
      have : b = 0 := by
        have := beq_iff_eq.mp h
        simpa [f64_pzero] using this.symm
      subst this
      exact absurd (by decide : f64_isZero 0 = true) hzb
    · rw [if_neg hza, if_pos hzb] at h
      have : a = 0 := by
        have := beq_iff_eq.mp h
        simpa [f64_pzero] using this
      subst this
      exact absurd (by decide : f64_isZero 0 = true) hza
    · rw [if_neg hza, if_neg hzb] at h
      exact Or.inl (beq_iff_eq.mp h)

theorem hash_respects_dataEq (a b : Data) (ha : hash_wf a) (hb : hash_wf b)
    (h : dataEq a b = true) : calculate_hash a = calculate_hash b := by
  cases a <;> cases b <;> simp [dataEq] at h
  case INT.INT => rw [h]
  case STRING.STRING => rw [h]
  case NULL.NULL => rfl
  case BOOLEAN.BOOLEAN => rw [h]
  case FLOAT.FLOAT =>
    rename_i f g
    have hf : f < 2 ^ 64 := ha
    have hg : g < 2 ^ 64 := hb
    rcases f64_eq_zero_or_same f g hf hg h with rfl | ⟨hfz, hgz⟩
    · rfl
    · rcases hfz with rfl | rfl <;> rcases hgz with rfl | rfl
      · rfl
      · decide
      · decide
      · rfl

/-- What the index serializer requires of the in-memory index to round-trip:
64-bit hashes and row numbers, declared lengths within 64 bits, and cell
encodings of exactly the declared column width that decode back. -/
def index_wf (col : Column) (m : List (Nat × List (Data × Nat))) : Prop :=
  ∀ p ∈ m, p.1 < 2 ^ 64 ∧ p.2.length * (col.size + 8) < 2 ^ 64 ∧
    ∀ q ∈ p.2, (Data.to_bytes q.1 col.size col.data_type).length = col.size ∧
      Data.from_bytes (Data.to_bytes q.1 col.size col.data_type) col = q.1 ∧
      q.2 < 2 ^ 64

theorem u64_be_length (n : Nat) : (u64_be n).length = 8 := by
  simp [u64_be]

theorem index_payload_length (col : Column) :
    ∀ (vs : List (Data × Nat)),
      (∀ q ∈ vs, (Data.to_bytes q.1 col.size col.data_type).length = col.size) →
      ((vs.map fun p =>
        Data.to_bytes p.1 col.size col.data_type ++ u64_be p.2).flatten).length =
        vs.length * (col.size + 8) := by
  intro vs
  induction vs with
  | nil => intro _; simp
  | cons q rest ih =>
      intro hwf
      simp only [List.map_cons, List.flatten_cons, List.length_append,
        List.length_cons]
      rw [ih fun x hx => hwf x (by simp [hx]), hwf q (by simp), u64_be_length]
      ring

theorem index_entries_roundtrip (col : Column) :
    ∀ (vs : List (Data × Nat)) (fuel : Nat), vs.length < fuel →
      (∀ q ∈ vs, (Data.to_bytes q.1 col.size col.data_type).length = col.size ∧
        Data.from_bytes (Data.to_bytes q.1 col.size col.data_type) col = q.1 ∧
        q.2 < 2 ^ 64) →
      index_entries_from_bytes col fuel (vs.length * (col.size + 8))
        ((vs.map fun p =>
          Data.to_bytes p.1 col.size col.data_type ++ u64_be p.2).flatten) = vs := by
  intro vs
  induction vs with
  | nil =>
      intro fuel hfuel _
      rcases fuel with _ | f
      · omega
      · simp only [List.length_nil, Nat.zero_mul, List.map_nil,
          List.flatten_nil]
        rfl
  | cons q rest ih =>
      intro fuel hfuel hwf
      rcases fuel with _ | f
      · omega
      obtain ⟨hlen, hrt, hnum⟩ := hwf q (by simp)
      have hN : (q :: rest).length * (col.size + 8) =
          (rest.length * (col.size + 8) + (col.size + 7)) + 1 := by
        simp only [List.length_cons]
        ring
      rw [hN]
      simp only [List.map_cons, List.flatten_cons, index_entries_from_bytes]
      have hassoc : (Data.to_bytes q.1 col.size col.data_type ++ u64_be q.2) ++
          (rest.map fun p =>
            Data.to_bytes p.1 col.size col.data_type ++ u64_be p.2).flatten =
          Data.to_bytes q.1 col.size col.data_type ++ (u64_be q.2 ++
          (rest.map fun p =>
            Data.to_bytes p.1 col.size col.data_type ++ u64_be p.2).flatten) := by
        simp [List.append_assoc]
      rw [hassoc]
      rw [List.take_left' hlen]
      rw [List.drop_left' hlen]
      rw [List.take_left' (u64_be_length q.2)]
      rw [hrt, u64_roundtrip q.2 hnum]
      have hdrop : (Data.to_bytes q.1 col.size col.data_type ++ (u64_be q.2 ++
          (rest.map fun p =>
            Data.to_bytes p.1 col.size col.data_type ++ u64_be p.2).flatten)).drop
          (col.size + 8) =
          (rest.map fun p =>
            Data.to_bytes p.1 col.size col.data_type ++ u64_be p.2).flatten := by
        rw [← List.append_assoc]
        refine List.drop_left' ?_
        rw [List.length_append, hlen, u64_be_length]
      rw [hdrop]
      have hsub : rest.length * (col.size + 8) + (col.size + 7) + 1 -
          (col.size + 8) = rest.length * (col.size + 8) := by
        generalize rest.length * (col.size + 8) = P
        omega
      rw [hsub]
      rw [ih f (by simp at hfuel; omega) fun x hx => hwf x (by simp [hx])]

theorem bucketsGet_set (h0 h : Nat) (vs : List (Data × Nat)) :
    ∀ (m : List (Nat × List (Data × Nat))),
      bucketsGet (bucketsSet m h0 vs) h =
        if h0 = h then some vs else bucketsGet m h := by
  intro m
  induction m with
  | nil =>
      by_cases he : h0 = h
      · subst he; simp [bucketsSet, bucketsGet]
      · simp [bucketsSet, bucketsGet, he, Ne.symm he]
  | cons p rest ih =>
      rcases p with ⟨h2, vs2⟩
      by_cases h20 : h2 = h0
      · subst h20
        by_cases h2h : h2 = h
        · subst h2h
          simp [bucketsSet, bucketsGet]
        · simp only [bucketsSet, if_pos rfl, bucketsGet, if_neg h2h]
      · simp only [bucketsSet, if_neg h20, bucketsGet]
        by_cases h2h : h2 = h
        · subst h2h
          rw [if_pos rfl, if_neg fun he => h20 he.symm, if_pos rfl]
        · rw [if_neg h2h, ih, if_neg h2h]

theorem written_index_length_ge (col : Column) :
    ∀ (m : List (Nat × List (Data × Nat))),
      m.length ≤ (written_index_bytes col m).length := by
  intro m
  induction m with
  | nil => simp [written_index_bytes]
  | cons p rest ih =>
      simp only [written_index_bytes, List.map_cons, List.flatten_cons,
        List.length_append, List.length_cons] at ih ⊢
      have : 16 ≤ (index_row_to_bytes col p.1 p.2).length := by
        simp only [index_row_to_bytes, List.length_append, u64_be_length]
        omega
      omega

theorem index_records_roundtrip (col : Column) :
    ∀ (m : List (Nat × List (Data × Nat))) (fuel : Nat), m.length < fuel →
      index_wf col m →
      ∀ h, bucketsGet (index_records_from_bytes col fuel
          (written_index_bytes col m)) h = bucketsGet m h := by
  intro m
  induction m with
  | nil =>
      intro fuel hfuel _ h
      rcases fuel with _ | f
      · omega
      · simp [written_index_bytes, index_records_from_bytes, bucketsGet]
  | cons p rest ih =>
      intro fuel hfuel hwf h
      rcases fuel with _ | f
      · omega
      rcases p with ⟨h0, vs⟩
      obtain ⟨hh0, hlenb, hentries⟩ := hwf (h0, vs) (by simp)
      have hplen : ((vs.map fun q =>
          Data.to_bytes q.1 col.size col.data_type ++ u64_be q.2).flatten).length =
          vs.length * (col.size + 8) :=
        index_payload_length col vs fun q hq => (hentries q hq).1
      have hrec_len : (index_row_to_bytes col h0 vs).length =
          vs.length * (col.size + 8) + 16 := by
        simp only [index_row_to_bytes, List.length_append, u64_be_length, hplen]
        omega
      have hbytes : written_index_bytes col ((h0, vs) :: rest) =
          index_row_to_bytes col h0 vs ++ written_index_bytes col rest := by
        simp [written_index_bytes]
      rw [hbytes]
      have hlen_pos : (index_row_to_bytes col h0 vs ++
          written_index_bytes col rest).length ≠ 0 := by
        simp only [List.length_append, hrec_len]
        omega
      simp only [index_records_from_bytes, if_neg hlen_pos]
      have htake8 : (index_row_to_bytes col h0 vs ++
          written_index_bytes col rest).take 8 =
          u64_be (vs.length * (col.size + 8)) := by
        rw [index_row_to_bytes, List.append_assoc, List.append_assoc]
        exact List.take_left' (u64_be_length _)
      rw [htake8, u64_roundtrip _ hlenb]
      have htake_rec : (index_row_to_bytes col h0 vs ++
          written_index_bytes col rest).take (vs.length * (col.size + 8) + 16) =
          index_row_to_bytes col h0 vs := List.take_left' hrec_len
      have hdrop_rec : (index_row_to_bytes col h0 vs ++
          written_index_bytes col rest).drop (vs.length * (col.size + 8) + 16) =
          written_index_bytes col rest := List.drop_left' hrec_len
      rw [htake_rec, hdrop_rec]
      have hrow : index_row_from_bytes col (index_row_to_bytes col h0 vs) =
          (h0, vs) := by
        rw [index_row_from_bytes]
        have ht8 : (index_row_to_bytes col h0 vs).take 8 =
            u64_be (vs.length * (col.size + 8)) := by
          rw [index_row_to_bytes, List.append_assoc]
          exact List.take_left' (u64_be_length _)
        have hd8 : (index_row_to_bytes col h0 vs).drop 8 =
            u64_be h0 ++ (vs.map fun q =>
              Data.to_bytes q.1 col.size col.data_type ++ u64_be q.2).flatten := by
          rw [index_row_to_bytes, List.append_assoc]
          exact List.drop_left' (u64_be_length _)
        have hd16 : (index_row_to_bytes col h0 vs).drop 16 =
            (vs.map fun q =>
              Data.to_bytes q.1 col.size col.data_type ++ u64_be q.2).flatten := by
          rw [show (16 : Nat) = 8 + 8 from rfl, ← List.drop_drop, hd8]
          exact List.drop_left' (u64_be_length _)
        rw [ht8, u64_roundtrip _ hlenb, hd8]
        rw [List.take_left' (u64_be_length _), u64_roundtrip _ hh0, hd16]
        rw [index_entries_roundtrip col vs (vs.length * (col.size + 8) + 1)
          (by
            have : vs.length ≤ vs.length * (col.size + 8) :=
              Nat.le_mul_of_pos_right _ (by omega)
            omega)
          hentries]
      rw [hrow]
      rw [bucketsGet_set]
      rw [ih f (by simp at hfuel; omega)
        (fun p2 hp2 => hwf p2 (by simp [hp2])) h]
      have hget : bucketsGet ((h0, vs) :: rest) h =
          if h0 = h then some vs else bucketsGet rest h := by
        simp [bucketsGet]
      rw [hget]

theorem index_from_bytes_roundtrip (col : Column)
    (m : List (Nat × List (Data × Nat))) (hwf : index_wf col m) (h : Nat) :
    bucketsGet (index_from_bytes col (written_index_bytes col m)) h =
      bucketsGet m h := by
  rw [index_from_bytes]
  exact index_records_roundtrip col m _
    (by have := written_index_length_ge col m; omega) hwf h

theorem find_reverse_nodup_gen {β : Type} (k : List Nat) :
    ∀ (l : List (List Nat × β)),
      (l.map Prod.fst).Nodup →
      (l.reverse.find? fun p => p.1 == k) = l.find? fun p => p.1 == k := by
  intro l
  induction l with
  | nil => simp
  | cons p rest ih =>
      rcases p with ⟨a, v⟩
      intro hnd
      simp only [List.map_cons, List.nodup_cons] at hnd
      by_cases h : a = k
      · subst h
        have hnone : (rest.find? fun p => p.1 == a) = none := by
          rw [List.find?_eq_none]
          intro x hx
          simp only [beq_iff_eq]
          intro he
          exact hnd.1 (by
            rw [← he]
            exact List.mem_map_of_mem Prod.fst hx)
        have hnone2 : (rest.reverse.find? fun p => p.1 == a) = none := by
          rw [List.find?_eq_none]
          intro x hx
          simp only [beq_iff_eq]
          intro he
          exact hnd.1 (by
            rw [← he]
            exact List.mem_map_of_mem Prod.fst (List.mem_reverse.mp hx))
        simp only [List.reverse_cons, List.find?_append, hnone2]
        simp [List.find?, hnone]
      · have hne : ((a, v).1 == k) = false := by simpa using h
        simp only [List.reverse_cons, List.find?_append, ih hnd.2]
        rcases hf : rest.find? fun p => p.1 == k with _ | v2
        · simp [List.find?, hne, hf]
        · simp [List.find?, hne, hf]

theorem find_map_key {α β : Type} (keyOf : α → List Nat) (valOf : α → β)
    (k : List Nat) :
    ∀ (L : List α) (j : Nat) (x : α),
      (L.map keyOf).Nodup → L.get? j = some x → keyOf x = k →
      ((L.map fun y => (keyOf y, valOf y)).find? fun p => p.1 == k) =
        some (k, valOf x) := by
  intro L
  induction L with
  | nil => intro j x _ hj _; cases hj
  | cons y ys ih =>
      intro j x hnd hj hk
      simp only [List.map_cons, List.nodup_cons] at hnd
      rcases j with _ | j
      · simp only [List.get?] at hj
        injection hj with hj
        subst hj
        simp [List.find?, hk]
      · simp only [List.get?] at hj
        have hxmem : x ∈ ys := List.get?_mem hj
        have hkey : keyOf y ≠ k := by
          intro he
          exact hnd.1 (by
            rw [he, ← hk]
            exact List.mem_map_of_mem keyOf hxmem)
        have hne : ((keyOf y, valOf y).1 == k) = false := by simpa using hkey
        simp only [List.map_cons, List.find?, hne]
        exact ih j x hnd.2 hj hk

theorem enumFrom_get? {α : Type} :
    ∀ (l : List α) (k i : Nat) (v : α), l.get? i = some v →
      (l.enumFrom k).get? i = some (k + i, v) := by
  intro l
  induction l with
  | nil => intro k i v hv; cases hv
  | cons a rest ih =>
      intro k i v hv
      rcases i with _ | i
      · simp only [List.get?] at hv
        injection hv with hv
        subst hv
        simp [List.enumFrom]
      · simp only [List.get?] at hv
        simp only [List.enumFrom, List.get?]
        rw [ih (k + 1) i v hv]
        congr 2
        omega

theorem zip_get? {α β : Type} :
    ∀ (as : List α) (bs : List β) (i : Nat) (a : α) (b : β),
      as.get? i = some a → bs.get? i = some b →
      (as.zip bs).get? i = some (a, b) := by
  intro as
  induction as with
  | nil => intro bs i a b ha _; cases ha
  | cons x xs ih =>
      intro bs i a b ha hb
      rcases bs with _ | ⟨y, ys⟩
      · cases hb
      rcases i with _ | i
      · simp only [List.get?] at ha hb
        injection ha with ha
        injection hb with hb
        subst ha
        subst hb
        simp [List.zip_cons_cons]
      · simp only [List.get?] at ha hb
        simp only [List.zip_cons_cons, List.get?]
        exact ih ys i a b ha hb

theorem enum_map_name (cols : List Column) :
    (cols.enum.map fun p => p.2.name) = cols.map Column.name := by
  rw [show (fun p : Nat × Column => p.2.name) =
    (Column.name ∘ Prod.snd) from rfl]
  rw [← List.map_map, List.enum_map_snd]

theorem defMapGet_spec (t : Table) (colIdx : Nat) (c : Column)
    (hnd : (t.columns.map Column.name).Nodup)
    (hcol : t.columns.get? colIdx = some c) :
    defMapGet (get_columns_definition_map t) c.name =
      some (colIdx, c.data_type) := by
  rw [defMapGet, get_columns_definition_map]
  have hkeys : ((t.columns.enum.map fun p =>
      (p.2.name, (p.1, p.2.data_type))).map Prod.fst).Nodup := by
    rw [List.map_map]
    rw [show ((Prod.fst ∘ fun p : Nat × Column =>
      (p.2.name, (p.1, p.2.data_type)))) = fun p : Nat × Column => p.2.name
      from rfl]
    rw [enum_map_name]
    exact hnd
  rw [find_reverse_nodup_gen c.name _ hkeys]
  have := find_map_key (fun p : Nat × Column => p.2.name)
    (fun p : Nat × Column => (p.1, p.2.data_type)) c.name t.columns.enum colIdx
    (colIdx, c)
    (by
      rw [enum_map_name]
      exact hnd)
    (by
      have := enumFrom_get? t.columns 0 colIdx c hcol
      simpa [List.enum] using this)
    rfl
  rw [this]
  rfl

theorem foldl_prepend {α β : Type} (f : α → β) :
    ∀ (L : List α) (init : List β),
      L.foldl (fun m p => f p :: m) init = (L.map f).reverse ++ init := by
  intro L
  induction L with
  | nil => intro init; simp
  | cons a rest ih =>
      intro init
      simp only [List.foldl_cons, List.map_cons, List.reverse_cons]
      rw [ih (f a :: init)]
      simp

theorem enum_getD_cols (dcol : Column) :
    ∀ (vals : List Data) (cols : List Column) (k : Nat),
      k + vals.length ≤ cols.length →
      ((vals.enumFrom k).map fun p =>
        ((cols.getD p.1 dcol).name, nodeValueOfData p.2)) =
        ((cols.drop k).zip vals).map fun q => (q.1.name, nodeValueOfData q.2) := by
  intro vals
  induction vals with
  | nil => intro cols k _; simp
  | cons v vs ih =>
      intro cols k h
      simp only [List.length_cons] at h
      have hk : k < cols.length := by omega
      have hdrop : cols.drop k = cols[k] :: cols.drop (k + 1) :=
        List.drop_eq_getElem_cons hk
      simp only [List.enumFrom, List.map_cons, hdrop, List.zip_cons_cons]
      rw [ih cols (k + 1) (by omega)]
      congr 2
      rw [List.getD_eq_getElem?_getD, List.getElem?_eq_getElem hk]
      rfl

theorem row_identifier_map_eq (t : Table) (row : Row)
    (hlen : row.values.length = t.columns.length) :
    row_identifier_map t row =
      ((t.columns.zip row.values).map fun q =>
        (q.1.name, nodeValueOfData q.2)).reverse := by
  have h := foldl_prepend (fun p : Nat × Data =>
    ((t.columns.getD p.1 ⟨[], .INT, false⟩).name, nodeValueOfData p.2))
    row.values.enum []
  rw [List.append_nil] at h
  rw [row_identifier_map]
  refine Eq.trans h ?_
  congr 1
  have := enum_getD_cols ⟨[], .INT, false⟩ row.values t.columns 0 (by omega)
  simpa [List.enum] using this

theorem mapGet_row_identifier_map (t : Table) (row : Row) (colIdx : Nat)
    (c : Column)
    (hnd : (t.columns.map Column.name).Nodup)
    (hcol : t.columns.get? colIdx = some c)
    (hlen : row.values.length = t.columns.length)
    (v : Data) (hv : row.values.get? colIdx = some v) :
    mapGet (row_identifier_map t row) c.name = some (nodeValueOfData v) := by
  rw [row_identifier_map_eq t row hlen, mapGet]
  have hkeys : (((t.columns.zip row.values).map fun q =>
      (q.1.name, nodeValueOfData q.2)).map Prod.fst).Nodup := by
    rw [List.map_map]
    rw [show (Prod.fst ∘ fun q : Column × Data =>
      (q.1.name, nodeValueOfData q.2)) =
      fun q : Column × Data => q.1.name from rfl]
    rw [show (fun q : Column × Data => q.1.name) =
      (Column.name ∘ Prod.fst) from rfl]
    rw [← List.map_map]
    rw [List.map_fst_zip _ _ (by omega)]
    exact hnd
  rw [find_reverse_nodup_gen c.name _ hkeys]
  have := find_map_key (fun q : Column × Data => q.1.name)
    (fun q : Column × Data => nodeValueOfData q.2) c.name
    (t.columns.zip row.values) colIdx (c, v)
    (by
      rw [show ((t.columns.zip row.values).map fun q : Column × Data =>
        q.1.name) = ((t.columns.zip row.values).map Prod.fst).map Column.name
        from by rw [List.map_map]; rfl]
      rw [List.map_fst_zip _ _ (by omega)]
      exact hnd)
    (zip_get? t.columns row.values colIdx c v hcol hv)
    rfl
  rw [this]
  rfl

theorem evaluate_node_no_ids :
    ∀ (n : Node) (m : IdentMap), collect_identifiers n = [] →
      evaluate_node n m = evaluate_node n [] := by
  intro n
  induction n with
  | Leaf token =>
      intro m h
      cases token <;> first
        | rfl
        | (simp [collect_identifiers] at h)
  | Binary l op r ihl ihr =>
      intro m h
      simp only [collect_identifiers, List.append_eq_nil] at h
      simp only [evaluate_node, ihl m h.1, ihr m h.2]
  | Unary op sub ih =>
      intro m h
      simp only [collect_identifiers] at h
      simp only [evaluate_node, ih m h]

theorem compare_eval (ty : DataType) (d s2 : Data) (m : IdentMap)
    (name : List Nat) (right : Node)
    (hd : is_valid_data_for_type d ty = true)
    (hs : is_valid_data_for_type s2 ty = true)
    (hmap : mapGet m name = some (nodeValueOfData d))
    (hr : evaluate_node right m = .ok (nodeValueOfData s2)) :
    evaluate_binary_node (.Binary (.Leaf (.Identifier name))
      (.CompareOp (asciiBytes "=")) right) m = .ok (dataEq d s2) := by
  simp only [evaluate_binary_node, evaluate_node, evaluate_leaf, hmap,
    PResult.bind, hr]
  cases ty <;> cases d <;> cases s2 <;>
    first
      | rfl
      | (simp [is_valid_data_for_type] at hd; done)
      | (simp [is_valid_data_for_type] at hs; done)

theorem slow_foldr_eq (t : Table) (node : Node) (f : Nat × Row → Bool) :
    ∀ (L : List (Nat × Row)),
      (∀ p ∈ L, apply_row_predicate p.2 t node = .ok (f p)) →
      L.foldr (fun p acc =>
        QResult.bind (apply_row_predicate p.2 t node) fun keep =>
          QResult.bind acc fun rest =>
            .ok (if keep then p.1 :: rest else rest)) (.ok []) =
      .ok ((L.filter f).map Prod.fst) := by
  intro L
  induction L with
  | nil => intro _; rfl
  | cons p rest ih =>
      intro h
      have h1 := h p (by simp)
      have h2 := ih fun q hq => h q (by simp [hq])
      rw [List.foldr_cons, h1, h2]
      by_cases hf : f p = true
      · simp [QResult.bind, List.filter_cons, hf]
      · have hf2 : f p = false := by simpa using hf
        simp [QResult.bind, List.filter_cons, hf2]

theorem slow_path_rows_eq (t : Table) (rows : List Row) (node : Node)
    (f : Nat × Row → Bool)
    (h : ∀ p ∈ rows.enum, apply_row_predicate p.2 t node = .ok (f p)) :
    slow_path_rows t rows node = .ok ((rows.enum.filter f).map Prod.fst) := by
  rw [slow_path_rows]
  exact slow_foldr_eq t node f rows.enum h

theorem nodeValueOfData_dataOf (v : NodeValue) :
    nodeValueOfData (dataOfNodeValue v) = v := by
  cases v <;> rfl

theorem bucketsInsert_mem_key :
    ∀ (m : List (Nat × List (Data × Nat))) (h : Nat) (v : Data × Nat)
      (p : Nat × List (Data × Nat)), p ∈ bucketsInsert m h v →
      p.1 = h ∨ ∃ p2 ∈ m, p.1 = p2.1 := by
  intro m
  induction m with
  | nil =>
      intro h v p hp
      simp only [bucketsInsert, List.mem_singleton] at hp
      subst hp
      exact Or.inl rfl
  | cons q rest ih =>
      rcases q with ⟨h2, vs⟩
      intro h v p hp
      by_cases he : h2 = h
      · subst he
        rw [show bucketsInsert ((h2, vs) :: rest) h2 v =
          (h2, vs ++ [v]) :: rest from by simp [bucketsInsert]] at hp
        rcases List.mem_cons.mp hp with hp2 | hp2
        · exact Or.inl (by rw [hp2])
        · exact Or.inr ⟨p, by simp [hp2], rfl⟩
      · rw [show bucketsInsert ((h2, vs) :: rest) h v =
          (h2, vs) :: bucketsInsert rest h v from by simp [bucketsInsert, he]] at hp
        rcases List.mem_cons.mp hp with hp2 | hp2
        · exact Or.inr ⟨(h2, vs), by simp, by rw [hp2]⟩
        · rcases ih h v p hp2 with hk | ⟨p2, hp2b, he2⟩
          · exact Or.inl hk
          · exact Or.inr ⟨p2, by simp [hp2b], he2⟩

theorem foldl_insert_keyP (P : Nat → Prop) :
    ∀ (L : List (Data × Nat)) (m : List (Nat × List (Data × Nat))),
      (∀ p ∈ m, P p.1) → (∀ q ∈ L, P (calculate_hash q.1)) →
      ∀ p ∈ L.foldl (fun m2 q => bucketsInsert m2 (calculate_hash q.1) q) m,
        P p.1 := by
  intro L
  induction L with
  | nil => intro m hm _ p hp; exact hm p hp
  | cons q rest ih =>
      intro m hm hL p hp
      refine ih _ ?_ (fun q2 hq2 => hL q2 (by simp [hq2])) p hp
      intro p2 hp2
      rcases bucketsInsert_mem_key m (calculate_hash q.1) q p2 hp2 with
        hk | ⟨p3, hp3, he3⟩
      · rw [hk]; exact hL q (by simp)
      · rw [he3]; exact hm p3 hp3

theorem buildIndex_key_lt (colIdx : Nat) (rows : List Row)
    (hcells : ∀ row ∈ rows, hash_wf (row.values.getD colIdx .NULL)) :
    ∀ p ∈ buildIndex colIdx rows, p.1 < 2 ^ 64 := by
  rw [buildIndex_as_foldl]
  refine foldl_insert_keyP (fun h => h < 2 ^ 64)
    (rows.enum.map fun p => (p.2.values.getD colIdx .NULL, p.1)) []
    (fun p hp => absurd hp (List.not_mem_nil p)) ?_
  intro q hq
  rcases List.mem_map.mp hq with ⟨pr, hpr, rfl⟩
  obtain ⟨_, _, hget⟩ := mem_enumFrom_spec rows 0 pr (by simpa [List.enum] using hpr)
  exact calculate_hash_lt _ (hcells pr.2 (List.get?_mem hget))

theorem get?_getD {α : Type} (l : List α) (i : Nat) (d : α) (h : i < l.length) :
    l.get? i = some (l.getD i d) := by
  rw [List.get?_eq_getElem?, List.getElem?_eq_getElem h,
    List.getD_eq_getElem?_getD, List.getElem?_eq_getElem h]
  rfl

theorem getD_of_get? {α : Type} (l : List α) (i : Nat) (x d : α)
    (h : l.get? i = some x) : l.getD i d = x := by
  rw [List.getD_eq_getElem?_getD, ← List.get?_eq_getElem?, h]
  rfl

theorem buildIndex_wf (c : Column) (colIdx : Nat) (rows : List Row)
    (hrows : ∀ row ∈ rows,
      (Data.to_bytes (row.values.getD colIdx .NULL) c.size c.data_type).length
        = c.size ∧
      Data.from_bytes (Data.to_bytes (row.values.getD colIdx .NULL) c.size
        c.data_type) c = row.values.getD colIdx .NULL ∧
      hash_wf (row.values.getD colIdx .NULL))
    (hcount : rows.length * (c.size + 8) < 2 ^ 64) :
    index_wf c (buildIndex colIdx rows) := by
  intro p hp
  have hknd := buildIndex_keys_nodup colIdx rows
  have hbg := bucketsGet_of_mem_nodup _ hknd p hp
  have hentries : p.2 = (rows.enum.map fun pr =>
      (pr.2.values.getD colIdx .NULL, pr.1)).filter
        fun q => calculate_hash q.1 == p.1 := by
    have h1 : entriesD (buildIndex colIdx rows) p.1 = p.2 := by
      rw [entriesD, hbg]
      rfl
    rw [← h1, entriesD_buildIndex]
  have hmem_row : ∀ q ∈ p.2, ∃ pr : Nat × Row, pr.2 ∈ rows ∧
      pr.1 < rows.length ∧ q = (pr.2.values.getD colIdx .NULL, pr.1) := by
    intro q hq
    rw [hentries] at hq
    have hq2 := List.mem_of_mem_filter hq
    rcases List.mem_map.mp hq2 with ⟨pr, hpr, rfl⟩
    obtain ⟨_, hlt, hget⟩ := mem_enumFrom_spec rows 0 pr
      (by simpa [List.enum] using hpr)
    exact ⟨pr, List.get?_mem hget, by omega, rfl⟩
  refine ⟨?_, ?_, ?_⟩
  · exact buildIndex_key_lt colIdx rows
      (fun row hrow => (hrows row hrow).2.2) p hp
  · have hlen : p.2.length ≤ rows.length := by
      rw [hentries]
      calc ((rows.enum.map fun pr =>
            (pr.2.values.getD colIdx .NULL, pr.1)).filter
              fun q => calculate_hash q.1 == p.1).length
          ≤ ((rows.enum.map fun pr =>
            (pr.2.values.getD colIdx .NULL, pr.1))).length :=
            List.length_filter_le _ _
        _ = rows.enum.length := List.length_map _ _
        _ = rows.length := List.enum_length
    calc p.2.length * (c.size + 8) ≤ rows.length * (c.size + 8) :=
        Nat.mul_le_mul_right _ hlen
      _ < 2 ^ 64 := hcount
  · intro q hq
    obtain ⟨pr, hprm, hprlt, rfl⟩ := hmem_row q hq
    obtain ⟨hl, hr, _⟩ := hrows pr.2 hprm
    refine ⟨hl, hr, ?_⟩
    have : rows.length ≤ rows.length * (c.size + 8) :=
      Nat.le_mul_of_pos_right _ (by omega)
    omega

theorem fast_filter_eq (colIdx : Nat) (rows : List Row) (s2 : Data)
    (hs2 : hash_wf s2)
    (hcells : ∀ row ∈ rows, hash_wf (row.values.getD colIdx .NULL)) :
    (((rows.enum.map fun pr => (pr.2.values.getD colIdx .NULL, pr.1)).filter
        fun q => calculate_hash q.1 == calculate_hash s2).filter
        fun q => dataEq q.1 s2).map Prod.snd =
      (rows.enum.filter fun pr =>
        dataEq (pr.2.values.getD colIdx .NULL) s2).map Prod.fst := by
  rw [List.filter_filter]
  rw [List.filter_map, List.map_map]
  have hpred : ∀ pr ∈ rows.enum,
      ((fun q : Data × Nat => dataEq q.1 s2 &&
        (calculate_hash q.1 == calculate_hash s2)) ∘ fun pr : Nat × Row =>
        (pr.2.values.getD colIdx .NULL, pr.1)) pr =
      dataEq (pr.2.values.getD colIdx .NULL) s2 := by
    intro pr hpr
    obtain ⟨_, hlt, hget⟩ := mem_enumFrom_spec rows 0 pr
      (by simpa [List.enum] using hpr)
    have hcell := hcells pr.2 (List.get?_mem hget)
    simp only [Function.comp]
    rcases hde : dataEq (pr.2.values.getD colIdx .NULL) s2 with _ | _
    · simp
    · rw [hash_respects_dataEq _ _ hcell hs2 hde]
      simp
  rw [List.filter_congr hpred]
  rfl

theorem apply_row_predicate_eq (t : Table) (row : Row) (colIdx : Nat)
    (c : Column) (rightNode : Node) (v : NodeValue)
    (hnd : (t.columns.map Column.name).Nodup)
    (hcol : t.columns.get? colIdx = some c)
    (hlen : row.values.length = t.columns.length)
    (hd : is_valid_data_for_type (row.values.getD colIdx .NULL)
      c.data_type = true)
    (hrids : collect_identifiers rightNode = [])
    (hre : evaluate_node rightNode [] = .ok v)
    (hvty : is_valid_data_for_type (dataOfNodeValue v) c.data_type = true) :
    apply_row_predicate row t (.Binary (.Leaf (.Identifier c.name))
      (.CompareOp (asciiBytes "=")) rightNode) =
      .ok (dataEq (row.values.getD colIdx .NULL) (dataOfNodeValue v)) := by
  have hclt : colIdx < t.columns.length := by
    rcases List.get?_eq_some.mp hcol with ⟨h2, _⟩
    exact h2
  have hvget : row.values.get? colIdx =
      some (row.values.getD colIdx .NULL) :=
    get?_getD _ _ _ (by omega)
  have hmap := mapGet_row_identifier_map t row colIdx c hnd hcol hlen _ hvget
  have hrm : evaluate_node rightNode (row_identifier_map t row) = .ok v := by
    rw [evaluate_node_no_ids rightNode _ hrids, hre]
  have hcmp := compare_eval c.data_type (row.values.getD colIdx .NULL)
    (dataOfNodeValue v) (row_identifier_map t row) c.name rightNode hd hvty
    hmap (by rw [hrm, nodeValueOfData_dataOf])
  rw [apply_row_predicate, hcmp]
  rfl

/-- Claim C3 (amended): the indexed-equality fast path agrees with the
full scan when, in addition to the claim's premises, the left subtree of
the `=` node is exactly the indexed column's identifier leaf, the right
subtree is an identifier-free expression evaluating to a value of the
column's runtime type (NULL included), and the stored rows are full-width
with cells that round-trip through the cell codec at the declared width
(hash-well-formed, with the row file small enough for the index headers).
Without the extra premises the claim fails (see the counterexample). -/
theorem claim_C3 (t : Table) (rows_bytes : List Nat) (colIdx : Nat)
    (c : Column) (rightNode : Node) (v : NodeValue)
    (index_file : Column → List Nat)
    (hcol : t.columns.get? colIdx = some c)
    (hnd : (t.columns.map Column.name).Nodup)
    (hidx : c.is_indexed = true)
    (hrids : collect_identifiers rightNode = [])
    (hre : evaluate_node rightNode [] = .ok v)
    (hvty : is_valid_data_for_type (dataOfNodeValue v) c.data_type = true)
    (hvwf : hash_wf (dataOfNodeValue v))
    (hfile : index_file c =
      written_index_bytes c (buildIndex colIdx (rows_iterator t rows_bytes)))
    (hrows : ∀ row ∈ rows_iterator t rows_bytes,
      row.values.length = t.columns.length ∧
      is_valid_data_for_type (row.values.getD colIdx .NULL)
        c.data_type = true ∧
      (Data.to_bytes (row.values.getD colIdx .NULL) c.size
        c.data_type).length = c.size ∧
      Data.from_bytes (Data.to_bytes (row.values.getD colIdx .NULL) c.size
        c.data_type) c = row.values.getD colIdx .NULL ∧
      hash_wf (row.values.getD colIdx .NULL))
    (hcount : (rows_iterator t rows_bytes).length * (c.size + 8) < 2 ^ 64) :
    get_rows_for_where_condition t rows_bytes index_file
      (some (.Binary (.Leaf (.Identifier c.name))
        (.CompareOp (asciiBytes "=")) rightNode)) =
    slow_path_rows t (rows_iterator t rows_bytes)
      (.Binary (.Leaf (.Identifier c.name))
        (.CompareOp (asciiBytes "=")) rightNode) := by
  have hgetD_c : t.columns.getD colIdx ⟨[], .INT, false⟩ = c :=
    getD_of_get? _ _ _ _ hcol
  have hids : collect_identifiers (Node.Binary (.Leaf (.Identifier c.name))
      (.CompareOp (asciiBytes "=")) rightNode) = [c.name] := by
    simp [collect_identifiers, hrids]
  have hwc : collect_where_columns t (get_columns_definition_map t) [c.name] =
      .ok [c] := by
    simp only [collect_where_columns, defMapGet_spec t colIdx c hnd hcol,
      QResult.bind, hgetD_c]
  have hdfn : data_from_node rightNode = .ok (dataOfNodeValue v) := by
    rw [data_from_node, hre]
    rfl
  have hrt := index_from_bytes_roundtrip c
    (buildIndex colIdx (rows_iterator t rows_bytes))
    (buildIndex_wf c colIdx _
      (fun row hrow => ⟨(hrows row hrow).2.2.1, (hrows row hrow).2.2.2.1,
        (hrows row hrow).2.2.2.2⟩)
      hcount)
  have hslow := slow_path_rows_eq t (rows_iterator t rows_bytes)
    (.Binary (.Leaf (.Identifier c.name)) (.CompareOp (asciiBytes "="))
      rightNode)
    (fun pr => dataEq (pr.2.values.getD colIdx .NULL) (dataOfNodeValue v))
    (by
      intro pr hpr
      obtain ⟨_, hlt, hget⟩ := mem_enumFrom_spec _ 0 pr
        (by simpa [List.enum] using hpr)
      have hmem := List.get?_mem hget
      exact apply_row_predicate_eq t pr.2 colIdx c rightNode v hnd hcol
        (hrows pr.2 hmem).1 (hrows pr.2 hmem).2.1 hrids hre hvty)
  rw [hslow]
  have hguard : (tokenEq (LexerToken.CompareOp (asciiBytes "="))
      (LexerToken.CompareOp (asciiBytes "=")) = true) ∧
      ([c] : List Column).length = 1 ∧
      ((([c] : List Column).getD 0 ⟨[], .INT, false⟩).is_indexed = true) :=
    ⟨by decide, rfl, by simpa using hidx⟩
  simp only [get_rows_for_where_condition, hids, hwc, QResult.bind]
  rw [if_pos hguard]
  simp only [List.getD_cons_zero, hfile, hdfn, QResult.bind]
  rw [hrt]
  rw [bucketsGet_match_filter, entriesD_buildIndex]
  rw [fast_filter_eq colIdx (rows_iterator t rows_bytes) (dataOfNodeValue v)
    hvwf (fun row hrow => (hrows row hrow).2.2.2.2)]

theorem claim_C3_counterexample :
    generate_indexes_writes
        ⟨asciiBytes "t", [⟨asciiBytes "x", DataType.INT, true⟩]⟩
        [0, 0, 0, 0, 0, 0, 0, 1] =
      [(get_index_file_name
          ⟨asciiBytes "t", [⟨asciiBytes "x", DataType.INT, true⟩]⟩
          ⟨asciiBytes "x", DataType.INT, true⟩,
        written_index_bytes ⟨asciiBytes "x", DataType.INT, true⟩
          (buildIndex 0 (rows_iterator
            ⟨asciiBytes "t", [⟨asciiBytes "x", DataType.INT, true⟩]⟩
            [0, 0, 0, 0, 0, 0, 0, 1])))] ∧
    collect_identifiers
      (.Binary (.Binary (.Leaf (.Identifier (asciiBytes "x"))) .Plus
        (.Leaf (.NumberLiteral 1))) (.CompareOp (asciiBytes "="))
        (.Leaf (.NumberLiteral 2))) = [asciiBytes "x"] ∧
    get_rows_for_where_condition
      ⟨asciiBytes "t", [⟨asciiBytes "x", DataType.INT, true⟩]⟩
      [0, 0, 0, 0, 0, 0, 0, 1]
      (fun col => written_index_bytes col
        (buildIndex 0 (rows_iterator
          ⟨asciiBytes "t", [⟨asciiBytes "x", DataType.INT, true⟩]⟩
          [0, 0, 0, 0, 0, 0, 0, 1])))
      (some (.Binary (.Binary (.Leaf (.Identifier (asciiBytes "x"))) .Plus
        (.Leaf (.NumberLiteral 1))) (.CompareOp (asciiBytes "="))
        (.Leaf (.NumberLiteral 2)))) = .ok [] ∧
    slow_path_rows
      ⟨asciiBytes "t", [⟨asciiBytes "x", DataType.INT, true⟩]⟩
      (rows_iterator
        ⟨asciiBytes "t", [⟨asciiBytes "x", DataType.INT, true⟩]⟩
        [0, 0, 0, 0, 0, 0, 0, 1])
      (.Binary (.Binary (.Leaf (.Identifier (asciiBytes "x"))) .Plus
        (.Leaf (.NumberLiteral 1))) (.CompareOp (asciiBytes "="))
        (.Leaf (.NumberLiteral 2))) = .ok [0] := by
  refine ⟨by decide, by decide, by decide, by decide⟩

theorem claim_C3_witness :
    get_rows_for_where_condition
      ⟨asciiBytes "t", [⟨asciiBytes "x", DataType.INT, true⟩]⟩
      [0, 0, 0, 0, 0, 0, 0, 1]
      (fun col => written_index_bytes col
        (buildIndex 0 (rows_iterator
          ⟨asciiBytes "t", [⟨asciiBytes "x", DataType.INT, true⟩]⟩
          [0, 0, 0, 0, 0, 0, 0, 1])))
      (some (.Binary (.Leaf (.Identifier (asciiBytes "x")))
        (.CompareOp (asciiBytes "=")) (.Leaf (.NumberLiteral 2)))) =
    slow_path_rows
      ⟨asciiBytes "t", [⟨asciiBytes "x", DataType.INT, true⟩]⟩
      (rows_iterator
        ⟨asciiBytes "t", [⟨asciiBytes "x", DataType.INT, true⟩]⟩
        [0, 0, 0, 0, 0, 0, 0, 1])
      (.Binary (.Leaf (.Identifier (asciiBytes "x")))
        (.CompareOp (asciiBytes "=")) (.Leaf (.NumberLiteral 2))) := by
  refine claim_C3
    ⟨asciiBytes "t", [⟨asciiBytes "x", DataType.INT, true⟩]⟩
    [0, 0, 0, 0, 0, 0, 0, 1] 0 ⟨asciiBytes "x", DataType.INT, true⟩
    (.Leaf (.NumberLiteral 2)) (.Int 2)
    (fun col => written_index_bytes col
      (buildIndex 0 (rows_iterator
        ⟨asciiBytes "t", [⟨asciiBytes "x", DataType.INT, true⟩]⟩
        [0, 0, 0, 0, 0, 0, 0, 1])))
    rfl (by decide) rfl rfl rfl (by decide) trivial rfl ?_ (by decide)
  intro row hrow
  have hrow2 : row = ⟨[Data.INT 1]⟩ := by
    have he : rows_iterator
        ⟨asciiBytes "t", [⟨asciiBytes "x", DataType.INT, true⟩]⟩
        [0, 0, 0, 0, 0, 0, 0, 1] = [⟨[Data.INT 1]⟩] := by decide
    rw [he] at hrow
    simpa using hrow
  subst hrow2
  exact ⟨rfl, by decide, by decide, by decide, trivial⟩

/-! ## Query parser (`query_parser/src/parser/query_parser.rs`) and SELECT
projection (`transaction_control/src/queries/select.rs`), for claim C9. -/

/-- Rust `Query`. -/
inductive Query where
  | Select (body : List LexerToken) (table_name : List Nat)
      (where_body : Option Node)
  | Insert (values : List LexerToken) (columns : List (List Nat))
      (table_name : List Nat)
  | Delete (table_name : List Nat) (where_body : Option Node)
  | CreateTable (table_name : List Nat)
      (columns_definition : List (List Nat × List Nat))
  | CreateIndex (column_name table_name : List Nat)
  | DropIndex (column_name table_name : List Nat)
  | DropTable (table_name : List Nat)
deriving DecidableEq, Repr

/-- `QueryParser::try_next`: returns whether the head matched and the new
index. -/
def try_next (tokens : List LexerToken) (i : Nat) (token : LexerToken) :
    Bool × Nat :=
  match tokens.get? i with
  | some current => if tokenEq current token then (true, i + 1) else (false, i)
  | none => (false, i)

/-- `QueryParser::require_expression_body_token`: the token kinds a query
body accepts (identifiers, all literals, `*`, parentheses, NULL). -/
def require_expression_body_token (tokens : List LexerToken) (i : Nat) :
    PResult (LexerToken × Nat) :=
  match tokens.get? i with
  | some token =>
      match token with
      | .Identifier _ | .FloatNumberLiteral _ | .BoolLiteral _
      | .NumberLiteral _ | .StringLiteral _ | .Star | .ParOpen | .ParClose
      | .Null => .ok (token, i + 1)
      | _ => .err (.UnexpectedToken (asciiBytes "expression body") token)
  | none => .err .UnexpectedQueryEnding

/-- `QueryParser::require_identifier`. -/
def require_identifier (tokens : List LexerToken) (i : Nat) :
    PResult (List Nat × Nat) :=
  match tokens.get? i with
  | some (.Identifier id) => .ok (id, i + 1)
  | some token => .err (.UnexpectedToken (asciiBytes "identifier") token)
  | none => .err .UnexpectedQueryEnding

/-- `QueryParser::require_datatype`. -/
def require_datatype (tokens : List LexerToken) (i : Nat) :
    PResult (List Nat × Nat) :=
  match tokens.get? i with
  | some (.DataType datatype) => .ok (datatype, i + 1)
  | some token => .err (.UnexpectedToken (asciiBytes "data-type") token)
  | none => .err .UnexpectedQueryEnding

/-- `QueryParser::require_token` (the expected-token name is the `{:?}`
rendering of the required token). -/
def require_token (tokens : List LexerToken) (i : Nat)
    (required : LexerToken) (rname : List Nat) : PResult Nat :=
  match tokens.get? i with
  | some token =>
      if tokenEq token required then .ok (i + 1)
      else .err (.UnexpectedToken rname token)
  | none => .err .UnexpectedQueryEnding

/-- `QueryParser::require_table_or_index`. -/
def require_table_or_index (tokens : List LexerToken) (i : Nat) :
    PResult (LexerToken × Nat) :=
  match tokens.get? i with
  | some token =>
      if tokenEq token .Table ∨ tokenEq token .Index then .ok (token, i + 1)
      else .err (.UnexpectedToken (asciiBytes "table name or identifier") token)
  | none => .err .UnexpectedQueryEnding

/-- The loop of `QueryParser::parse_query_body` (fuel: each pass consumes
one token). -/
def parse_query_body_go (tokens : List LexerToken) :
    Nat → Nat → List LexerToken → PResult (List LexerToken × Nat)
  | 0, _, _ => .err .UnexpectedQueryEnding
  | fuel + 1, i, acc =>
      PResult.bind (require_expression_body_token tokens i) fun pr =>
        let acc2 := acc ++ [pr.1]
        let i2 := (try_next tokens pr.2 .Comma).2
        match tokens.get? i2 with
        | some .From => .ok (acc2, i2)
        | none => .ok (acc2, i2)
        | _ => parse_query_body_go tokens fuel i2 acc2

/-- `QueryParser::parse_query_body`. -/
def parse_query_body (tokens : List LexerToken) (i : Nat) :
    PResult (List LexerToken × Nat) :=
  parse_query_body_go tokens (tokens.length + 2) i []

/-- `QueryParser::parse_where_body`: everything after `WHERE` goes through
the expression-tree builder; with no `WHERE` the body is empty.  The pair
carries the parser index afterwards: the drain loop calls `next` until it
returns `None`, leaving the index one past the end of the tokens. -/
def parse_where_body (tokens : List LexerToken) (i : Nat) :
    PResult (Option Node × Nat) :=
  let pr := try_next tokens i .Where
  if pr.1 then
    PResult.bind (parse_tree (tokens.drop pr.2)) fun wb =>
      .ok (wb, tokens.length + 1)
  else
    PResult.bind (parse_tree []) fun wb => .ok (wb, i)

/-- The column-name loop of the INSERT branch of `parse_query`. -/
def insert_columns_go (tokens : List LexerToken) :
    Nat → Nat → List (List Nat) → PResult (List (List Nat) × Nat)
  | 0, _, _ => .err .UnexpectedQueryEnding
  | fuel + 1, i, acc =>
      let pr := try_next tokens i .ParClose
      if pr.1 then .ok (acc, pr.2)
      else
        PResult.bind (require_identifier tokens i) fun idr =>
          insert_columns_go tokens fuel (try_next tokens idr.2 .Comma).2
            (acc ++ [idr.1])

/-- The loop of `QueryParser::parse_columns_definition`. -/
def columns_definition_go (tokens : List LexerToken) :
    Nat → Nat → List (List Nat × List Nat) →
      PResult (List (List Nat × List Nat) × Nat)
  | 0, _, _ => .err .UnexpectedQueryEnding
  | fuel + 1, i, acc =>
      PResult.bind (require_identifier tokens i) fun idr =>
        PResult.bind (require_datatype tokens idr.2) fun dtr =>
          let pr := try_next tokens dtr.2 .Comma
          if pr.1 then
            columns_definition_go tokens fuel pr.2 (acc ++ [(idr.1, dtr.1)])
          else .ok (acc ++ [(idr.1, dtr.1)], pr.2)

/-- The epilogue of `QueryParser::parse_query`: skip one optional trailing
semicolon, then `require_eof` — whose `UnexpectedQueryEnding` takes
precedence over a match-arm error value (the `?` early returns and the
explicit `return` statements inside the branches bypass it). -/
def parse_epilogue (tokens : List LexerToken) (i : Nat)
    (query : PResult Query) : PResult Query :=
  let i2 := (try_next tokens i .Semicolon).2
  if i2 < tokens.length then .err .UnexpectedQueryEnding else query

/-- `QueryParser::parse_query` (`parse` runs it on the lexer output with
index 0).  Branch error paths raised through `?` (and the two
`return Err`s of the INSERT branch) skip the epilogue, as does the
`return Ok` of the DROP TABLE branch; every other outcome — including the
catch-all `UnexpectedToken` error value — passes through it. -/
def parse_query (tokens : List LexerToken) : PResult Query :=
  match tokens.get? 0 with
  | none => .err .UnexpectedQueryEnding
  | some query_type =>
      match query_type with
      | .Select =>
          PResult.bind (parse_query_body tokens 1) fun bodyr =>
            PResult.bind (require_token tokens bodyr.2 .From
              (asciiBytes "From")) fun i2 =>
              PResult.bind (require_identifier tokens i2) fun namer =>
                PResult.bind (parse_where_body tokens namer.2) fun wbr =>
                  parse_epilogue tokens wbr.2
                    (.ok (.Select bodyr.1 namer.1 wbr.1))
      | .Insert =>
          PResult.bind (require_token tokens 1 .Into (asciiBytes "Into"))
            fun i1 =>
          PResult.bind (require_identifier tokens i1) fun namer =>
          let prOpen := try_next tokens namer.2 .ParOpen
          PResult.bind (if prOpen.1 then
              insert_columns_go tokens (tokens.length + 2) prOpen.2 []
            else .ok ([], prOpen.2)) fun colsr =>
          PResult.bind (require_token tokens colsr.2 .Values
            (asciiBytes "Values")) fun i3 =>
          let prPar := try_next tokens i3 .ParOpen
          PResult.bind (parse_query_body tokens prPar.2) fun valuesr =>
          PResult.bind (if prPar.1 then
              match valuesr.1.getLast? with
              | some lv =>
                  if tokenEq lv .ParClose then .ok valuesr.1.dropLast
                  else .err (.UnexpectedToken
                    (asciiBytes "closing parenthesis") lv)
              | none => .panicked
            else .ok valuesr.1) fun values =>
          if colsr.1 ≠ [] ∧ colsr.1.length ≠ values.length then
            .err .InsertQueryValuesMismatch
          else
            parse_epilogue tokens valuesr.2
              (.ok (.Insert values colsr.1 namer.1))
      | .Delete =>
          PResult.bind (require_token tokens 1 .From (asciiBytes "From"))
            fun i1 =>
            PResult.bind (require_identifier tokens i1) fun namer =>
              PResult.bind (parse_where_body tokens namer.2) fun wbr =>
                parse_epilogue tokens wbr.2 (.ok (.Delete namer.1 wbr.1))
      | .Create =>
          PResult.bind (require_table_or_index tokens 1) fun tir =>
            if tokenEq tir.1 .Table then
              PResult.bind (require_identifier tokens tir.2) fun namer =>
                let prOpen := try_next tokens namer.2 .ParOpen
                PResult.bind (columns_definition_go tokens
                  (tokens.length + 2) prOpen.2 []) fun defsr =>
                  PResult.bind (if prOpen.1 then
                      require_token tokens defsr.2 .ParClose
                        (asciiBytes "ParClose")
                    else .ok defsr.2) fun i4 =>
                    parse_epilogue tokens i4
                      (.ok (.CreateTable namer.1 defsr.1))
            else
              PResult.bind (require_identifier tokens tir.2) fun colr =>
                PResult.bind (require_token tokens colr.2 .On
                  (asciiBytes "On")) fun i2 =>
                  PResult.bind (require_identifier tokens i2) fun namer =>
                    parse_epilogue tokens namer.2
                      (.ok (.CreateIndex colr.1 namer.1))
      | .Drop =>
          PResult.bind (require_table_or_index tokens 1) fun tir =>
            if tokenEq tir.1 .Table then
              PResult.bind (require_identifier tokens tir.2) fun namer =>
                .ok (.DropTable namer.1)
            else
              PResult.bind (require_identifier tokens tir.2) fun colr =>
                PResult.bind (require_token tokens colr.2 .On
                  (asciiBytes "On")) fun i2 =>
                  PResult.bind (require_identifier tokens i2) fun namer =>
                    parse_epilogue tokens namer.2
                      (.ok (.DropIndex colr.1 namer.1))
      | _ => parse_epilogue tokens 1
          (.err (.UnexpectedToken (asciiBytes "SELECT/INSERT/DELETE")
            query_type))

/-- Rust `parse`: lex then `parse_query`. -/
def parse_sql (query : String) : PResult Query :=
  match lex query.toList with
  | .error e => .err e
  | .ok tokens => parse_query tokens

/-- Rust `get_projection_columns` (`select.rs`): identifiers must name
existing columns, `*` splices the schema, and every other token dies on
`unimplemented!`. -/
def get_projection_columns (table_name : List Nat) (t : Table)
    (m : List (List Nat × (Nat × DataType))) :
    List LexerToken → QResult (List Column)
  | [] => .ok []
  | token :: rest =>
      match token with
      | .Identifier column =>
          match defMapGet m column with
          | none => .err (.ColumnNotExists column table_name)
          | some pd =>
              QResult.bind (get_projection_columns table_name t m rest)
                fun cols => .ok (⟨column, pd.2, false⟩ :: cols)
      | .Star =>
          QResult.bind (get_projection_columns table_name t m rest)
            fun cols => .ok (t.columns ++ cols)
      | _ => .panicked

/-- Claim C9 (amended): the public SELECT pipeline really does accept
literals, parentheses and NULL in the body (three concrete parses), and
`get_projection_columns` panics on the first body token that is neither an
`Identifier` nor `Star` — provided every earlier token is `Star` or an
identifier naming an existing column.  When an earlier identifier is
unknown, the function instead returns the typed `ColumnNotExists` error
(see the counterexample), so "any offending token ⇒ panic" is too strong. -/
theorem claim_C9 :
    (parse_sql "select 1 from t" =
      .ok (.Select [.NumberLiteral 1] (asciiBytes "t") none)) ∧
    (parse_sql "select (1) from t" =
      .ok (.Select [.ParOpen, .NumberLiteral 1, .ParClose]
        (asciiBytes "t") none)) ∧
    (parse_sql "select null from t" =
      .ok (.Select [.Null] (asciiBytes "t") none)) ∧
    ∀ (table_name : List Nat) (t : Table)
      (m : List (List Nat × (Nat × DataType))) (pre : List LexerToken)
      (bad : LexerToken) (rest : List LexerToken),
      (∀ tok ∈ pre, (∃ column, tok = .Identifier column ∧
        defMapGet m column ≠ none) ∨ tok = .Star) →
      (∀ column, bad ≠ .Identifier column) → bad ≠ .Star →
      get_projection_columns table_name t m (pre ++ bad :: rest) =
        .panicked := by
  refine ⟨by decide, by decide, by decide, ?_⟩
  intro table_name t m pre
  induction pre with
  | nil =>
      intro bad rest _ hbadid hbadstar
      simp only [List.nil_append]
      cases bad
      all_goals first
        | rfl
        | (exact absurd rfl (hbadid _))
        | (exact absurd rfl hbadstar)
  | cons tok pre2 ih =>
      intro bad rest hpre hbadid hbadstar
      have hih := ih bad rest (fun x hx => hpre x (by simp [hx]))
        hbadid hbadstar
      rcases hpre tok (by simp) with ⟨column, rfl, hsome⟩ | rfl
      · rcases hd : defMapGet m column with _ | pd
        · exact absurd hd hsome
        · simp only [List.cons_append, get_projection_columns, hd,
            List.append_eq, hih, QResult.bind]
      · simp only [List.cons_append, get_projection_columns,
          List.append_eq, hih, QResult.bind]

theorem claim_C9_witness :
    get_projection_columns (asciiBytes "t") ⟨asciiBytes "t", []⟩ []
      [.NumberLiteral 1] = .panicked := by
  have h := claim_C9.2.2.2 (asciiBytes "t") ⟨asciiBytes "t", []⟩ [] []
    (.NumberLiteral 1) []
    (fun tok htok => absurd htok (List.not_mem_nil tok))
    (fun column h2 => LexerToken.noConfusion h2)
    (fun h2 => LexerToken.noConfusion h2)
  exact h

theorem claim_C9_counterexample :
    parse_sql "select zz, 1 from t" =
      .ok (.Select [.Identifier (asciiBytes "zz"), .NumberLiteral 1]
        (asciiBytes "t") none) ∧
    get_projection_columns (asciiBytes "t") ⟨asciiBytes "t", []⟩
      (get_columns_definition_map ⟨asciiBytes "t", []⟩)
      [.Identifier (asciiBytes "zz"), .NumberLiteral 1] =
      .err (.ColumnNotExists (asciiBytes "zz") (asciiBytes "t")) := by
  refine ⟨by decide, by decide⟩

end SqlDb
